import Mathlib

/-!
# Gear mesh generation (`src/example/gears.cpp`, function `gear`)

The C++ function `gear` issues a sequence of fixed-function OpenGL calls.  The
embedding below records that sequence as a list of commands, and a small state
machine recovers the `glBegin`/`glEnd` groups together with the shade model
and current normal each vertex is drawn under.  The scalar type and the C math
library (`cos`, `sin`, `sqrt`, `M_PI`) are parameters, so the definitions are
executable at any type carrying the arithmetic operations.  The theorems about
exact geometry instantiate them with the real numbers and the exact real
functions; the statements about what the program computes in `GLfloat`
instantiate them with `F32`, a model of IEEE 754 binary32 arithmetic.

Groups are numbered in drawing order: 0 front face, 1 front sides of teeth,
2 back face, 3 back sides of teeth, 4 outward faces of teeth, 5 inside radius
cylinder.
-/

namespace Gears

/-- Argument of `glShadeModel`. -/
inductive ShadeModel where
  | flat
  | smooth
  deriving DecidableEq

/-- Argument of `glBegin`. -/
inductive PrimMode where
  | quads
  | quadStrip
  deriving DecidableEq

/-- The OpenGL calls made by `gear`. -/
inductive GLCmd (α : Type) where
  | glShadeModel (m : ShadeModel)
  | glNormal3f (x y z : α)
  | glBegin (m : PrimMode)
  | glVertex3f (x y z : α)
  | glEnd
  deriving DecidableEq

/-- The math-library functions and the constant `M_PI` used by `gear`. -/
structure Libm (α : Type) where
  cos : α → α
  sin : α → α
  sqrt : α → α
  pi : α

section Source

variable {α : Type} [Add α] [Sub α] [Mul α] [Div α] [Neg α] [Zero α] [One α]
  [NatCast α] [IntCast α] [OfScientific α]

/-- Tooth root radius: `r1 = outer_radius - tooth_depth / 2.f`. -/
def rootRadius (outer_radius tooth_depth : α) : α :=
  outer_radius - tooth_depth / 2

/-- Tooth tip radius: `r2 = outer_radius + tooth_depth / 2.f`. -/
def tipRadius (outer_radius tooth_depth : α) : α :=
  outer_radius + tooth_depth / 2

/-- Angular step: `da = 2.f * (float) M_PI / teeth / 4.f`. -/
def stepAngle (m : Libm α) (teeth : Int) : α :=
  2 * m.pi / (teeth : α) / 4

/-- Loop angle: `angle = i * 2.f * (float) M_PI / teeth`. -/
def toothAngle (m : Libm α) (teeth : Int) (i : Nat) : α :=
  ((i : Int) : α) * 2 * m.pi / (teeth : α)

/-- Body of the loop of lines 74-82 (front face), iteration `i`. -/
def frontFaceStep (m : Libm α) (r0 r1 width : α) (teeth : Int) (i : Nat) :
    List (GLCmd α) :=
  let da := stepAngle m teeth
  let angle := toothAngle m teeth i
  [ .glVertex3f (r0 * m.cos angle) (r0 * m.sin angle) (width * 0.5),
    .glVertex3f (r1 * m.cos angle) (r1 * m.sin angle) (width * 0.5) ] ++
  (if (i : Int) < teeth then
    [ .glVertex3f (r0 * m.cos angle) (r0 * m.sin angle) (width * 0.5),
      .glVertex3f (r1 * m.cos (angle + 3 * da)) (r1 * m.sin (angle + 3 * da)) (width * 0.5) ]
   else [])

/-- Body of the loop of lines 88-95 (front sides of teeth), iteration `i`. -/
def frontTeethStep (m : Libm α) (r1 r2 width : α) (teeth : Int) (i : Nat) :
    List (GLCmd α) :=
  let da := stepAngle m teeth
  let angle := toothAngle m teeth i
  [ .glVertex3f (r1 * m.cos angle) (r1 * m.sin angle) (width * 0.5),
    .glVertex3f (r2 * m.cos (angle + da)) (r2 * m.sin (angle + da)) (width * 0.5),
    .glVertex3f (r2 * m.cos (angle + 2 * da)) (r2 * m.sin (angle + 2 * da)) (width * 0.5),
    .glVertex3f (r1 * m.cos (angle + 3 * da)) (r1 * m.sin (angle + 3 * da)) (width * 0.5) ]

/-- Body of the loop of lines 102-110 (back face), iteration `i`. -/
def backFaceStep (m : Libm α) (r0 r1 width : α) (teeth : Int) (i : Nat) :
    List (GLCmd α) :=
  let da := stepAngle m teeth
  let angle := toothAngle m teeth i
  [ .glVertex3f (r1 * m.cos angle) (r1 * m.sin angle) (-width * 0.5),
    .glVertex3f (r0 * m.cos angle) (r0 * m.sin angle) (-width * 0.5) ] ++
  (if (i : Int) < teeth then
    [ .glVertex3f (r1 * m.cos (angle + 3 * da)) (r1 * m.sin (angle + 3 * da)) (-width * 0.5),
      .glVertex3f (r0 * m.cos angle) (r0 * m.sin angle) (-width * 0.5) ]
   else [])

/-- Body of the loop of lines 116-123 (back sides of teeth), iteration `i`. -/
def backTeethStep (m : Libm α) (r1 r2 width : α) (teeth : Int) (i : Nat) :
    List (GLCmd α) :=
  let da := stepAngle m teeth
  let angle := toothAngle m teeth i
  [ .glVertex3f (r1 * m.cos (angle + 3 * da)) (r1 * m.sin (angle + 3 * da)) (-width * 0.5),
    .glVertex3f (r2 * m.cos (angle + 2 * da)) (r2 * m.sin (angle + 2 * da)) (-width * 0.5),
    .glVertex3f (r2 * m.cos (angle + da)) (r2 * m.sin (angle + da)) (-width * 0.5),
    .glVertex3f (r1 * m.cos angle) (r1 * m.sin angle) (-width * 0.5) ]

/-- The values of `u`, `v` after lines 133-134: the rising-flank edge vector. -/
def risingEdge (m : Libm α) (r1 r2 : α) (teeth : Int) (i : Nat) : α × α :=
  let da := stepAngle m teeth
  let angle := toothAngle m teeth i
  let u := r2 * m.cos (angle + da) - r1 * m.cos angle
  let v := r2 * m.sin (angle + da) - r1 * m.sin angle
  (u, v)

/-- The value of `len` after line 135: `len = (float) sqrt(u * u + v * v)`. -/
def risingLen (m : Libm α) (r1 r2 : α) (teeth : Int) (i : Nat) : α :=
  let uv := risingEdge m r1 r2 teeth i
  m.sqrt (uv.1 * uv.1 + uv.2 * uv.2)

/-- The values of `u`, `v` after lines 136-137: `u /= len; v /= len`. -/
def risingUV (m : Libm α) (r1 r2 : α) (teeth : Int) (i : Nat) : α × α :=
  let uv := risingEdge m r1 r2 teeth i
  let len := risingLen m r1 r2 teeth i
  (uv.1 / len, uv.2 / len)

/-- The values of `u`, `v` after lines 144-145: the falling-flank edge vector. -/
def fallingUV (m : Libm α) (r1 r2 : α) (teeth : Int) (i : Nat) : α × α :=
  let da := stepAngle m teeth
  let angle := toothAngle m teeth i
  let u := r1 * m.cos (angle + 3 * da) - r2 * m.cos (angle + 2 * da)
  let v := r1 * m.sin (angle + 3 * da) - r2 * m.sin (angle + 2 * da)
  (u, v)

/-- Body of the loop of lines 128-150 (outward faces of teeth), iteration `i`. -/
def outwardStep (m : Libm α) (r1 r2 width : α) (teeth : Int) (i : Nat) :
    List (GLCmd α) :=
  let da := stepAngle m teeth
  let angle := toothAngle m teeth i
  let uv := risingUV m r1 r2 teeth i
  let uv' := fallingUV m r1 r2 teeth i
  [ .glVertex3f (r1 * m.cos angle) (r1 * m.sin angle) (width * 0.5),
    .glVertex3f (r1 * m.cos angle) (r1 * m.sin angle) (-width * 0.5),
    .glNormal3f uv.2 (-uv.1) 0,
    .glVertex3f (r2 * m.cos (angle + da)) (r2 * m.sin (angle + da)) (width * 0.5),
    .glVertex3f (r2 * m.cos (angle + da)) (r2 * m.sin (angle + da)) (-width * 0.5),
    .glNormal3f (m.cos angle) (m.sin angle) 0,
    .glVertex3f (r2 * m.cos (angle + 2 * da)) (r2 * m.sin (angle + 2 * da)) (width * 0.5),
    .glVertex3f (r2 * m.cos (angle + 2 * da)) (r2 * m.sin (angle + 2 * da)) (-width * 0.5),
    .glNormal3f uv'.2 (-uv'.1) 0,
    .glVertex3f (r1 * m.cos (angle + 3 * da)) (r1 * m.sin (angle + 3 * da)) (width * 0.5),
    .glVertex3f (r1 * m.cos (angle + 3 * da)) (r1 * m.sin (angle + 3 * da)) (-width * 0.5),
    .glNormal3f (m.cos angle) (m.sin angle) 0 ]

/-- Body of the loop of lines 161-166 (inside radius cylinder), iteration `i`. -/
def boreStep (m : Libm α) (r0 width : α) (teeth : Int) (i : Nat) : List (GLCmd α) :=
  let angle := toothAngle m teeth i
  [ .glNormal3f (-m.cos angle) (-m.sin angle) 0,
    .glVertex3f (r0 * m.cos angle) (r0 * m.sin angle) (-width * 0.5),
    .glVertex3f (r0 * m.cos angle) (r0 * m.sin angle) (width * 0.5) ]

/-- Iterations of `for (i = 0; i <= teeth; i++)`.  In the program `i` and `teeth`
are 32-bit `GLint`; the list is what the loop runs through for
`teeth < INT_MAX = 2147483647`, where `i++` cannot overflow. -/
def loopLe (teeth : Int) : List Nat := List.range (teeth + 1).toNat

/-- Iterations of `for (i = 0; i < teeth; i++)`. -/
def loopLt (teeth : Int) : List Nat := List.range teeth.toNat

/-- The function `gear` (lines 55-168): the sequence of OpenGL calls it makes. -/
def gear (m : Libm α) (inner_radius outer_radius width : α) (teeth : Int)
    (tooth_depth : α) : List (GLCmd α) :=
  let r0 := inner_radius
  let r1 := rootRadius outer_radius tooth_depth
  let r2 := tipRadius outer_radius tooth_depth
  [ .glShadeModel .flat,
    .glNormal3f 0 0 1 ] ++
  -- draw front face
  [ .glBegin .quadStrip ] ++
  (loopLe teeth).flatMap (frontFaceStep m r0 r1 width teeth) ++
  [ .glEnd ] ++
  -- draw front sides of teeth
  [ .glBegin .quads ] ++
  (loopLt teeth).flatMap (frontTeethStep m r1 r2 width teeth) ++
  [ .glEnd,
    .glNormal3f 0 0 (-1) ] ++
  -- draw back face
  [ .glBegin .quadStrip ] ++
  (loopLe teeth).flatMap (backFaceStep m r0 r1 width teeth) ++
  [ .glEnd ] ++
  -- draw back sides of teeth
  [ .glBegin .quads ] ++
  (loopLt teeth).flatMap (backTeethStep m r1 r2 width teeth) ++
  [ .glEnd ] ++
  -- draw outward faces of teeth
  [ .glBegin .quadStrip ] ++
  (loopLt teeth).flatMap (outwardStep m r1 r2 width teeth) ++
  [ .glVertex3f (r1 * m.cos 0) (r1 * m.sin 0) (width * 0.5),
    .glVertex3f (r1 * m.cos 0) (r1 * m.sin 0) (-width * 0.5),
    .glEnd,
    .glShadeModel .smooth ] ++
  -- draw inside radius cylinder
  [ .glBegin .quadStrip ] ++
  (loopLe teeth).flatMap (boreStep m r0 width teeth) ++
  [ .glEnd ]

end Source

/-! ## OpenGL state: which shade model and normal each vertex is emitted under -/

/-- A point or direction in space. -/
structure Vec3 (α : Type) where
  x : α
  y : α
  z : α
  deriving DecidableEq

/-- A vertex as received by the rasteriser: its position, the current normal
at the time of the `glVertex3f` call, and whether `glNormal3f` was called since
the previous `glVertex3f` (or `glBegin`) of the same primitive. -/
structure Vertex (α : Type) where
  pos : Vec3 α
  normal : Vec3 α
  fresh : Bool
  deriving DecidableEq

/-- One `glBegin` ... `glEnd` group with the shade model in force. -/
structure Primitive (α : Type) where
  mode : PrimMode
  shade : ShadeModel
  verts : List (Vertex α)
  deriving DecidableEq

/-- The part of the OpenGL state that `gear` reads or writes. -/
structure GLState (α : Type) where
  shade : ShadeModel
  normal : Vec3 α
  fresh : Bool
  current : Option (Primitive α)
  done : List (Primitive α)

/-- Effect of one call on the state.  Calls that OpenGL rejects (a
`glShadeModel` or `glBegin` inside a group, a `glVertex3f` or `glEnd` outside
one) leave the state unchanged. -/
def GLState.step {α : Type} (s : GLState α) : GLCmd α → GLState α
  | .glShadeModel m =>
    match s.current with
    | none => { s with shade := m }
    | some _ => s
  | .glNormal3f x y z => { s with normal := ⟨x, y, z⟩, fresh := true }
  | .glBegin mode =>
    match s.current with
    | none => { s with fresh := false, current := some ⟨mode, s.shade, []⟩ }
    | some _ => s
  | .glVertex3f x y z =>
    match s.current with
    | none => s
    | some p =>
      { s with fresh := false,
               current := some { p with verts := p.verts ++ [⟨⟨x, y, z⟩, s.normal, s.fresh⟩] } }
  | .glEnd =>
    match s.current with
    | none => s
    | some p => { s with current := none, done := s.done ++ [p] }

/-- Initial OpenGL state: smooth shading, current normal `(0, 0, 1)`. -/
def GLState.init {α : Type} [Zero α] [One α] : GLState α :=
  { shade := .smooth, normal := ⟨0, 0, 1⟩, fresh := false, current := none, done := [] }

/-- The groups drawn by a sequence of calls, in order. -/
def primitives {α : Type} [Zero α] [One α] (cmds : List (GLCmd α)) : List (Primitive α) :=
  (cmds.foldl GLState.step GLState.init).done

/-- The positions passed to `glVertex3f`, in order. -/
def positions {α : Type} : List (GLCmd α) → List (Vec3 α)
  | [] => []
  | .glVertex3f x y z :: cs => ⟨x, y, z⟩ :: positions cs
  | _ :: cs => positions cs

/-- The vertices of the `k`-th group drawn by `cmds` (empty if there is none). -/
def groupVerts {α : Type} [Zero α] [One α] (cmds : List (GLCmd α)) (k : Nat) : List (Vertex α) :=
  match (primitives cmds)[k]? with
  | some p => p.verts
  | none => []

/-- The vertex positions of the `k`-th group drawn by `cmds`. -/
def groupPositions {α : Type} [Zero α] [One α] (cmds : List (GLCmd α)) (k : Nat) : List (Vec3 α) :=
  (groupVerts cmds k).map Vertex.pos

/-- Squared Euclidean length. -/
def Vec3.normSq {α : Type} [Add α] [Mul α] (v : Vec3 α) : α :=
  v.x * v.x + v.y * v.y + v.z * v.z

/-! ## Bookkeeping functions for the state machine -/

/-- Vertices produced by a run of `glNormal3f`/`glVertex3f` calls inside a group,
starting from current normal `n` and freshness flag `f`. -/
def annotate {α : Type} (n : Vec3 α) (f : Bool) : List (GLCmd α) → List (Vertex α)
  | [] => []
  | .glNormal3f x y z :: cs => annotate ⟨x, y, z⟩ true cs
  | .glVertex3f x y z :: cs => ⟨⟨x, y, z⟩, n, f⟩ :: annotate n false cs
  | _ :: cs => annotate n f cs

/-- Current normal after a run of calls. -/
def finalNormal {α : Type} (n : Vec3 α) : List (GLCmd α) → Vec3 α
  | [] => n
  | .glNormal3f x y z :: cs => finalNormal ⟨x, y, z⟩ cs
  | _ :: cs => finalNormal n cs

/-- Freshness flag after a run of `glNormal3f`/`glVertex3f` calls. -/
def finalFresh {α : Type} (f : Bool) : List (GLCmd α) → Bool
  | [] => f
  | .glNormal3f _ _ _ :: cs => finalFresh true cs
  | .glVertex3f _ _ _ :: cs => finalFresh false cs
  | _ :: cs => finalFresh f cs

/-- The call is a `glNormal3f` or a `glVertex3f`. -/
def GLCmd.isBody {α : Type} : GLCmd α → Bool
  | .glNormal3f _ _ _ => true
  | .glVertex3f _ _ _ => true
  | _ => false

/-- The call is a `glVertex3f`. -/
def GLCmd.isVertex {α : Type} : GLCmd α → Bool
  | .glVertex3f _ _ _ => true
  | _ => false

section Derived

variable {α : Type} [Add α] [Sub α] [Mul α] [Div α] [Neg α] [Zero α] [One α]
  [NatCast α] [IntCast α] [OfScientific α]

/-- Calls between `glBegin` and `glEnd` of the outward-faces strip (lines 128-153). -/
def outwardBody (m : Libm α) (r1 r2 width : α) (teeth : Int) : List (GLCmd α) :=
  (loopLt teeth).flatMap (outwardStep m r1 r2 width teeth) ++
  [ .glVertex3f (r1 * m.cos 0) (r1 * m.sin 0) (width * 0.5),
    .glVertex3f (r1 * m.cos 0) (r1 * m.sin 0) (-width * 0.5) ]

/-- Distance of a point from the rotation axis (the z axis). -/
def axisDist (m : Libm α) (p : Vec3 α) : α :=
  m.sqrt (p.x * p.x + p.y * p.y)

/-- The point at radius `r` and angle `a` in the plane `z`. -/
def polar (m : Libm α) (r a z : α) : Vec3 α :=
  ⟨r * m.cos a, r * m.sin a, z⟩

/-- The normal set at line 138: `glNormal3f(v, -u, 0.0)` after `u /= len; v /= len`. -/
def risingNormal (m : Libm α) (r1 r2 : α) (teeth : Int) (i : Nat) : Vec3 α :=
  ⟨(risingUV m r1 r2 teeth i).2, -(risingUV m r1 r2 teeth i).1, 0⟩

/-- The normal set at line 146: `glNormal3f(v, -u, 0.f)`. -/
def fallingNormal (m : Libm α) (r1 r2 : α) (teeth : Int) (i : Nat) : Vec3 α :=
  ⟨(fallingUV m r1 r2 teeth i).2, -(fallingUV m r1 r2 teeth i).1, 0⟩

/-- The normal set at lines 141 and 149: `glNormal3f(cos(angle), sin(angle), 0.f)`. -/
def radialNormal (m : Libm α) (teeth : Int) (i : Nat) : Vec3 α :=
  ⟨m.cos (toothAngle m teeth i), m.sin (toothAngle m teeth i), 0⟩

/-- The normal set at line 163: `glNormal3f(-cos(angle), -sin(angle), 0.f)`. -/
def boreNormal (m : Libm α) (teeth : Int) (i : Nat) : Vec3 α :=
  ⟨-m.cos (toothAngle m teeth i), -m.sin (toothAngle m teeth i), 0⟩

/-- The eight vertices of iteration `i` of the outward-faces loop, given the
current normal `n` and freshness flag `f` on entry to the iteration. -/
def outwardVerts (m : Libm α) (r1 r2 width : α) (teeth : Int) (n : Vec3 α) (f : Bool)
    (i : Nat) : List (Vertex α) :=
  [ ⟨polar m r1 (toothAngle m teeth i) (width * 0.5), n, f⟩,
    ⟨polar m r1 (toothAngle m teeth i) (-width * 0.5), n, false⟩,
    ⟨polar m r2 (toothAngle m teeth i + stepAngle m teeth) (width * 0.5),
      risingNormal m r1 r2 teeth i, true⟩,
    ⟨polar m r2 (toothAngle m teeth i + stepAngle m teeth) (-width * 0.5),
      risingNormal m r1 r2 teeth i, false⟩,
    ⟨polar m r2 (toothAngle m teeth i + 2 * stepAngle m teeth) (width * 0.5),
      radialNormal m teeth i, true⟩,
    ⟨polar m r2 (toothAngle m teeth i + 2 * stepAngle m teeth) (-width * 0.5),
      radialNormal m teeth i, false⟩,
    ⟨polar m r1 (toothAngle m teeth i + 3 * stepAngle m teeth) (width * 0.5),
      fallingNormal m r1 r2 teeth i, true⟩,
    ⟨polar m r1 (toothAngle m teeth i + 3 * stepAngle m teeth) (-width * 0.5),
      fallingNormal m r1 r2 teeth i, false⟩ ]

/-- The current normal on entry to iteration `i` of the outward-faces loop: the
back-face normal for `i = 0`, else the radial normal set at the end of
iteration `i - 1`. -/
def outwardEntryNormal (m : Libm α) (teeth : Int) (i : Nat) : Vec3 α :=
  if i = 0 then ⟨0, 0, -1⟩ else radialNormal m teeth (i - 1)

/-- The two vertices of iteration `i` of the inside-cylinder loop. -/
def boreVerts (m : Libm α) (r0 width : α) (teeth : Int) (i : Nat) : List (Vertex α) :=
  [ ⟨polar m r0 (toothAngle m teeth i) (-width * 0.5), boreNormal m teeth i, true⟩,
    ⟨polar m r0 (toothAngle m teeth i) (width * 0.5), boreNormal m teeth i, false⟩ ]

/-- A quadrilateral, vertices in drawing order. -/
structure Quad (β : Type) where
  a : β
  b : β
  c : β
  d : β
  deriving DecidableEq

/-- The quads of a `GL_QUADS` group: vertices `4n, 4n+1, 4n+2, 4n+3` form quad
`n`; left-over vertices are ignored. -/
def quadsOf {β : Type} : List β → List (Quad β)
  | a :: b :: c :: d :: rest => ⟨a, b, c, d⟩ :: quadsOf rest
  | _ => []

/-- The quads of a `GL_QUAD_STRIP` group: vertices `2n, 2n+1, 2n+3, 2n+2` form
quad `n`. -/
def stripQuads {β : Type} : List β → List (Quad β)
  | a :: b :: c :: d :: rest => ⟨a, b, d, c⟩ :: stripQuads (c :: d :: rest)
  | _ => []

/-- Signed area of the projection of a quad on the xy-plane (shoelace formula);
positive when the projection is counter-clockwise seen from `+z`. -/
def Quad.signedAreaXY (q : Quad (Vec3 α)) : α :=
  ((q.a.x * q.b.y - q.b.x * q.a.y) + (q.b.x * q.c.y - q.c.x * q.b.y) +
   (q.c.x * q.d.y - q.d.x * q.c.y) + (q.d.x * q.a.y - q.a.x * q.d.y)) / 2

/-- Cross product. -/
def Vec3.cross (u v : Vec3 α) : Vec3 α :=
  ⟨u.y * v.z - u.z * v.y, u.z * v.x - u.x * v.z, u.x * v.y - u.y * v.x⟩

/-- Squared area of a quad: the squared length of its vector area, half the
cross product of its diagonals.  For a planar quad this is the square of its
area. -/
def Quad.areaSq (q : Quad (Vec3 α)) : α :=
  (⟨(q.c.x - q.a.x) / 2, (q.c.y - q.a.y) / 2, (q.c.z - q.a.z) / 2⟩ : Vec3 α).cross
    ⟨q.d.x - q.b.x, q.d.y - q.b.y, q.d.z - q.b.z⟩ |>.normSq

/-- Dot product. -/
def Vec3.dot (u v : Vec3 α) : α :=
  u.x * v.x + u.y * v.y + u.z * v.z

/-- Difference of two points. -/
def Vec3.sub (u v : Vec3 α) : Vec3 α :=
  ⟨u.x - v.x, u.y - v.y, u.z - v.z⟩

/-- The wall quad of the outward strip between the profile points at radius
`r`, angle `a` and at radius `r'`, angle `a'`: front, back, next back, next
front. -/
def wallQuad (m : Libm α) (width r a r' a' : α) : Quad (Vec3 α) :=
  ⟨polar m r a (width * 0.5), polar m r a (-width * 0.5),
   polar m r' a' (-width * 0.5), polar m r' a' (width * 0.5)⟩

/-- Even-indexed entries satisfy `A`, odd-indexed entries satisfy `B`. -/
inductive Alternates {β : Type} (A B : β → Prop) : List β → Prop
  | nil : Alternates A B []
  | single (a : β) : A a → Alternates A B [a]
  | pair (a b : β) (rest : List β) :
      A a → B b → Alternates A B rest → Alternates A B (a :: b :: rest)

/-- The quads of a group: a `GL_QUADS` group is cut into fours, a
`GL_QUAD_STRIP` group into overlapping pairs of vertex pairs. -/
def Primitive.quads (p : Primitive α) : List (Quad (Vec3 α)) :=
  match p.mode with
  | .quads => quadsOf (p.verts.map Vertex.pos)
  | .quadStrip => stripQuads (p.verts.map Vertex.pos)

/-- All quads drawn by a sequence of calls, in drawing order. -/
def meshQuads (cmds : List (GLCmd α)) : List (Quad (Vec3 α)) :=
  (primitives cmds).flatMap Primitive.quads

end Derived

/-! ## The periodic pattern of the mesh

One tooth unit contributes the same eleven quads to the mesh, on ten vertices
of its own and on the first vertices of the next unit.  The definitions below
name the vertices and list the quads and edges of one unit. -/

/-- Image of a quad under a map of its vertices. -/
def Quad.map {β γ : Type} (f : β → γ) (q : Quad β) : Quad γ :=
  ⟨f q.a, f q.b, f q.c, f q.d⟩

/-- The sides of a quad as unordered pairs of end points.  A side whose two end
points coincide (the quad is then a triangle) is not an edge. -/
def Quad.edges {β : Type} [DecidableEq β] (q : Quad β) : List (Sym2 β) :=
  [s(q.a, q.b), s(q.b, q.c), s(q.c, q.d), s(q.d, q.a)].filter (fun e => ¬ e.IsDiag)

/-- The vertex kinds of one tooth unit: the bore point and the four profile
points (root, tip, tip, root). -/
inductive Ring where
  | bore
  | p0
  | p1
  | p2
  | p3
  deriving DecidableEq

/-- A vertex of the periodic pattern: whether it belongs to the next tooth
unit, its kind, and whether it lies in the front plane. -/
structure PatVertex where
  next : Bool
  ring : Ring
  front : Bool
  deriving DecidableEq

/-- A vertex of the mesh with `T` teeth: tooth index, kind, front or back. -/
structure MeshVertex (T : Nat) where
  tooth : Fin T
  ring : Ring
  front : Bool
  deriving DecidableEq

/-- The tooth after tooth `i`, cyclically. -/
def nextTooth {T : Nat} (i : Fin T) : Fin T :=
  ⟨(i.val + 1) % T, Nat.mod_lt _ (Nat.lt_of_le_of_lt (Nat.zero_le _) i.isLt)⟩

/-- The pattern vertex placed at tooth `i`. -/
def place {T : Nat} (i : Fin T) (v : PatVertex) : MeshVertex T :=
  ⟨if v.next then nextTooth i else i, v.ring, v.front⟩

/-- The quads one tooth unit contributes to each of the six groups, in drawing
order. -/
def patternGroups : List (List (Quad PatVertex)) :=
  [ -- front face
    [ ⟨⟨false, .bore, true⟩, ⟨false, .p0, true⟩, ⟨false, .p3, true⟩, ⟨false, .bore, true⟩⟩,
      ⟨⟨false, .bore, true⟩, ⟨false, .p3, true⟩, ⟨true, .p0, true⟩, ⟨true, .bore, true⟩⟩ ],
    -- front sides of teeth
    [ ⟨⟨false, .p0, true⟩, ⟨false, .p1, true⟩, ⟨false, .p2, true⟩, ⟨false, .p3, true⟩⟩ ],
    -- back face
    [ ⟨⟨false, .p0, false⟩, ⟨false, .bore, false⟩, ⟨false, .bore, false⟩, ⟨false, .p3, false⟩⟩,
      ⟨⟨false, .p3, false⟩, ⟨false, .bore, false⟩, ⟨true, .bore, false⟩, ⟨true, .p0, false⟩⟩ ],
    -- back sides of teeth
    [ ⟨⟨false, .p3, false⟩, ⟨false, .p2, false⟩, ⟨false, .p1, false⟩, ⟨false, .p0, false⟩⟩ ],
    -- outward faces of teeth
    [ ⟨⟨false, .p0, true⟩, ⟨false, .p0, false⟩, ⟨false, .p1, false⟩, ⟨false, .p1, true⟩⟩,
      ⟨⟨false, .p1, true⟩, ⟨false, .p1, false⟩, ⟨false, .p2, false⟩, ⟨false, .p2, true⟩⟩,
      ⟨⟨false, .p2, true⟩, ⟨false, .p2, false⟩, ⟨false, .p3, false⟩, ⟨false, .p3, true⟩⟩,
      ⟨⟨false, .p3, true⟩, ⟨false, .p3, false⟩, ⟨true, .p0, false⟩, ⟨true, .p0, true⟩⟩ ],
    -- inside radius cylinder
    [ ⟨⟨false, .bore, false⟩, ⟨false, .bore, true⟩, ⟨true, .bore, true⟩, ⟨true, .bore, false⟩⟩ ] ]

/-- The quads of the mesh with `T` teeth, by vertex labels, in drawing order. -/
def patternQuads (T : Nat) : List (Quad (MeshVertex T)) :=
  patternGroups.flatMap (fun g =>
    (List.finRange T).flatMap (fun i => g.map (Quad.map (place i))))

/-- The edges that are a side of two quads of the same tooth unit, each listed
once. -/
def innerEdges : List (Sym2 PatVertex) :=
  [ s(⟨false, .p0, true⟩, ⟨false, .p3, true⟩),
    s(⟨false, .p3, true⟩, ⟨false, .bore, true⟩),
    s(⟨false, .p3, true⟩, ⟨true, .p0, true⟩),
    s(⟨false, .bore, true⟩, ⟨true, .bore, true⟩),
    s(⟨false, .p0, true⟩, ⟨false, .p1, true⟩),
    s(⟨false, .p1, true⟩, ⟨false, .p2, true⟩),
    s(⟨false, .p2, true⟩, ⟨false, .p3, true⟩),
    s(⟨false, .p0, false⟩, ⟨false, .p3, false⟩),
    s(⟨false, .p3, false⟩, ⟨false, .bore, false⟩),
    s(⟨false, .p3, false⟩, ⟨true, .p0, false⟩),
    s(⟨false, .bore, false⟩, ⟨true, .bore, false⟩),
    s(⟨false, .p0, false⟩, ⟨false, .p1, false⟩),
    s(⟨false, .p1, false⟩, ⟨false, .p2, false⟩),
    s(⟨false, .p2, false⟩, ⟨false, .p3, false⟩),
    s(⟨false, .p1, true⟩, ⟨false, .p1, false⟩),
    s(⟨false, .p2, true⟩, ⟨false, .p2, false⟩),
    s(⟨false, .p3, true⟩, ⟨false, .p3, false⟩) ]

/-- The four edges between the first vertices of a tooth unit (bore and root
points at the loop angle, front and back), as pairs of (kind, front).  Each is
a side of one quad of the unit and of one quad of the previous unit. -/
def seamEdges : List ((Ring × Bool) × (Ring × Bool)) :=
  [ ((.bore, true), (.p0, true)),
    ((.bore, false), (.p0, false)),
    ((.p0, true), (.p0, false)),
    ((.bore, true), (.bore, false)) ]

/-- A seam edge as a side of a quad of its own unit (`next = false`) or of the
previous unit (`next = true`). -/
def seamEdge (next : Bool) (p : (Ring × Bool) × (Ring × Bool)) : Sym2 PatVertex :=
  s(⟨next, p.1.1, p.1.2⟩, ⟨next, p.2.1, p.2.2⟩)

/-- The 21 edges owned by one tooth unit. -/
def ownEdges : List (Sym2 PatVertex) :=
  innerEdges ++ seamEdges.map (seamEdge false)

/-- The edges owned by the tooth units of a mesh with `T` teeth. -/
def ownedEdges (T : Nat) : List (Sym2 (MeshVertex T)) :=
  (List.finRange T).flatMap (fun i => ownEdges.map (Sym2.map (place i)))

/-- Position of the vertex of kind `ring` of tooth unit `i`, as computed in the
loops of `gear`. -/
def patternPos {α : Type} [Field α] (m : Libm α) (r0 r1 r2 width : α) (teeth : Int)
    (i : Nat) (ring : Ring) (front : Bool) : Vec3 α :=
  match ring with
  | .bore => polar m r0 (toothAngle m teeth i) (if front then width * 0.5 else -width * 0.5)
  | .p0 => polar m r1 (toothAngle m teeth i) (if front then width * 0.5 else -width * 0.5)
  | .p1 => polar m r2 (toothAngle m teeth i + stepAngle m teeth)
      (if front then width * 0.5 else -width * 0.5)
  | .p2 => polar m r2 (toothAngle m teeth i + 2 * stepAngle m teeth)
      (if front then width * 0.5 else -width * 0.5)
  | .p3 => polar m r1 (toothAngle m teeth i + 3 * stepAngle m teeth)
      (if front then width * 0.5 else -width * 0.5)

/-- Position of a labelled mesh vertex. -/
def vertexPos {α : Type} [Field α] (m : Libm α) (r0 r1 r2 width : α) (T : Nat)
    (v : MeshVertex T) : Vec3 α :=
  patternPos m r0 r1 r2 width T v.tooth.val v.ring v.front

/-! ## IEEE 754 binary32 arithmetic

The program computes in `GLfloat`, the IEEE 754 binary32 format, rounding every
operation to nearest, ties to even.  `F32` models these values and operations,
so that `gear` can be run as the program runs it. -/

/-- A binary32 value: a finite number given by sign and magnitude (so that `+0`
and `-0` differ), an infinity, or a NaN.  The operations below only produce
magnitudes that are representable in binary32. -/
inductive F32 where
  | fin (neg : Bool) (mag : ℚ)
  | inf (neg : Bool)
  | nan
  deriving DecidableEq

namespace F32

section Rounding

variable {K : Type} [LinearOrderedField K] [FloorRing K]

/-- Exponent of the unit in the last place at magnitude `a`: the binary
exponent of `a`, not below the least normal exponent `-126`, less the 23
fraction bits. -/
def ulpExp (a : K) : ℤ := max (Int.log 2 a) (-126) - 23

/-- The integer nearest to `y`, the even one of the two in a tie. -/
def nearestEven (y : K) : ℤ :=
  if y - ⌊y⌋ < 1 / 2 then ⌊y⌋
  else if 1 / 2 < y - ⌊y⌋ then ⌊y⌋ + 1
  else if ⌊y⌋ % 2 = 0 then ⌊y⌋ else ⌊y⌋ + 1

/-- The binary32 value of sign `neg` nearest to the magnitude `a >= 0`;
a result of `2^128` or more overflows to infinity. -/
def ofMag (neg : Bool) (a : K) : F32 :=
  if (2 : ℚ) ^ 128 ≤ nearestEven (a / 2 ^ ulpExp a) * 2 ^ ulpExp a then .inf neg
  else .fin neg (nearestEven (a / 2 ^ ulpExp a) * 2 ^ ulpExp a)

/-- The binary32 value nearest to `x` (a zero result is `+0`). -/
def round (x : K) : F32 := ofMag (decide (x < 0)) |x|

end Rounding

/-- The number denoted by a sign and a magnitude. -/
def signed (neg : Bool) (a : ℚ) : ℚ := if neg then -a else a

/-- Negation flips the sign bit. -/
def neg : F32 → F32
  | .fin s a => .fin (!s) a
  | .inf s => .inf (!s)
  | .nan => .nan

/-- Addition.  An exact zero sum is `+0` unless both operands are `-0`. -/
def add : F32 → F32 → F32
  | .fin s a, .fin t b =>
    if signed s a + signed t b = 0 then .fin (s && t) 0 else round (signed s a + signed t b)
  | .fin _ _, .inf t => .inf t
  | .inf s, .fin _ _ => .inf s
  | .inf s, .inf t => if s = t then .inf s else .nan
  | _, _ => .nan

/-- Subtraction: `x - y` is `x + (-y)`. -/
def sub (x y : F32) : F32 := add x (neg y)

/-- Multiplication; `0 * inf` is NaN. -/
def mul : F32 → F32 → F32
  | .fin s a, .fin t b => ofMag (xor s t) (a * b)
  | .fin s a, .inf t => if a = 0 then .nan else .inf (xor s t)
  | .inf s, .fin t b => if b = 0 then .nan else .inf (xor s t)
  | .inf s, .inf t => .inf (xor s t)
  | _, _ => .nan

/-- Division; `0 / 0` and `inf / inf` are NaN, a non-zero number over zero is an
infinity. -/
def div : F32 → F32 → F32
  | .fin s a, .fin t b =>
    if b = 0 then (if a = 0 then .nan else .inf (xor s t)) else ofMag (xor s t) (a / b)
  | .fin s _, .inf t => .fin (xor s t) 0
  | .inf s, .fin t _ => .inf (xor s t)
  | _, _ => .nan

/-- Comparison `x < y`; false when either side is NaN. -/
def lt : F32 → F32 → Bool
  | .fin s a, .fin t b => decide (signed s a < signed t b)
  | .fin _ _, .inf t => !t
  | .inf s, .fin _ _ => s
  | .inf s, .inf t => s && !t
  | _, _ => false

instance : Zero F32 := ⟨.fin false 0⟩
instance : One F32 := ⟨.fin false 1⟩
instance : Neg F32 := ⟨neg⟩
instance : Add F32 := ⟨add⟩
instance : Sub F32 := ⟨sub⟩
instance : Mul F32 := ⟨mul⟩
instance : Div F32 := ⟨div⟩
instance : LT F32 := ⟨fun x y => lt x y = true⟩

/-- Conversion of an integer constant or variable, as in `2.f` or `(float) teeth`. -/
instance : NatCast F32 := ⟨fun n => ofMag false (n : ℚ)⟩
instance : IntCast F32 := ⟨fun i => round (i : ℚ)⟩

/-- Conversion of a decimal constant, as in `0.5f`. -/
instance : OfScientific F32 :=
  ⟨fun m s e => ofMag false (OfScientific.ofScientific m s e : ℚ)⟩

/-- The constant `(float) M_PI`, bit pattern `0x40490FDB`. -/
def pi : F32 := .fin false (13176795 / 4194304)

section Lift

variable {K : Type} [LinearOrderedField K] [FloorRing K]

/-- A math-library function of one argument, computed from the real function
`f` and rounded; an exactly zero result keeps the sign of the argument, and the
value at an infinity or NaN is NaN (as for `cos` and `sin`). -/
def lift (f : K → K) : F32 → F32
  | .fin s a =>
    if f ((signed s a : ℚ) : K) = 0 then .fin s 0 else round (f ((signed s a : ℚ) : K))
  | _ => .nan

/-- The square root, computed from the real function `f` and rounded:
`sqrt(+-0) = +-0`, `sqrt(+inf) = +inf`, and NaN for a negative argument. -/
def liftSqrt (f : K → K) : F32 → F32
  | .fin s a => if a = 0 then .fin s 0 else if s then .nan else ofMag false (f (a : K))
  | .inf false => .inf false
  | _ => .nan

end Lift

/-- The number denoted by a finite binary32 value (`0` for an infinity or NaN). -/
def toRat : F32 → ℚ
  | .fin s a => signed s a
  | _ => 0

/-- The value is a finite number. -/
def isFinite : F32 → Bool
  | .fin _ _ => true
  | _ => false

end F32

/-- Apply a function to the three coordinates. -/
def Vec3.map {α β : Type} (f : α → β) (v : Vec3 α) : Vec3 β :=
  ⟨f v.x, f v.y, f v.z⟩

set_option linter.unusedSectionVars false

section StateLemmas

variable {α : Type}

@[simp] theorem positions_nil : positions ([] : List (GLCmd α)) = [] := rfl

@[simp] theorem positions_shadeModel (s : ShadeModel) (l : List (GLCmd α)) :
    positions (.glShadeModel s :: l) = positions l := rfl

@[simp] theorem positions_normal (x y z : α) (l : List (GLCmd α)) :
    positions (.glNormal3f x y z :: l) = positions l := rfl

@[simp] theorem positions_begin (p : PrimMode) (l : List (GLCmd α)) :
    positions (.glBegin p :: l) = positions l := rfl

@[simp] theorem positions_end (l : List (GLCmd α)) :
    positions (.glEnd :: l) = positions l := rfl

@[simp] theorem positions_vertex (x y z : α) (l : List (GLCmd α)) :
    positions (.glVertex3f x y z :: l) = ⟨x, y, z⟩ :: positions l := rfl

theorem positions_append (a b : List (GLCmd α)) :
    positions (a ++ b) = positions a ++ positions b := by
  induction a with
  | nil => rfl
  | cons c cs ih => cases c <;> simp [positions, ih]

theorem positions_flatMap (l : List Nat) (f : Nat → List (GLCmd α)) :
    positions (l.flatMap f) = l.flatMap (fun i => positions (f i)) := by
  induction l with
  | nil => rfl
  | cons i is ih => simp [List.flatMap_cons, positions_append, ih]

theorem annotate_append (a b : List (GLCmd α)) (n : Vec3 α) (f : Bool) :
    annotate n f (a ++ b) = annotate n f a ++ annotate (finalNormal n a) (finalFresh f a) b := by
  induction a generalizing n f with
  | nil => rfl
  | cons c cs ih => cases c <;> simp [annotate, finalNormal, finalFresh, ih]

theorem finalNormal_append (a b : List (GLCmd α)) (n : Vec3 α) :
    finalNormal n (a ++ b) = finalNormal (finalNormal n a) b := by
  induction a generalizing n with
  | nil => rfl
  | cons c cs ih => cases c <;> simp [finalNormal, ih]

theorem finalFresh_append (a b : List (GLCmd α)) (f : Bool) :
    finalFresh f (a ++ b) = finalFresh (finalFresh f a) b := by
  induction a generalizing f with
  | nil => rfl
  | cons c cs ih => cases c <;> simp [finalFresh, ih]

theorem map_pos_annotate (cmds : List (GLCmd α)) (n : Vec3 α) (f : Bool) :
    (annotate n f cmds).map Vertex.pos = positions cmds := by
  induction cmds generalizing n f with
  | nil => rfl
  | cons c cs ih => cases c <;> simp [annotate, positions, ih]

theorem finalNormal_of_isVertex (cmds : List (GLCmd α)) (n : Vec3 α)
    (h : ∀ c ∈ cmds, c.isVertex = true) : finalNormal n cmds = n := by
  induction cmds with
  | nil => rfl
  | cons c cs ih =>
    have hc := h c (List.mem_cons_self _ _)
    have ht : ∀ c ∈ cs, c.isVertex = true := fun d hd => h d (List.mem_cons_of_mem _ hd)
    cases c <;> simp_all [finalNormal, GLCmd.isVertex]

theorem annotate_of_isVertex (cmds : List (GLCmd α)) (n : Vec3 α)
    (h : ∀ c ∈ cmds, c.isVertex = true) :
    annotate n false cmds = (positions cmds).map (fun p => ⟨p, n, false⟩) := by
  induction cmds with
  | nil => rfl
  | cons c cs ih =>
    have hc := h c (List.mem_cons_self _ _)
    have ht : ∀ c ∈ cs, c.isVertex = true := fun d hd => h d (List.mem_cons_of_mem _ hd)
    cases c <;> simp_all [annotate, positions, GLCmd.isVertex]

theorem isBody_of_isVertex (c : GLCmd α) (h : c.isVertex = true) : c.isBody = true := by
  cases c <;> simp_all [GLCmd.isVertex, GLCmd.isBody]

theorem foldl_step_body (cmds : List (GLCmd α)) (h : ∀ c ∈ cmds, c.isBody = true)
    (s : GLState α) (p : Primitive α) (hs : s.current = some p) :
    cmds.foldl GLState.step s =
      { s with normal := finalNormal s.normal cmds,
               fresh := finalFresh s.fresh cmds,
               current := some { p with verts := p.verts ++ annotate s.normal s.fresh cmds } } := by
  induction cmds generalizing s p with
  | nil =>
    cases s; cases p
    simp_all [finalNormal, finalFresh, annotate]
  | cons c cs ih =>
    have hc := h c (List.mem_cons_self _ _)
    have ht : ∀ c ∈ cs, c.isBody = true := fun d hd => h d (List.mem_cons_of_mem _ hd)
    cases c with
    | glNormal3f x y z =>
      rw [List.foldl_cons, ih ht (s.step (.glNormal3f x y z)) p (by simp [GLState.step, hs])]
      simp [GLState.step, finalNormal, finalFresh, annotate]
    | glVertex3f x y z =>
      rw [List.foldl_cons, ih ht (s.step (.glVertex3f x y z)) _ (by simp [GLState.step, hs]; rfl)]
      simp [GLState.step, hs, finalNormal, finalFresh, annotate]
    | glShadeModel m => simp [GLCmd.isBody] at hc
    | glBegin m => simp [GLCmd.isBody] at hc
    | glEnd => simp [GLCmd.isBody] at hc

/-- A whole `glBegin` ... `glEnd` group run from a state with no open group. -/
theorem foldl_step_group (mode : PrimMode) (body : List (GLCmd α))
    (h : ∀ c ∈ body, c.isBody = true) (s : GLState α) (hs : s.current = none) :
    (.glBegin mode :: (body ++ [.glEnd])).foldl GLState.step s =
      { s with normal := finalNormal s.normal body,
               fresh := finalFresh false body,
               current := none,
               done := s.done ++ [⟨mode, s.shade, annotate s.normal false body⟩] } := by
  rw [List.foldl_cons, List.foldl_append,
    foldl_step_body body h (s.step (.glBegin mode)) ⟨mode, s.shade, []⟩
      (by simp [GLState.step, hs])]
  simp [GLState.step, hs]

/-- Vertices of a loop whose body leaves a normal and freshness flag that do
not depend on the state on entry. -/
theorem annotate_flatMap_range (step : Nat → List (GLCmd α)) (N : Nat → Vec3 α)
    (F : Nat → Bool) (hN : ∀ i n, finalNormal n (step i) = N i)
    (hF : ∀ i f, finalFresh f (step i) = F i) (n0 : Vec3 α) (f0 : Bool) (T : Nat) :
    annotate n0 f0 ((List.range T).flatMap step) =
      (List.range T).flatMap (fun i =>
        annotate (if i = 0 then n0 else N (i - 1)) (if i = 0 then f0 else F (i - 1)) (step i)) ∧
    finalNormal n0 ((List.range T).flatMap step) = (if T = 0 then n0 else N (T - 1)) ∧
    finalFresh f0 ((List.range T).flatMap step) = (if T = 0 then f0 else F (T - 1)) := by
  induction T with
  | zero => simp [annotate, finalNormal, finalFresh]
  | succ T ih =>
    obtain ⟨h1, h2, h3⟩ := ih
    rw [List.range_succ, List.flatMap_append, List.flatMap_append, annotate_append,
      finalNormal_append, finalFresh_append, h1, h2, h3]
    simp [hN, hF]

end StateLemmas

section Groups


variable {α : Type} [Add α] [Sub α] [Mul α] [Div α] [Neg α] [Zero α] [One α]
  [NatCast α] [IntCast α] [OfScientific α]

theorem gear_eq (m : Libm α) (ri ro w : α) (teeth : Int) (d : α) :
    gear m ri ro w teeth d =
      [.glShadeModel .flat, .glNormal3f 0 0 1] ++
      ((.glBegin .quadStrip ::
        ((loopLe teeth).flatMap (frontFaceStep m ri (rootRadius ro d) w teeth) ++ [.glEnd])) ++
      ((.glBegin .quads ::
        ((loopLt teeth).flatMap
          (frontTeethStep m (rootRadius ro d) (tipRadius ro d) w teeth) ++ [.glEnd])) ++
      ([.glNormal3f 0 0 (-1)] ++
      ((.glBegin .quadStrip ::
        ((loopLe teeth).flatMap (backFaceStep m ri (rootRadius ro d) w teeth) ++ [.glEnd])) ++
      ((.glBegin .quads ::
        ((loopLt teeth).flatMap
          (backTeethStep m (rootRadius ro d) (tipRadius ro d) w teeth) ++ [.glEnd])) ++
      ((.glBegin .quadStrip ::
        (outwardBody m (rootRadius ro d) (tipRadius ro d) w teeth ++ [.glEnd])) ++
      ([.glShadeModel .smooth] ++
      (.glBegin .quadStrip ::
        ((loopLe teeth).flatMap (boreStep m ri w teeth) ++ [.glEnd]))))))))) := by
  simp [gear, outwardBody]

theorem isVertex_flatMap (l : List Nat) (f : Nat → List (GLCmd α))
    (h : ∀ i, ∀ c ∈ f i, c.isVertex = true) : ∀ c ∈ l.flatMap f, c.isVertex = true := by
  intro c hc
  obtain ⟨i, _, hi⟩ := List.mem_flatMap.1 hc
  exact h i c hi

theorem isBody_flatMap (l : List Nat) (f : Nat → List (GLCmd α))
    (h : ∀ i, ∀ c ∈ f i, c.isBody = true) : ∀ c ∈ l.flatMap f, c.isBody = true := by
  intro c hc
  obtain ⟨i, _, hi⟩ := List.mem_flatMap.1 hc
  exact h i c hi

theorem frontFaceStep_isVertex (m : Libm α) (r0 r1 w : α) (teeth : Int) (i : Nat) :
    ∀ c ∈ frontFaceStep m r0 r1 w teeth i, c.isVertex = true := by
  unfold frontFaceStep
  split_ifs <;> simp [GLCmd.isVertex]

theorem backFaceStep_isVertex (m : Libm α) (r0 r1 w : α) (teeth : Int) (i : Nat) :
    ∀ c ∈ backFaceStep m r0 r1 w teeth i, c.isVertex = true := by
  unfold backFaceStep
  split_ifs <;> simp [GLCmd.isVertex]

theorem frontTeethStep_isVertex (m : Libm α) (r1 r2 w : α) (teeth : Int) (i : Nat) :
    ∀ c ∈ frontTeethStep m r1 r2 w teeth i, c.isVertex = true := by
  simp [frontTeethStep, GLCmd.isVertex]

theorem backTeethStep_isVertex (m : Libm α) (r1 r2 w : α) (teeth : Int) (i : Nat) :
    ∀ c ∈ backTeethStep m r1 r2 w teeth i, c.isVertex = true := by
  simp [backTeethStep, GLCmd.isVertex]

theorem outwardBody_isBody (m : Libm α) (r1 r2 w : α) (teeth : Int) :
    ∀ c ∈ outwardBody m r1 r2 w teeth, c.isBody = true := by
  intro c hc
  rcases List.mem_append.1 hc with h | h
  · refine isBody_flatMap _ _ (fun i => ?_) c h
    simp [outwardStep, GLCmd.isBody]
  · simp only [List.mem_cons, List.mem_singleton, List.not_mem_nil, or_false] at h
    rcases h with h | h <;> subst h <;> rfl

theorem boreStep_isBody (m : Libm α) (r0 w : α) (teeth : Int) (i : Nat) :
    ∀ c ∈ boreStep m r0 w teeth i, c.isBody = true := by
  simp [boreStep, GLCmd.isBody]

/-- The six groups drawn by `gear`, with the state each vertex is emitted under. -/
theorem primitives_gear (m : Libm α) (ri ro w : α) (teeth : Int) (d : α) :
    primitives (gear m ri ro w teeth d) =
      [ ⟨.quadStrip, .flat,
          (positions ((loopLe teeth).flatMap
            (frontFaceStep m ri (rootRadius ro d) w teeth))).map
            (fun p => ⟨p, ⟨0, 0, 1⟩, false⟩)⟩,
        ⟨.quads, .flat,
          (positions ((loopLt teeth).flatMap
            (frontTeethStep m (rootRadius ro d) (tipRadius ro d) w teeth))).map
            (fun p => ⟨p, ⟨0, 0, 1⟩, false⟩)⟩,
        ⟨.quadStrip, .flat,
          (positions ((loopLe teeth).flatMap
            (backFaceStep m ri (rootRadius ro d) w teeth))).map
            (fun p => ⟨p, ⟨0, 0, -1⟩, false⟩)⟩,
        ⟨.quads, .flat,
          (positions ((loopLt teeth).flatMap
            (backTeethStep m (rootRadius ro d) (tipRadius ro d) w teeth))).map
            (fun p => ⟨p, ⟨0, 0, -1⟩, false⟩)⟩,
        ⟨.quadStrip, .flat,
          annotate ⟨0, 0, -1⟩ false
            (outwardBody m (rootRadius ro d) (tipRadius ro d) w teeth)⟩,
        ⟨.quadStrip, .smooth,
          annotate (finalNormal ⟨0, 0, -1⟩
              (outwardBody m (rootRadius ro d) (tipRadius ro d) w teeth)) false
            ((loopLe teeth).flatMap (boreStep m ri w teeth))⟩ ] := by
  have hff := isVertex_flatMap (loopLe teeth) _
    (frontFaceStep_isVertex m ri (rootRadius ro d) w teeth)
  have hft := isVertex_flatMap (loopLt teeth) _
    (frontTeethStep_isVertex m (rootRadius ro d) (tipRadius ro d) w teeth)
  have hbf := isVertex_flatMap (loopLe teeth) _
    (backFaceStep_isVertex m ri (rootRadius ro d) w teeth)
  have hbt := isVertex_flatMap (loopLt teeth) _
    (backTeethStep_isVertex m (rootRadius ro d) (tipRadius ro d) w teeth)
  have hbo := isBody_flatMap (loopLe teeth) _ (boreStep_isBody m ri w teeth)
  have hob := outwardBody_isBody m (rootRadius ro d) (tipRadius ro d) w teeth
  rw [primitives, gear_eq, List.foldl_append, List.foldl_append,
    foldl_step_group _ _ (fun c hc => isBody_of_isVertex c (hff c hc)) _ rfl,
    List.foldl_append,
    foldl_step_group _ _ (fun c hc => isBody_of_isVertex c (hft c hc)) _ rfl,
    List.foldl_append, List.foldl_append,
    foldl_step_group _ _ (fun c hc => isBody_of_isVertex c (hbf c hc)) _ rfl,
    List.foldl_append,
    foldl_step_group _ _ (fun c hc => isBody_of_isVertex c (hbt c hc)) _ rfl,
    List.foldl_append,
    foldl_step_group _ _ hob _ rfl,
    List.foldl_append,
    foldl_step_group _ _ hbo _ rfl]
  simp [GLState.step, GLState.init, finalNormal_of_isVertex _ _ hff,
    finalNormal_of_isVertex _ _ hft, finalNormal_of_isVertex _ _ hbf,
    finalNormal_of_isVertex _ _ hbt, annotate_of_isVertex _ _ hff,
    annotate_of_isVertex _ _ hft, annotate_of_isVertex _ _ hbf,
    annotate_of_isVertex _ _ hbt, finalNormal]

end Groups

/-! ## Geometry of the emitted vertices -/

section Geometry

variable {α : Type} [Add α] [Sub α] [Mul α] [Div α] [Neg α] [Zero α] [One α]
  [NatCast α] [IntCast α] [OfScientific α]

theorem positions_frontFaceStep_lt (m : Libm α) (r0 r1 w : α) (teeth : Int) (i : Nat)
    (h : (i : Int) < teeth) :
    positions (frontFaceStep m r0 r1 w teeth i) =
      [ polar m r0 (toothAngle m teeth i) (w * 0.5),
        polar m r1 (toothAngle m teeth i) (w * 0.5),
        polar m r0 (toothAngle m teeth i) (w * 0.5),
        polar m r1 (toothAngle m teeth i + 3 * stepAngle m teeth) (w * 0.5) ] := by
  simp [frontFaceStep, h, positions, polar]

theorem positions_frontFaceStep_ge (m : Libm α) (r0 r1 w : α) (teeth : Int) (i : Nat)
    (h : ¬ (i : Int) < teeth) :
    positions (frontFaceStep m r0 r1 w teeth i) =
      [ polar m r0 (toothAngle m teeth i) (w * 0.5),
        polar m r1 (toothAngle m teeth i) (w * 0.5) ] := by
  simp [frontFaceStep, h, positions, polar]

theorem flatMap_congr_mem {β γ : Type} (l : List β) (f g : β → List γ)
    (h : ∀ x ∈ l, f x = g x) : l.flatMap f = l.flatMap g := by
  induction l with
  | nil => rfl
  | cons a as ih =>
    simp only [List.flatMap_cons]
    rw [h a (List.mem_cons_self _ _), ih (fun x hx => h x (List.mem_cons_of_mem _ hx))]

/-- Vertex positions of the front-face strip for a non-negative tooth count. -/
theorem positions_frontFace (m : Libm α) (r0 r1 w : α) (T : Nat) :
    positions ((loopLe (T : Int)).flatMap (frontFaceStep m r0 r1 w T)) =
      (List.range T).flatMap (fun i =>
        [ polar m r0 (toothAngle m T i) (w * 0.5),
          polar m r1 (toothAngle m T i) (w * 0.5),
          polar m r0 (toothAngle m T i) (w * 0.5),
          polar m r1 (toothAngle m T i + 3 * stepAngle m T) (w * 0.5) ]) ++
      [ polar m r0 (toothAngle m T T) (w * 0.5),
        polar m r1 (toothAngle m T T) (w * 0.5) ] := by
  have hl : loopLe (T : Int) = List.range T ++ [T] := by
    simp only [loopLe]
    rw [show ((T : Int) + 1).toNat = T + 1 by omega, List.range_succ]
  rw [hl, positions_flatMap, List.flatMap_append]
  congr 1
  · apply flatMap_congr_mem
    intro i hi
    exact positions_frontFaceStep_lt m r0 r1 w T i (by simpa using hi)
  · simp [positions_frontFaceStep_ge]

theorem groupPositions_gear_frontFace (m : Libm α) (ri ro w : α) (teeth : Int) (d : α) :
    groupPositions (gear m ri ro w teeth d) 0 =
      positions ((loopLe teeth).flatMap (frontFaceStep m ri (rootRadius ro d) w teeth)) := by
  simp [groupPositions, groupVerts, primitives_gear, Function.comp_def]

theorem groupPositions_gear_frontTeeth (m : Libm α) (ri ro w : α) (teeth : Int) (d : α) :
    groupPositions (gear m ri ro w teeth d) 1 =
      positions ((loopLt teeth).flatMap
        (frontTeethStep m (rootRadius ro d) (tipRadius ro d) w teeth)) := by
  simp [groupPositions, groupVerts, primitives_gear, Function.comp_def]

theorem groupPositions_gear_backFace (m : Libm α) (ri ro w : α) (teeth : Int) (d : α) :
    groupPositions (gear m ri ro w teeth d) 2 =
      positions ((loopLe teeth).flatMap (backFaceStep m ri (rootRadius ro d) w teeth)) := by
  simp [groupPositions, groupVerts, primitives_gear, Function.comp_def]

theorem groupPositions_gear_backTeeth (m : Libm α) (ri ro w : α) (teeth : Int) (d : α) :
    groupPositions (gear m ri ro w teeth d) 3 =
      positions ((loopLt teeth).flatMap
        (backTeethStep m (rootRadius ro d) (tipRadius ro d) w teeth)) := by
  simp [groupPositions, groupVerts, primitives_gear, Function.comp_def]

theorem groupPositions_gear_outward (m : Libm α) (ri ro w : α) (teeth : Int) (d : α) :
    groupPositions (gear m ri ro w teeth d) 4 =
      positions (outwardBody m (rootRadius ro d) (tipRadius ro d) w teeth) := by
  simp [groupPositions, groupVerts, primitives_gear, map_pos_annotate]

theorem groupPositions_gear_bore (m : Libm α) (ri ro w : α) (teeth : Int) (d : α) :
    groupPositions (gear m ri ro w teeth d) 5 =
      positions ((loopLe teeth).flatMap (boreStep m ri w teeth)) := by
  simp [groupPositions, groupVerts, primitives_gear, map_pos_annotate]

theorem Alternates.getElem_even {β : Type} {A B : β → Prop} {l : List β}
    (hl : Alternates A B l) : ∀ j p, l[2 * j]? = some p → A p := by
  induction hl with
  | nil => intro j p h; simp at h
  | single a ha =>
    intro j p h
    cases j with
    | zero => simp at h; subst h; exact ha
    | succ j => simp [Nat.mul_succ] at h
  | pair a b rest ha hb _ ih =>
    intro j p h
    cases j with
    | zero => simp at h; subst h; exact ha
    | succ j =>
      rw [Nat.mul_succ] at h
      simp only [List.getElem?_cons_succ] at h
      exact ih j p h

theorem Alternates.getElem_odd {β : Type} {A B : β → Prop} {l : List β}
    (hl : Alternates A B l) : ∀ j p, l[2 * j + 1]? = some p → B p := by
  induction hl with
  | nil => intro j p h; simp at h
  | single a ha => intro j p h; simp at h
  | pair a b rest ha hb _ ih =>
    intro j p h
    cases j with
    | zero => simp at h; subst h; exact hb
    | succ j =>
      rw [Nat.mul_succ] at h
      simp only [List.getElem?_cons_succ] at h
      exact ih j p h

theorem Alternates.append {β : Type} {A B : β → Prop} {l1 l2 : List β}
    (h1 : Alternates A B l1) (hlen : l1.length % 2 = 0) (h2 : Alternates A B l2) :
    Alternates A B (l1 ++ l2) := by
  induction h1 with
  | nil => simpa using h2
  | single a ha => simp at hlen
  | pair a b rest ha hb _ ih =>
    simp only [List.cons_append]
    refine .pair _ _ _ ha hb (ih ?_)
    simp only [List.length_cons] at hlen
    omega

theorem Alternates.flatMap_range {β : Type} {A B : β → Prop} (f : Nat → List β) (T : Nat)
    (h : ∀ i, Alternates A B (f i)) (hlen : ∀ i, (f i).length % 2 = 0) :
    Alternates A B ((List.range T).flatMap f) ∧ ((List.range T).flatMap f).length % 2 = 0 := by
  induction T with
  | zero => exact ⟨.nil, rfl⟩
  | succ T ih =>
    rw [List.range_succ, List.flatMap_append]
    refine ⟨ih.1.append ih.2 (by simpa using h T), ?_⟩
    have := hlen T
    have := ih.2
    simp only [List.length_append, List.flatMap_cons, List.flatMap_nil, List.append_nil]
    omega

theorem Alternates.flatMap_four {β : Type} {A B : β → Prop} (l : List Nat)
    (a b c d : Nat → β) (tl : List β) (h : ∀ i, A (a i) ∧ B (b i) ∧ A (c i) ∧ B (d i))
    (htl : Alternates A B tl) :
    Alternates A B (l.flatMap (fun i => [a i, b i, c i, d i]) ++ tl) := by
  induction l with
  | nil => simpa using htl
  | cons i is ih =>
    simp only [List.flatMap_cons, List.cons_append, List.nil_append, List.append_assoc]
    exact .pair _ _ _ (h i).1 (h i).2.1 (.pair _ _ _ (h i).2.2.1 (h i).2.2.2 ih)

theorem quadsOf_flatMap {β : Type} (l : List Nat) (a b c d : Nat → β) :
    quadsOf (l.flatMap (fun i => [a i, b i, c i, d i])) =
      l.map (fun i => ⟨a i, b i, c i, d i⟩) := by
  induction l with
  | nil => rfl
  | cons i is ih =>
    rw [List.flatMap_cons, List.map_cons, ← ih]
    rfl

theorem loopLt_natCast (T : Nat) : loopLt (T : Int) = List.range T := by
  simp [loopLt]

/-- Vertex positions of the front tooth quads. -/
theorem positions_frontTeeth (m : Libm α) (r1 r2 w : α) (teeth : Int) (l : List Nat) :
    positions (l.flatMap (frontTeethStep m r1 r2 w teeth)) =
      l.flatMap (fun i =>
        [ polar m r1 (toothAngle m teeth i) (w * 0.5),
          polar m r2 (toothAngle m teeth i + stepAngle m teeth) (w * 0.5),
          polar m r2 (toothAngle m teeth i + 2 * stepAngle m teeth) (w * 0.5),
          polar m r1 (toothAngle m teeth i + 3 * stepAngle m teeth) (w * 0.5) ]) := by
  rw [positions_flatMap]
  rfl

/-- Vertex positions of the back tooth quads. -/
theorem positions_backTeeth (m : Libm α) (r1 r2 w : α) (teeth : Int) (l : List Nat) :
    positions (l.flatMap (backTeethStep m r1 r2 w teeth)) =
      l.flatMap (fun i =>
        [ polar m r1 (toothAngle m teeth i + 3 * stepAngle m teeth) (-w * 0.5),
          polar m r2 (toothAngle m teeth i + 2 * stepAngle m teeth) (-w * 0.5),
          polar m r2 (toothAngle m teeth i + stepAngle m teeth) (-w * 0.5),
          polar m r1 (toothAngle m teeth i) (-w * 0.5) ]) := by
  rw [positions_flatMap]
  rfl

theorem length_flatMap_range {β : Type} (n : Nat) (f : Nat → List β)
    (hlen : ∀ i, (f i).length = n) (T : Nat) :
    ((List.range T).flatMap f).length = n * T := by
  induction T with
  | zero => simp
  | succ T ih =>
    rw [List.range_succ, List.flatMap_append, List.length_append, ih]
    simp [hlen, Nat.mul_succ]

/-- Entry `n * i + k` of the concatenation of blocks of length `n`. -/
theorem getElem?_flatMap_range {β : Type} (n : Nat) (f : Nat → List β)
    (hlen : ∀ i, (f i).length = n) (T : Nat) (tl : List β) (i k : Nat) (hi : i < T)
    (hk : k < n) :
    ((List.range T).flatMap f ++ tl)[n * i + k]? = (f i)[k]? := by
  induction T generalizing tl with
  | zero => omega
  | succ T ih =>
    rw [List.range_succ, List.flatMap_append, List.append_assoc]
    rcases Nat.lt_succ_iff_lt_or_eq.1 hi with h | h
    · exact ih _ h
    · subst h
      rw [List.getElem?_append_right (by rw [length_flatMap_range n f hlen]; omega),
        length_flatMap_range n f hlen]
      simp only [List.flatMap_cons, List.flatMap_nil, List.append_nil, Nat.add_sub_cancel_left]
      rw [List.getElem?_append_left (by rw [hlen]; exact hk)]

/-- Entry `n * T + k` of blocks of length `n` followed by a tail. -/
theorem getElem?_flatMap_range_tail {β : Type} (n : Nat) (f : Nat → List β)
    (hlen : ∀ i, (f i).length = n) (T : Nat) (tl : List β) (k : Nat) :
    ((List.range T).flatMap f ++ tl)[n * T + k]? = tl[k]? := by
  rw [List.getElem?_append_right (by rw [length_flatMap_range n f hlen]; omega),
    length_flatMap_range n f hlen, Nat.add_sub_cancel_left]

/-- Vertex positions of the outward-faces strip. -/
theorem positions_outwardBody (m : Libm α) (r1 r2 w : α) (T : Nat) :
    positions (outwardBody m r1 r2 w T) =
      (List.range T).flatMap (fun i =>
        [ polar m r1 (toothAngle m T i) (w * 0.5),
          polar m r1 (toothAngle m T i) (-w * 0.5),
          polar m r2 (toothAngle m T i + stepAngle m T) (w * 0.5),
          polar m r2 (toothAngle m T i + stepAngle m T) (-w * 0.5),
          polar m r2 (toothAngle m T i + 2 * stepAngle m T) (w * 0.5),
          polar m r2 (toothAngle m T i + 2 * stepAngle m T) (-w * 0.5),
          polar m r1 (toothAngle m T i + 3 * stepAngle m T) (w * 0.5),
          polar m r1 (toothAngle m T i + 3 * stepAngle m T) (-w * 0.5) ]) ++
      [ polar m r1 0 (w * 0.5), polar m r1 0 (-w * 0.5) ] := by
  rw [outwardBody, positions_append, positions_flatMap, loopLt_natCast]
  rfl

theorem annotate_outwardStep (m : Libm α) (r1 r2 w : α) (teeth : Int) (n : Vec3 α)
    (f : Bool) (i : Nat) :
    annotate n f (outwardStep m r1 r2 w teeth i) = outwardVerts m r1 r2 w teeth n f i := rfl

theorem annotate_boreStep (m : Libm α) (r0 w : α) (teeth : Int) (n : Vec3 α)
    (f : Bool) (i : Nat) :
    annotate n f (boreStep m r0 w teeth i) = boreVerts m r0 w teeth i := rfl

/-- The vertices of the outward-faces strip with the normal each one carries. -/
theorem groupVerts_gear_outward (m : Libm α) (ri ro w : α) (teeth : Int) (d : α) :
    groupVerts (gear m ri ro w teeth d) 4 =
      (List.range teeth.toNat).flatMap (fun i =>
        outwardVerts m (rootRadius ro d) (tipRadius ro d) w teeth
          (outwardEntryNormal m teeth i) (decide (i ≠ 0)) i) ++
      [ ⟨polar m (rootRadius ro d) 0 (w * 0.5), outwardEntryNormal m teeth teeth.toNat,
          decide (teeth.toNat ≠ 0)⟩,
        ⟨polar m (rootRadius ro d) 0 (-w * 0.5), outwardEntryNormal m teeth teeth.toNat,
          false⟩ ] := by
  have h := annotate_flatMap_range
    (outwardStep m (rootRadius ro d) (tipRadius ro d) w teeth) (radialNormal m teeth)
    (fun _ => true) (fun i n => rfl) (fun i f => rfl) ⟨0, 0, -1⟩ false teeth.toNat
  obtain ⟨h1, h2, h3⟩ := h
  simp only [groupVerts, primitives_gear, List.getElem?_cons_succ, List.getElem?_cons_zero]
  rw [outwardBody, loopLt, annotate_append, h1, h2, h3]
  congr 1
  · apply flatMap_congr_mem
    intro i _
    rw [annotate_outwardStep, outwardEntryNormal]
    by_cases hi : i = 0 <;> simp [hi]
  · by_cases hT : teeth.toNat = 0 <;> simp [annotate, outwardEntryNormal, hT, polar]

/-- The vertices of the inside-cylinder strip with the normal each one carries. -/
theorem groupVerts_gear_bore (m : Libm α) (ri ro w : α) (teeth : Int) (d : α) :
    groupVerts (gear m ri ro w teeth d) 5 =
      (loopLe teeth).flatMap (boreVerts m ri w teeth) := by
  have h := annotate_flatMap_range (boreStep m ri w teeth) (boreNormal m teeth)
    (fun _ => false) (fun i n => rfl) (fun i f => rfl)
    (finalNormal ⟨0, 0, -1⟩ (outwardBody m (rootRadius ro d) (tipRadius ro d) w teeth))
    false (teeth + 1).toNat
  simp only [groupVerts, primitives_gear, List.getElem?_cons_succ, List.getElem?_cons_zero]
  rw [loopLe, h.1]
  apply flatMap_congr_mem
  intro i _
  rw [annotate_boreStep]

theorem stripQuads_cons {β : Type} (a b c d : β) (rest : List β) :
    stripQuads (a :: b :: c :: d :: rest) = ⟨a, b, d, c⟩ :: stripQuads (c :: d :: rest) := rfl

theorem stripQuads_pair {β : Type} (a b : β) : stripQuads [a, b] = [] := rfl

/-- A strip cut after an even number of vertices: the quads before the cut,
then the quads from the last pair before the cut onwards. -/
theorem stripQuads_overlap {β : Type} :
    ∀ (n : Nat) (l : List β), l.length = 2 * n → ∀ (x y : β) (l2 : List β),
      stripQuads (l ++ x :: y :: l2) = stripQuads (l ++ [x, y]) ++ stripQuads (x :: y :: l2)
  | 0, [], _, x, y, l2 => by
    simp only [List.nil_append]
    rw [stripQuads_pair, List.nil_append]
  | 0, _ :: _, h, _, _, _ => by simp at h
  | n + 1, [], h, _, _, _ => by simp at h
  | n + 1, [_], h, _, _, _ => by simp at h; omega
  | n + 1, a :: b :: l, h, x, y, l2 => by
    have hl : l.length = 2 * n := by simp at h; omega
    have ih := stripQuads_overlap n l hl x y l2
    match l, hl with
    | [], _ =>
      simp only [List.cons_append, List.nil_append]
      rw [stripQuads_cons, stripQuads_cons, stripQuads_pair, List.cons_append, List.nil_append]
    | [_], hl => simp at hl; omega
    | c :: d :: l', _ =>
      simp only [List.cons_append] at ih ⊢
      rw [stripQuads_cons, stripQuads_cons, ih, List.cons_append]

/-- Quads of a strip made of blocks of eight vertices and a closing pair. -/
theorem stripQuads_blocks_eight {β : Type} (a b c d e f g h : Nat → β) (T : Nat) :
    stripQuads ((List.range T).flatMap
        (fun i => [a i, b i, c i, d i, e i, f i, g i, h i]) ++ [a T, b T]) =
      (List.range T).flatMap (fun i =>
        [ (⟨a i, b i, d i, c i⟩ : Quad β), ⟨c i, d i, f i, e i⟩, ⟨e i, f i, h i, g i⟩,
          ⟨g i, h i, b (i + 1), a (i + 1)⟩ ]) := by
  induction T with
  | zero => simp [stripQuads_pair]
  | succ T ih =>
    rw [List.range_succ, List.flatMap_append, List.flatMap_append, List.append_assoc]
    simp only [List.flatMap_cons, List.flatMap_nil, List.append_nil, List.cons_append,
      List.nil_append]
    rw [stripQuads_overlap (4 * T) _
      (by rw [length_flatMap_range 8 _ (by intro; rfl)]; omega), ih]
    simp only [stripQuads_cons, stripQuads_pair]

/-- Quads of a strip made of blocks of four vertices and a closing pair. -/
theorem stripQuads_blocks_four {β : Type} (a b c d : Nat → β) (T : Nat) :
    stripQuads ((List.range T).flatMap (fun i => [a i, b i, c i, d i]) ++ [a T, b T]) =
      (List.range T).flatMap (fun i =>
        [ (⟨a i, b i, d i, c i⟩ : Quad β), ⟨c i, d i, b (i + 1), a (i + 1)⟩ ]) := by
  induction T with
  | zero => simp [stripQuads_pair]
  | succ T ih =>
    rw [List.range_succ, List.flatMap_append, List.flatMap_append, List.append_assoc]
    simp only [List.flatMap_cons, List.flatMap_nil, List.append_nil, List.cons_append,
      List.nil_append]
    rw [stripQuads_overlap (2 * T) _
      (by rw [length_flatMap_range 4 _ (by intro; rfl)]; omega), ih]
    simp only [stripQuads_cons, stripQuads_pair]

/-- Quads of a strip made of `T + 1` vertex pairs. -/
theorem stripQuads_blocks_two {β : Type} (a b : Nat → β) (T : Nat) :
    stripQuads ((List.range (T + 1)).flatMap (fun i => [a i, b i])) =
      (List.range T).map (fun i => (⟨a i, b i, b (i + 1), a (i + 1)⟩ : Quad β)) := by
  induction T with
  | zero => rfl
  | succ T ih =>
    rw [List.range_succ, List.flatMap_append, List.range_succ, List.map_append]
    simp only [List.flatMap_cons, List.flatMap_nil, List.append_nil, List.map_cons, List.map_nil]
    rw [List.range_succ, List.flatMap_append] at ih
    simp only [List.flatMap_cons, List.flatMap_nil, List.append_nil] at ih
    rw [List.flatMap_append, List.append_assoc]
    simp only [List.flatMap_cons, List.flatMap_nil, List.append_nil, List.cons_append,
      List.nil_append]
    rw [stripQuads_overlap T _
      (by rw [length_flatMap_range 2 _ (by intro; rfl)]), ih]
    simp only [stripQuads_cons, stripQuads_pair]

/-- The quads of the outward-faces strip, when the closing pair at angle 0
coincides with the pair at the loop angle of `i = teeth`. -/
theorem stripQuads_outward (m : Libm α) (r1 r2 w : α) (T : Nat)
    (hc : m.cos 0 = m.cos (toothAngle m T T)) (hs : m.sin 0 = m.sin (toothAngle m T T)) :
    stripQuads (positions (outwardBody m r1 r2 w T)) =
      (List.range T).flatMap (fun i =>
        [ wallQuad m w r1 (toothAngle m T i) r2 (toothAngle m T i + stepAngle m T),
          wallQuad m w r2 (toothAngle m T i + stepAngle m T)
            r2 (toothAngle m T i + 2 * stepAngle m T),
          wallQuad m w r2 (toothAngle m T i + 2 * stepAngle m T)
            r1 (toothAngle m T i + 3 * stepAngle m T),
          wallQuad m w r1 (toothAngle m T i + 3 * stepAngle m T)
            r1 (toothAngle m T (i + 1)) ]) := by
  rw [positions_outwardBody]
  have h0 : ∀ z, polar m r1 0 z = polar m r1 (toothAngle m T T) z := by
    intro z
    simp only [polar, hc, hs]
  rw [h0, h0]
  exact stripQuads_blocks_eight
    (fun i => polar m r1 (toothAngle m T i) (w * 0.5))
    (fun i => polar m r1 (toothAngle m T i) (-w * 0.5))
    (fun i => polar m r2 (toothAngle m T i + stepAngle m T) (w * 0.5))
    (fun i => polar m r2 (toothAngle m T i + stepAngle m T) (-w * 0.5))
    (fun i => polar m r2 (toothAngle m T i + 2 * stepAngle m T) (w * 0.5))
    (fun i => polar m r2 (toothAngle m T i + 2 * stepAngle m T) (-w * 0.5))
    (fun i => polar m r1 (toothAngle m T i + 3 * stepAngle m T) (w * 0.5))
    (fun i => polar m r1 (toothAngle m T i + 3 * stepAngle m T) (-w * 0.5)) T

end Geometry

/-! ## Edge counting on the periodic pattern -/

section Pattern

theorem pattern_edges_perm :
    (patternGroups.flatMap (fun g => g.flatMap Quad.edges)).Perm
      (ownEdges ++ (innerEdges ++ seamEdges.map (seamEdge true))) := by
  decide

theorem ownEdges_nodup : ownEdges.Nodup := by decide

theorem pattern_quad_edges_nodup :
    ∀ g ∈ patternGroups, ∀ q ∈ g, (Quad.edges q).Nodup := by decide

theorem nextTooth_val {T : Nat} (i : Fin T) :
    (nextTooth i).val = if i.val + 1 = T then 0 else i.val + 1 := by
  have := i.isLt
  simp only [nextTooth]
  split_ifs with h
  · rw [h, Nat.mod_self]
  · exact Nat.mod_eq_of_lt (by omega)

theorem nextTooth_ne {T : Nat} (hT : 2 ≤ T) (i : Fin T) : nextTooth i ≠ i := by
  intro h
  have hv := congrArg Fin.val h
  rw [nextTooth_val] at hv
  have := i.isLt
  split_ifs at hv <;> omega

theorem nextTooth_nextTooth_ne {T : Nat} (hT : 3 ≤ T) (i : Fin T) :
    nextTooth (nextTooth i) ≠ i := by
  intro h
  have hv := congrArg Fin.val h
  rw [nextTooth_val, nextTooth_val] at hv
  have := i.isLt
  split_ifs at hv <;> omega

theorem nextTooth_injective {T : Nat} : Function.Injective (nextTooth : Fin T → Fin T) := by
  intro i j h
  have hv := congrArg Fin.val h
  rw [nextTooth_val, nextTooth_val] at hv
  have := i.isLt
  have := j.isLt
  apply Fin.ext
  split_ifs at hv <;> omega

theorem finRange_map_nextTooth_perm (T : Nat) :
    ((List.finRange T).map nextTooth).Perm (List.finRange T) := by
  apply (List.perm_ext_iff_of_nodup
    ((List.nodup_finRange T).map nextTooth_injective) (List.nodup_finRange T)).2
  intro a
  simp only [List.mem_map, List.mem_finRange, true_and, iff_true]
  exact (Finite.injective_iff_surjective.1 nextTooth_injective) a

theorem place_injective {T : Nat} (hT : 2 ≤ T) (i : Fin T) :
    Function.Injective (place i) := by
  intro u v h
  cases u with
  | mk un ur uf =>
    cases v with
    | mk vn vr vf =>
      simp only [place, MeshVertex.mk.injEq] at h
      obtain ⟨h1, h2, h3⟩ := h
      subst h2 h3
      have hne := nextTooth_ne hT i
      cases un <;> cases vn
      · rfl
      · exact absurd h1.symm hne
      · exact absurd h1 hne
      · rfl

theorem Quad.edges_map {β γ : Type} [DecidableEq β] [DecidableEq γ] (f : β → γ)
    (hf : Function.Injective f) (q : Quad β) :
    (Quad.map f q).edges = q.edges.map (Sym2.map f) := by
  have h : [s(f q.a, f q.b), s(f q.b, f q.c), s(f q.c, f q.d), s(f q.d, f q.a)] =
      List.map (Sym2.map f) [s(q.a, q.b), s(q.b, q.c), s(q.c, q.d), s(q.d, q.a)] := by
    simp only [List.map_cons, List.map_nil, Sym2.map_pair_eq]
  simp only [Quad.edges, Quad.map]
  rw [h, List.filter_map]
  congr 1
  apply List.filter_congr
  intro e _
  simp [Sym2.isDiag_map hf]

theorem flatMap_edges_map {β γ : Type} [DecidableEq β] [DecidableEq γ] (f : β → γ)
    (hf : Function.Injective f) (g : List (Quad β)) :
    (g.map (Quad.map f)).flatMap Quad.edges = (g.flatMap Quad.edges).map (Sym2.map f) := by
  induction g with
  | nil => rfl
  | cons q g ih =>
    simp only [List.map_cons, List.flatMap_cons, List.map_append, ih, Quad.edges_map f hf]



theorem flatMap_const_nil {β γ : Type} (l : List β) :
    l.flatMap (fun _ => ([] : List γ)) = [] := by
  induction l with
  | nil => rfl
  | cons a l ih => simp

/-- The edge slots of the mesh, regrouped tooth by tooth. -/
theorem patternQuads_edges_perm {T : Nat} (hT : 2 ≤ T) (gs : List (List (Quad PatVertex))) :
    ((gs.flatMap (fun g =>
        (List.finRange T).flatMap (fun i => g.map (Quad.map (place i))))).flatMap
          Quad.edges).Perm
      ((List.finRange T).flatMap (fun i =>
        (gs.flatMap (fun g => g.flatMap Quad.edges)).map (Sym2.map (place i)))) := by
  induction gs with
  | nil => simp [flatMap_const_nil]
  | cons g gs ih =>
    simp only [List.flatMap_cons, List.flatMap_append, List.map_append]
    refine List.Perm.trans ?_ (List.flatMap_append_perm _ _ _)
    refine List.Perm.append ?_ ih
    rw [List.flatMap_assoc]
    refine List.Perm.of_eq ?_
    congr 1
    funext i
    exact flatMap_edges_map _ (place_injective hT i) g

theorem seamEdge_next {T : Nat} (i : Fin T) (p : (Ring × Bool) × (Ring × Bool)) :
    Sym2.map (place i) (seamEdge true p) = Sym2.map (place (nextTooth i)) (seamEdge false p) := by
  simp [seamEdge, place]

/-- Every edge slot of the mesh is an owned edge, and each owned edge fills two
slots. -/
theorem edges_perm_ownedEdges {T : Nat} (hT : 2 ≤ T) :
    ((patternQuads T).flatMap Quad.edges).Perm (ownedEdges T ++ ownedEdges T) := by
  refine (patternQuads_edges_perm hT patternGroups).trans ?_
  have h1 : ((List.finRange T).flatMap (fun i =>
        (patternGroups.flatMap (fun g => g.flatMap Quad.edges)).map (Sym2.map (place i)))).Perm
      ((List.finRange T).flatMap (fun i =>
        ownEdges.map (Sym2.map (place i)) ++
          (innerEdges.map (Sym2.map (place i)) ++
            (seamEdges.map (seamEdge true)).map (Sym2.map (place i))))) := by
    apply List.Perm.flatMap_left
    intro i _
    have := (pattern_edges_perm.map (Sym2.map (place i)))
    rw [List.map_append, List.map_append] at this
    exact this
  refine h1.trans ?_
  refine (List.flatMap_append_perm _ _ _).symm.trans ?_
  refine List.Perm.append (List.Perm.refl _) ?_
  refine (List.flatMap_append_perm _ _ _).symm.trans ?_
  have h2 : (List.finRange T).flatMap (fun i =>
        (seamEdges.map (seamEdge true)).map (Sym2.map (place i))) =
      ((List.finRange T).map nextTooth).flatMap (fun j =>
        (seamEdges.map (seamEdge false)).map (Sym2.map (place j))) := by
    rw [List.flatMap_map]
    apply flatMap_congr_mem
    intro i _
    simp only [List.map_map, Function.comp_def, seamEdge_next]
  rw [h2]
  refine (List.Perm.append (List.Perm.refl _)
    (List.Perm.flatMap_right _ (finRange_map_nextTooth_perm T))).trans ?_
  exact (List.flatMap_append_perm _ _ _).trans (List.Perm.of_eq (by
    simp only [ownedEdges, ownEdges, List.map_append]))

theorem ownEdges_has_own_vertex :
    ∀ e ∈ ownEdges, ∃ v ∈ e, v.next = false := by
  intro e he
  simp only [ownEdges, innerEdges, seamEdges, seamEdge, List.map_cons, List.map_nil,
    List.cons_append, List.nil_append, List.mem_cons, List.mem_singleton, List.not_mem_nil,
    or_false] at he
  rcases he with h | h | h | h | h | h | h | h | h | h | h | h | h | h | h | h | h | h | h |
    h | h <;> subst h <;> exact ⟨_, Sym2.mem_mk_left _ _, rfl⟩

theorem ownedEdges_nodup {T : Nat} (hT : 3 ≤ T) : (ownedEdges T).Nodup := by
  rw [ownedEdges, List.nodup_flatMap]
  refine ⟨fun i _ => ownEdges_nodup.map (Sym2.map.injective (place_injective (by omega) i)), ?_⟩
  refine (List.nodup_finRange T).imp ?_
  intro i j hij e hi hj
  obtain ⟨ei, hei, rfl⟩ := List.mem_map.1 hi
  obtain ⟨ej, hej, hje⟩ := List.mem_map.1 hj
  obtain ⟨v, hv, hvn⟩ := ownEdges_has_own_vertex ei hei
  obtain ⟨u, hu, hun⟩ := ownEdges_has_own_vertex ej hej
  have h1 : place i v ∈ Sym2.map (place j) ej := by
    rw [hje]; exact Sym2.mem_map.2 ⟨v, hv, rfl⟩
  have h2 : place j u ∈ Sym2.map (place i) ei := by
    rw [← hje]; exact Sym2.mem_map.2 ⟨u, hu, rfl⟩
  obtain ⟨v', _, hv'⟩ := Sym2.mem_map.1 h1
  obtain ⟨u', _, hu'⟩ := Sym2.mem_map.1 h2
  have e1 : (if v'.next = true then nextTooth j else j) = i := by
    have := congrArg MeshVertex.tooth hv'
    simpa only [place, hvn, Bool.false_eq_true, if_false] using this
  have e2 : (if u'.next = true then nextTooth i else i) = j := by
    have := congrArg MeshVertex.tooth hu'
    simpa only [place, hun, Bool.false_eq_true, if_false] using this
  have hn := nextTooth_nextTooth_ne hT i
  split_ifs at e1 e2
  · exact hn (by rw [e2, e1])
  · exact hij e2
  · exact hij e1.symm
  · exact hij e1.symm

/-- When no quad repeats an edge, the number of slots an edge fills is the
number of quads it is a side of. -/
theorem count_flatMap_of_nodup {β γ : Type} [DecidableEq γ] (Q : List β) (f : β → List γ)
    (h : ∀ q ∈ Q, (f q).Nodup) (e : γ) :
    (Q.flatMap f).count e = (Q.filter (fun q => e ∈ f q)).length := by
  induction Q with
  | nil => rfl
  | cons q Q ih =>
    have hq := h q (List.mem_cons_self _ _)
    have ih' := ih (fun x hx => h x (List.mem_cons_of_mem _ hx))
    rw [List.flatMap_cons, List.count_append, ih', List.filter_cons]
    by_cases he : e ∈ f q
    · simp [he, List.count_eq_one_of_mem hq he, Nat.add_comm]
    · simp [he, List.count_eq_zero_of_not_mem he]

theorem patternQuads_edges_nodup {T : Nat} (hT : 2 ≤ T) :
    ∀ q ∈ patternQuads T, q.edges.Nodup := by
  intro q hq
  simp only [patternQuads, List.mem_flatMap, List.mem_map] at hq
  obtain ⟨g, hg, i, _, tq, htq, rfl⟩ := hq
  rw [Quad.edges_map _ (place_injective hT i)]
  exact (pattern_quad_edges_nodup g hg tq htq).map (Sym2.map.injective (place_injective hT i))

/-- In the pattern mesh with at least three teeth every edge is a side of
exactly two quads. -/
theorem patternQuads_two_quads_per_edge {T : Nat} (hT : 3 ≤ T) :
    ∀ e ∈ (patternQuads T).flatMap Quad.edges,
      ((patternQuads T).filter (fun q => e ∈ q.edges)).length = 2 := by
  intro e he
  have hperm := @edges_perm_ownedEdges T (by omega)
  have hmem : e ∈ ownedEdges T := by
    have := hperm.subset he
    simpa using this
  rw [← count_flatMap_of_nodup _ _ (patternQuads_edges_nodup (by omega)), hperm.count_eq,
    List.count_append, List.count_eq_one_of_mem (ownedEdges_nodup hT) hmem]

/-- Edge counts are preserved by an injective placement of the vertices. -/
theorem two_quads_per_edge_map {β γ : Type} [DecidableEq β] [DecidableEq γ] (f : β → γ)
    (hf : Function.Injective f) (Q : List (Quad β)) (n : Nat)
    (h : ∀ e ∈ Q.flatMap Quad.edges, (Q.filter (fun q => e ∈ q.edges)).length = n) :
    ∀ e ∈ (Q.map (Quad.map f)).flatMap Quad.edges,
      ((Q.map (Quad.map f)).filter (fun q => e ∈ q.edges)).length = n := by
  intro e he
  rw [flatMap_edges_map f hf] at he
  obtain ⟨e0, he0, rfl⟩ := List.mem_map.1 he
  rw [List.filter_map, List.length_map, ← h e0 he0]
  congr 1
  apply List.filter_congr
  intro q _
  simp only [Function.comp_apply, Quad.edges_map f hf,
    List.mem_map_of_injective (Sym2.map.injective hf)]

theorem length_flatMap_finRange {β : Type} (n : Nat) (T : Nat) (f : Fin T → List β)
    (hlen : ∀ i, (f i).length = n) : ((List.finRange T).flatMap f).length = n * T := by
  have h : ∀ l : List (Fin T), (l.flatMap f).length = n * l.length := by
    intro l
    induction l with
    | nil => rfl
    | cons a l ih => simp [List.flatMap_cons, ih, hlen, Nat.mul_succ, Nat.add_comm]
  rw [h, List.length_finRange]

theorem length_placed_group (T : Nat) (g : List (Quad PatVertex)) :
    ((List.finRange T).flatMap (fun i => g.map (Quad.map (place i)))).length =
      g.length * T :=
  length_flatMap_finRange g.length T _ (fun _ => List.length_map _ _)

theorem length_patternQuads (T : Nat) : (patternQuads T).length = 11 * T := by
  simp only [patternQuads, patternGroups, List.flatMap_cons, List.flatMap_nil, List.append_nil,
    List.length_append, length_placed_group, List.length_cons, List.length_nil]
  omega

end Pattern

/-! ## The mesh drawn by `gear` is the periodic pattern -/

section Mesh

variable {α : Type} [Field α]

theorem range_flatMap_eq_finRange {β : Type} (T : Nat) (F : Nat → List β) :
    (List.range T).flatMap F = (List.finRange T).flatMap (fun i => F i.val) := by
  rw [← List.map_coe_finRange, List.flatMap_map]

theorem range_map_eq_finRange {β : Type} (T : Nat) (F : Nat → β) :
    (List.range T).map F = (List.finRange T).flatMap (fun i => [F i.val]) := by
  rw [← List.map_coe_finRange, List.map_map]
  induction List.finRange T with
  | nil => rfl
  | cons a l ih => simp [ih]

theorem toothAngle_zero_eq (m : Libm α) (teeth : Int) : toothAngle m teeth 0 = 0 := by
  simp [toothAngle]

/-- The first vertices of the unit after tooth `i` are those of tooth
`nextTooth i`, when the angle of `i = teeth` gives the same point as angle 0. -/
theorem polar_succ (m : Libm α) (T : Nat)
    (hc : m.cos (toothAngle m T T) = m.cos 0) (hs : m.sin (toothAngle m T T) = m.sin 0)
    (i : Fin T) (r z : α) :
    polar m r (toothAngle m T (i.val + 1)) z =
      polar m r (toothAngle m T (nextTooth i).val) z := by
  rw [nextTooth_val]
  split_ifs with h
  · rw [h]
    simp only [polar, hc, hs, toothAngle_zero_eq]
  · rfl

omit [Field α] in
theorem Primitive.quads_strip (verts : List (Vertex α)) (s : ShadeModel) :
    Primitive.quads ⟨.quadStrip, s, verts⟩ = stripQuads (verts.map Vertex.pos) := rfl

omit [Field α] in
theorem Primitive.quads_quads (verts : List (Vertex α)) (s : ShadeModel) :
    Primitive.quads ⟨.quads, s, verts⟩ = quadsOf (verts.map Vertex.pos) := rfl

/-- The quads drawn by `gear`, group by group. -/
theorem meshQuads_gear (m : Libm α) (ri ro w : α) (teeth : Int) (d : α) :
    meshQuads (gear m ri ro w teeth d) =
      stripQuads (groupPositions (gear m ri ro w teeth d) 0) ++
      (quadsOf (groupPositions (gear m ri ro w teeth d) 1) ++
      (stripQuads (groupPositions (gear m ri ro w teeth d) 2) ++
      (quadsOf (groupPositions (gear m ri ro w teeth d) 3) ++
      (stripQuads (groupPositions (gear m ri ro w teeth d) 4) ++
      stripQuads (groupPositions (gear m ri ro w teeth d) 5))))) := by
  simp only [groupPositions, groupVerts, meshQuads, primitives_gear, List.flatMap_cons,
    List.flatMap_nil, List.append_nil, Primitive.quads_strip, Primitive.quads_quads,
    List.getElem?_cons_succ, List.getElem?_cons_zero]

/-- Vertex positions of the back-face strip for a non-negative tooth count. -/
theorem positions_backFace (m : Libm α) (r0 r1 w : α) (T : Nat) :
    positions ((loopLe (T : Int)).flatMap (backFaceStep m r0 r1 w T)) =
      (List.range T).flatMap (fun i =>
        [ polar m r1 (toothAngle m T i) (-w * 0.5),
          polar m r0 (toothAngle m T i) (-w * 0.5),
          polar m r1 (toothAngle m T i + 3 * stepAngle m T) (-w * 0.5),
          polar m r0 (toothAngle m T i) (-w * 0.5) ]) ++
      [ polar m r1 (toothAngle m T T) (-w * 0.5),
        polar m r0 (toothAngle m T T) (-w * 0.5) ] := by
  have hl : loopLe (T : Int) = List.range T ++ [T] := by
    simp only [loopLe]
    rw [show ((T : Int) + 1).toNat = T + 1 by omega, List.range_succ]
  rw [hl, positions_flatMap, List.flatMap_append]
  congr 1
  · apply flatMap_congr_mem
    intro i hi
    have hi' : (i : ℤ) < T := by simpa using hi
    simp [backFaceStep, hi', positions, polar]
  · simp [backFaceStep, positions, polar]

/-- Vertex positions of the inside-cylinder strip for a non-negative tooth count. -/
theorem positions_bore (m : Libm α) (r0 w : α) (T : Nat) :
    positions ((loopLe (T : Int)).flatMap (boreStep m r0 w T)) =
      (List.range (T + 1)).flatMap (fun i =>
        [ polar m r0 (toothAngle m T i) (-w * 0.5),
          polar m r0 (toothAngle m T i) (w * 0.5) ]) := by
  have hl : loopLe (T : Int) = List.range (T + 1) := by
    simp only [loopLe]
    rw [show ((T : Int) + 1).toNat = T + 1 by omega]
  rw [hl, positions_flatMap]
  rfl

/-- The mesh drawn by `gear` is the periodic pattern placed at the computed
vertex positions, when the angle of `i = teeth` gives the same point as
angle 0. -/
theorem meshQuads_gear_eq_pattern (m : Libm α) (ri ro w d : α) (T : Nat)
    (hc : m.cos (toothAngle m T T) = m.cos 0) (hs : m.sin (toothAngle m T T) = m.sin 0) :
    meshQuads (gear m ri ro w T d) =
      (patternQuads T).map
        (Quad.map (vertexPos m ri (rootRadius ro d) (tipRadius ro d) w T)) := by
  have hnext := polar_succ m T hc hs
  rw [meshQuads_gear, groupPositions_gear_frontFace, groupPositions_gear_frontTeeth,
    groupPositions_gear_backFace, groupPositions_gear_backTeeth, groupPositions_gear_outward,
    groupPositions_gear_bore, positions_frontFace, positions_backFace, positions_bore,
    positions_frontTeeth, positions_backTeeth, loopLt_natCast,
    stripQuads_outward m _ _ w T hc.symm hs.symm, quadsOf_flatMap, quadsOf_flatMap]
  rw [stripQuads_blocks_four
      (fun i => polar m ri (toothAngle m T i) (w * 0.5))
      (fun i => polar m (rootRadius ro d) (toothAngle m T i) (w * 0.5))
      (fun i => polar m ri (toothAngle m T i) (w * 0.5))
      (fun i => polar m (rootRadius ro d) (toothAngle m T i + 3 * stepAngle m T) (w * 0.5)) T,
    stripQuads_blocks_four
      (fun i => polar m (rootRadius ro d) (toothAngle m T i) (-w * 0.5))
      (fun i => polar m ri (toothAngle m T i) (-w * 0.5))
      (fun i => polar m (rootRadius ro d) (toothAngle m T i + 3 * stepAngle m T) (-w * 0.5))
      (fun i => polar m ri (toothAngle m T i) (-w * 0.5)) T,
    stripQuads_blocks_two
      (fun i => polar m ri (toothAngle m T i) (-w * 0.5))
      (fun i => polar m ri (toothAngle m T i) (w * 0.5)) T]
  simp only [patternQuads, patternGroups, List.flatMap_cons, List.flatMap_nil, List.append_nil,
    List.map_append, List.map_flatMap, range_flatMap_eq_finRange, range_map_eq_finRange]
  refine congrArg₂ _ ?_ (congrArg₂ _ ?_ (congrArg₂ _ ?_ (congrArg₂ _ ?_ (congrArg₂ _ ?_ ?_))))
  all_goals apply flatMap_congr_mem
  all_goals intro i _
  all_goals simp only [List.map_cons, List.map_nil, Quad.map, place, vertexPos,
    Bool.false_eq_true, if_false, if_true, patternPos, wallQuad, hnext]

end Mesh

/-! ## Rounding lemmas for the binary32 model -/

namespace F32

section RoundingLemmas

variable {K : Type} [LinearOrderedField K] [FloorRing K]

theorem ulpExp_eq (a : K) (e : ℤ) (he : -126 ≤ e) (hlo : (2 : K) ^ e ≤ a)
    (hhi : a < (2 : K) ^ (e + 1)) : ulpExp a = e - 23 := by
  have ha : 0 < a := lt_of_lt_of_le (by positivity) hlo
  have h1 : e ≤ Int.log 2 a :=
    (Int.zpow_le_iff_le_log (by norm_num) ha).1 (by exact_mod_cast hlo)
  have h2 : Int.log 2 a < e + 1 :=
    (Int.lt_zpow_iff_log_lt (by norm_num) ha).1 (by exact_mod_cast hhi)
  unfold ulpExp
  omega

theorem nearestEven_eq (y : K) (n : ℤ) (h1 : (n : K) - 1 / 2 < y) (h2 : y < (n : K) + 1 / 2) :
    nearestEven y = n := by
  unfold nearestEven
  rcases le_or_lt (n : K) y with h | h
  · have hf : ⌊y⌋ = n := Int.floor_eq_iff.2 ⟨h, by linarith⟩
    rw [hf, if_pos (by linarith)]
  · have hf : ⌊y⌋ = n - 1 := Int.floor_eq_iff.2 ⟨by push_cast; linarith, by push_cast; linarith⟩
    rw [hf, if_neg (by push_cast; linarith), if_pos (by push_cast; linarith)]
    ring

/-- Rounding certificate: a magnitude `a` in the binade `[2^e, 2^(e+1))` that
lies within half a unit in the last place of `n * 2^(e-23)` rounds to it. -/
theorem ofMag_eq (s : Bool) (a : K) (e n : ℤ) (r : ℚ) (he : -126 ≤ e)
    (hlo : (2 : K) ^ e ≤ a) (hhi : a < (2 : K) ^ (e + 1))
    (h1 : ((n : K) - 1 / 2) * 2 ^ (e - 23) < a) (h2 : a < ((n : K) + 1 / 2) * 2 ^ (e - 23))
    (hr : r = n * 2 ^ (e - 23)) (hfin : r < 2 ^ 128) : ofMag s a = .fin s r := by
  have hp : (0 : K) < 2 ^ (e - 23) := by positivity
  have hn : nearestEven (a / 2 ^ (e - 23)) = n :=
    nearestEven_eq _ _ ((lt_div_iff₀ hp).2 h1) ((div_lt_iff₀ hp).2 h2)
  unfold ofMag
  rw [ulpExp_eq a e he hlo hhi, hn, ← hr, if_neg (not_le.2 hfin)]

theorem nearestEven_nonneg (y : K) (hy : 0 ≤ y) : 0 ≤ nearestEven y := by
  have hf : 0 ≤ ⌊y⌋ := Int.floor_nonneg.2 hy
  unfold nearestEven
  split_ifs <;> omega

theorem nearestEven_le (y : K) : (nearestEven y : K) ≤ y + 1 / 2 := by
  have hf : (⌊y⌋ : K) ≤ y := Int.floor_le y
  unfold nearestEven
  split_ifs with h1 h2 h3
  · linarith
  · push_cast; linarith
  · linarith
  · have : y - ⌊y⌋ = 1 / 2 := le_antisymm (not_lt.1 h2) (not_lt.1 h1)
    push_cast; linarith

/-- A magnitude of at most `2^k`, `-126 <= k <= 126`, rounds to a finite value of
at most `2^(k+1)`. -/
theorem ofMag_fin_of_le (s : Bool) (a : K) (k : ℤ) (hk1 : -126 ≤ k) (hk2 : k ≤ 126)
    (h0 : 0 ≤ a) (h : a ≤ (2 : K) ^ k) :
    ∃ r : ℚ, ofMag s a = .fin s r ∧ 0 ≤ r ∧ r ≤ 2 ^ (k + 1) := by
  have hq : ulpExp a ≤ k - 23 ∨ a = 0 := by
    rcases h0.eq_or_lt with h0 | h0
    · exact Or.inr h0.symm
    · left
      have h3 : Int.log 2 a ≤ Int.log 2 ((2 : K) ^ k) := Int.log_mono_right h0 h
      have h4 : Int.log 2 ((2 : K) ^ k) = k := by
        have := @Int.log_zpow K _ _ 2 (by norm_num) k
        simpa using this
      unfold ulpExp
      omega
  have hp : (0 : K) < 2 ^ ulpExp a := by positivity
  have hn0 : 0 ≤ nearestEven (a / 2 ^ ulpExp a) := nearestEven_nonneg _ (by positivity)
  have hr0 : (0 : ℚ) ≤ nearestEven (a / 2 ^ ulpExp a) * 2 ^ ulpExp a := by
    have : (0 : ℚ) ≤ nearestEven (a / 2 ^ ulpExp a) := by exact_mod_cast hn0
    positivity
  have hle : (nearestEven (a / 2 ^ ulpExp a) * 2 ^ ulpExp a : ℚ) ≤ 2 ^ (k + 1) := by
    have hK : ((nearestEven (a / 2 ^ ulpExp a) : K)) * 2 ^ ulpExp a ≤ 2 ^ (k + 1) := by
      rcases hq with hq | hq
      · have h5 := nearestEven_le (a / 2 ^ ulpExp a)
        have h6 : (nearestEven (a / 2 ^ ulpExp a) : K) * 2 ^ ulpExp a
            ≤ (a / 2 ^ ulpExp a + 1 / 2) * 2 ^ ulpExp a :=
          mul_le_mul_of_nonneg_right h5 hp.le
        have h7 : (a / 2 ^ ulpExp a + 1 / 2) * 2 ^ ulpExp a = a + 2 ^ ulpExp a / 2 := by
          field_simp
          ring
        have h8 : (2 : K) ^ ulpExp a ≤ 2 ^ k :=
          zpow_le_zpow_right₀ (by norm_num) (by omega)
        have h9 : (2 : K) ^ (k + 1) = 2 * 2 ^ k := by
          rw [zpow_add_one₀ (by norm_num)]; ring
        have h10 : (0 : K) < 2 ^ k := by positivity
        rw [h9]
        linarith
      · have : nearestEven (a / 2 ^ ulpExp a) = 0 := by
          rw [hq, zero_div]
          exact nearestEven_eq 0 0 (by norm_num) (by norm_num)
        rw [this]
        simp
        positivity
    have : (((nearestEven (a / 2 ^ ulpExp a) * 2 ^ ulpExp a : ℚ)) : K) ≤ ((2 ^ (k + 1) : ℚ) : K) := by
      push_cast
      exact hK
    exact Rat.cast_le.1 this
  refine ⟨_, ?_, hr0, hle⟩
  unfold ofMag
  rw [if_neg]
  rw [not_le]
  refine lt_of_le_of_lt hle ?_
  have h128 : (2 : ℚ) ^ 128 = (2 : ℚ) ^ (128 : ℤ) := by norm_cast
  rw [h128]
  exact zpow_lt_zpow_right₀ (by norm_num) (by omega)

end RoundingLemmas

end F32

/-! ## Binary32 evaluation of the angles of the last tooth of an 8000000-tooth gear -/

namespace F32

theorem mul_fin (s t : Bool) (a b : ℚ) :
    (F32.fin s a) * (F32.fin t b) = ofMag (xor s t) (a * b) := rfl

theorem div_fin (s t : Bool) (a b : ℚ) (hb : b ≠ 0) :
    (F32.fin s a) / (F32.fin t b) = ofMag (xor s t) (a / b) := by
  show div _ _ = _
  simp [div, hb]

theorem add_fin_pos (a b : ℚ) (h : 0 < a + b) :
    (F32.fin false a) + (F32.fin false b) = ofMag false (a + b) := by
  show add _ _ = _
  have h1 : ¬ a + b < 0 := not_lt.2 h.le
  simp [add, signed, round, h.ne', h1, abs_of_pos h]

theorem sub_self_fin (s : Bool) (a : ℚ) : (F32.fin s a) - (F32.fin s a) = 0 := by
  show F32.add (F32.fin s a) (F32.neg (F32.fin s a)) = F32.fin false 0
  cases s <;> simp [F32.add, F32.neg, signed]

theorem ofNat_eq (n : ℕ) [n.AtLeastTwo] :
    (OfNat.ofNat n : F32) = ofMag false ((OfNat.ofNat n : ℕ) : ℚ) := rfl

theorem intCast_eq (i : ℤ) : ((i : ℤ) : F32) = round (i : ℚ) := rfl

theorem round_of_pos (x : ℚ) (h : 0 < x) : round x = ofMag false x := by
  simp [round, not_lt.2 h.le, abs_of_pos h]

theorem zero_def : (0 : F32) = F32.fin false 0 := rfl

theorem two_eq : (2 : F32) = F32.fin false 2 := by
  rw [ofNat_eq]
  exact ofMag_eq _ _ 1 8388608 _ (by norm_num) (by norm_num) (by norm_num) (by norm_num)
    (by norm_num) (by norm_num) (by norm_num)

theorem three_eq : (3 : F32) = F32.fin false 3 := by
  rw [ofNat_eq]
  exact ofMag_eq _ _ 1 12582912 _ (by norm_num) (by norm_num) (by norm_num) (by norm_num)
    (by norm_num) (by norm_num) (by norm_num)

theorem four_eq : (4 : F32) = F32.fin false 4 := by
  rw [ofNat_eq]
  exact ofMag_eq _ _ 2 8388608 _ (by norm_num) (by norm_num) (by norm_num) (by norm_num)
    (by norm_num) (by norm_num) (by norm_num)

theorem teeth_eq : ((8000000 : ℤ) : F32) = F32.fin false 8000000 := by
  rw [intCast_eq, round_of_pos _ (by norm_num)]
  exact ofMag_eq _ _ 22 16000000 _ (by norm_num) (by norm_num) (by norm_num) (by norm_num)
    (by norm_num) (by norm_num) (by norm_num)

theorem last_eq : (((7999999 : ℕ) : ℤ) : F32) = F32.fin false 7999999 := by
  rw [intCast_eq, round_of_pos _ (by norm_num)]
  exact ofMag_eq _ _ 22 15999998 _ (by norm_num) (by norm_num) (by norm_num) (by norm_num)
    (by norm_num) (by norm_num) (by norm_num)

end F32

section Float32

/-- With `teeth = 8000000`: `da = 13816871 * 2^-46`, about `1.96e-7`. -/
theorem stepAngle_f32 (m : Libm F32) (hpi : m.pi = F32.pi) :
    stepAngle m 8000000 = F32.fin false (13816871 / 70368744177664) := by
  have e1 : (F32.fin false 2) * (F32.fin false (13176795 / 4194304))
      = F32.fin false (13176795 / 2097152) :=
    F32.ofMag_eq _ _ 2 13176795 _ (by norm_num) (by norm_num) (by norm_num) (by norm_num)
      (by norm_num) (by norm_num) (by norm_num)
  have e2 : (F32.fin false (13176795 / 2097152)) / (F32.fin false 8000000)
      = F32.fin false (13816871 / 17592186044416) := by
    rw [F32.div_fin _ _ _ _ (by norm_num)]
    exact F32.ofMag_eq _ _ (-21) 13816871 _ (by norm_num) (by norm_num) (by norm_num)
      (by norm_num) (by norm_num) (by norm_num) (by norm_num)
  have e3 : (F32.fin false (13816871 / 17592186044416)) / (F32.fin false 4)
      = F32.fin false (13816871 / 70368744177664) := by
    rw [F32.div_fin _ _ _ _ (by norm_num)]
    exact F32.ofMag_eq _ _ (-23) 13816871 _ (by norm_num) (by norm_num) (by norm_num)
      (by norm_num) (by norm_num) (by norm_num) (by norm_num)
  rw [stepAngle, hpi, F32.pi, F32.two_eq, F32.four_eq, F32.teeth_eq, e1, e2, e3]

/-- With `teeth = 8000000` and `i = 7999999`: `angle = 13176793 * 2^-21`, about
`6.2831845`. -/
theorem toothAngle_f32 (m : Libm F32) (hpi : m.pi = F32.pi) :
    toothAngle m 8000000 7999999 = F32.fin false (13176793 / 2097152) := by
  have e1 : (F32.fin false 7999999) * (F32.fin false 2) = F32.fin false 15999998 :=
    F32.ofMag_eq _ _ 23 15999998 _ (by norm_num) (by norm_num) (by norm_num) (by norm_num)
      (by norm_num) (by norm_num) (by norm_num)
  have e2 : (F32.fin false 15999998) * (F32.fin false (13176795 / 4194304))
      = F32.fin false 50265476 :=
    F32.ofMag_eq _ _ 25 12566369 _ (by norm_num) (by norm_num) (by norm_num) (by norm_num)
      (by norm_num) (by norm_num) (by norm_num)
  have e3 : (F32.fin false 50265476) / (F32.fin false 8000000)
      = F32.fin false (13176793 / 2097152) := by
    rw [F32.div_fin _ _ _ _ (by norm_num)]
    exact F32.ofMag_eq _ _ 2 13176793 _ (by norm_num) (by norm_num) (by norm_num)
      (by norm_num) (by norm_num) (by norm_num) (by norm_num)
  rw [toothAngle, hpi, F32.pi, F32.two_eq, F32.teeth_eq, F32.last_eq, e1, e2, e3]

/-- The sum `angle + da` rounds back to `angle`: `da` is less than half a unit in
the last place of `angle`. -/
theorem angle_add_da (m : Libm F32) (hpi : m.pi = F32.pi) :
    toothAngle m 8000000 7999999 + stepAngle m 8000000 = toothAngle m 8000000 7999999 := by
  rw [toothAngle_f32 m hpi, stepAngle_f32 m hpi, F32.add_fin_pos _ _ (by norm_num)]
  exact F32.ofMag_eq _ _ 2 13176793 _ (by norm_num) (by norm_num) (by norm_num)
    (by norm_num) (by norm_num) (by norm_num) (by norm_num)

/-- The sum `angle + 2 * da` rounds to the binary32 successor of `angle`. -/
theorem angle_add_two_da (m : Libm F32) (hpi : m.pi = F32.pi) :
    toothAngle m 8000000 7999999 + 2 * stepAngle m 8000000
      = F32.fin false (6588397 / 1048576) := by
  have e1 : (F32.fin false 2) * (F32.fin false (13816871 / 70368744177664))
      = F32.fin false (13816871 / 35184372088832) :=
    F32.ofMag_eq _ _ (-22) 13816871 _ (by norm_num) (by norm_num) (by norm_num) (by norm_num)
      (by norm_num) (by norm_num) (by norm_num)
  rw [toothAngle_f32 m hpi, stepAngle_f32 m hpi, F32.two_eq, e1,
    F32.add_fin_pos _ _ (by norm_num)]
  exact F32.ofMag_eq _ _ 2 13176794 _ (by norm_num) (by norm_num) (by norm_num)
    (by norm_num) (by norm_num) (by norm_num) (by norm_num)

/-- The sum `angle + 3 * da` rounds to the same successor of `angle`. -/
theorem angle_add_three_da (m : Libm F32) (hpi : m.pi = F32.pi) :
    toothAngle m 8000000 7999999 + 3 * stepAngle m 8000000
      = F32.fin false (6588397 / 1048576) := by
  have e1 : (F32.fin false 3) * (F32.fin false (13816871 / 70368744177664))
      = F32.fin false (10362653 / 17592186044416) :=
    F32.ofMag_eq _ _ (-21) 10362653 _ (by norm_num) (by norm_num) (by norm_num) (by norm_num)
      (by norm_num) (by norm_num) (by norm_num)
  rw [toothAngle_f32 m hpi, stepAngle_f32 m hpi, F32.three_eq, e1,
    F32.add_fin_pos _ _ (by norm_num)]
  exact F32.ofMag_eq _ _ 2 13176794 _ (by norm_num) (by norm_num) (by norm_num)
    (by norm_num) (by norm_num) (by norm_num) (by norm_num)

end Float32

/-! ## The last tooth of `gear(1, 4, 1, 8000000, 0)` in binary32 -/

namespace F32

theorem ofMag_zero {K : Type} [LinearOrderedField K] [FloorRing K] (s : Bool) :
    ofMag s (0 : K) = .fin s 0 := by
  have h : nearestEven ((0 : K) / 2 ^ ulpExp (0 : K)) = 0 := by
    rw [zero_div]
    exact nearestEven_eq 0 0 (by norm_num) (by norm_num)
  unfold ofMag
  rw [h]
  simp

theorem zero_mul_fin (s t : Bool) (b : ℚ) :
    (F32.fin s 0) * (F32.fin t b) = F32.fin (xor s t) 0 := by
  rw [mul_fin, zero_mul, ofMag_zero]

theorem zero_add_zero (s t : Bool) :
    (F32.fin s 0) + (F32.fin t 0) = F32.fin (s && t) 0 := by
  show F32.add _ _ = _
  cases s <;> cases t <;> simp [F32.add, signed]

theorem zero_div_zero (s t : Bool) : (F32.fin s 0) / (F32.fin t 0) = F32.nan := by
  show F32.div _ _ = _
  simp [F32.div]

theorem not_pos_zero (s : Bool) : ¬ ((0 : F32) < F32.fin s 0) := by
  show ¬ (F32.lt (F32.fin false 0) (F32.fin s 0) = true)
  cases s <;> simp [F32.lt, signed]

theorem not_pos_nan : ¬ ((0 : F32) < F32.nan) := by
  show ¬ (F32.lt (F32.fin false 0) F32.nan = true)
  simp [F32.lt]

theorem nan_mul (x : F32) : F32.nan * x = F32.nan := rfl

theorem nan_add (x : F32) : F32.nan + x = F32.nan := rfl

theorem neg_nan : -F32.nan = F32.nan := rfl

theorem neg_zero : -(0 : F32) = F32.fin true 0 := rfl

theorem one_eq : (1 : F32) = F32.fin false 1 := rfl

theorem half_eq : (0.5 : F32) = F32.fin false (1 / 2) := by
  show ofMag false (OfScientific.ofScientific 5 true 1 : ℚ) = _
  exact ofMag_eq _ _ (-1) 8388608 _ (by norm_num) (by norm_num) (by norm_num) (by norm_num)
    (by norm_num) (by norm_num) (by norm_num)

theorem one_mul_half : (1 : F32) * 0.5 = F32.fin false (1 / 2) := by
  rw [one_eq, half_eq]
  exact ofMag_eq _ _ (-1) 8388608 _ (by norm_num) (by norm_num) (by norm_num) (by norm_num)
    (by norm_num) (by norm_num) (by norm_num)

/-- A function computed by `lift` from a real function bounded by 1 returns, at
a finite argument, a finite value of magnitude at most 2. -/
theorem lift_bounded {K : Type} [LinearOrderedField K] [FloorRing K] (f : K → K)
    (hf : ∀ x, |f x| ≤ 1) (s : Bool) (a : ℚ) :
    ∃ t r, lift f (F32.fin s a) = F32.fin t r ∧ 0 ≤ r ∧ r ≤ 2 := by
  show ∃ t r, (if f ((signed s a : ℚ) : K) = 0 then F32.fin s 0
    else round (f ((signed s a : ℚ) : K))) = F32.fin t r ∧ 0 ≤ r ∧ r ≤ 2
  split_ifs with h
  · exact ⟨s, 0, rfl, le_refl _, by norm_num⟩
  · obtain ⟨r, hr, h0, h2⟩ := ofMag_fin_of_le (decide (f ((signed s a : ℚ) : K) < 0))
      |f ((signed s a : ℚ) : K)| 0 (by norm_num) (by norm_num) (abs_nonneg _)
      (by simpa using hf _)
    exact ⟨_, r, hr, h0, by simpa using h2⟩

/-- The product of 4 and a finite value of magnitude at most 2 is finite. -/
theorem four_mul_fin (t : Bool) (r : ℚ) (h0 : 0 ≤ r) (h2 : r ≤ 2) :
    ∃ r', (F32.fin false 4) * (F32.fin t r) = F32.fin t r' := by
  obtain ⟨r', hr, _, _⟩ := ofMag_fin_of_le (xor false t) ((4 : ℚ) * r) 3 (by norm_num)
    (by norm_num) (by positivity) (by norm_num; linarith)
  refine ⟨r', ?_⟩
  rw [mul_fin, hr]
  simp

/-- With `r1 = r2 = 4`, the difference `r2 * f(x) - r1 * f(x)` is `+0`. -/
theorem four_mul_sub_self (f : F32 → F32)
    (hf : ∀ s a, ∃ t r, f (F32.fin s a) = F32.fin t r ∧ 0 ≤ r ∧ r ≤ 2) (s : Bool) (a : ℚ) :
    (F32.fin false 4) * f (F32.fin s a) - (F32.fin false 4) * f (F32.fin s a) = 0 := by
  obtain ⟨t, r, h, h0, h2⟩ := hf s a
  obtain ⟨r', h'⟩ := four_mul_fin t r h0 h2
  rw [h, h', sub_self_fin]

end F32

section Float32

theorem rootRadius_f32 : rootRadius (4 : F32) 0 = 4 := by
  have e1 : (F32.fin false 0) / (F32.fin false 2) = F32.fin false 0 := by
    rw [F32.div_fin _ _ _ _ (by norm_num), zero_div, F32.ofMag_zero]
    rfl
  have e2 : (F32.fin false 4) - (F32.fin false 0) = F32.fin false 4 := by
    show F32.add (F32.fin false 4) (F32.neg (F32.fin false 0)) = _
    have h : F32.add (F32.fin false 4) (F32.neg (F32.fin false 0)) = F32.round (4 : ℚ) := by
      simp [F32.add, F32.neg, F32.signed]
    rw [h, F32.round_of_pos _ (by norm_num)]
    exact F32.ofMag_eq _ _ 2 8388608 _ (by norm_num) (by norm_num) (by norm_num)
      (by norm_num) (by norm_num) (by norm_num) (by norm_num)
  rw [rootRadius, F32.two_eq, F32.four_eq, F32.zero_def, e1, e2]

theorem tipRadius_f32 : tipRadius (4 : F32) 0 = 4 := by
  have e1 : (F32.fin false 0) / (F32.fin false 2) = F32.fin false 0 := by
    rw [F32.div_fin _ _ _ _ (by norm_num), zero_div, F32.ofMag_zero]
    rfl
  have e2 : (F32.fin false 4) + (F32.fin false 0) = F32.fin false 4 := by
    rw [F32.add_fin_pos _ _ (by norm_num)]
    exact F32.ofMag_eq _ _ 2 8388608 _ (by norm_num) (by norm_num) (by norm_num)
      (by norm_num) (by norm_num) (by norm_num) (by norm_num)
  rw [tipRadius, F32.two_eq, F32.four_eq, F32.zero_def, e1, e2]

/-- The rising-flank edge vector of the last tooth is `(+0, +0)`: its two end
points are computed at the same angle and the same radius. -/
theorem risingEdge_f32 (m : Libm F32) (hpi : m.pi = F32.pi)
    (hc : ∀ s a, ∃ t r, m.cos (F32.fin s a) = F32.fin t r ∧ 0 ≤ r ∧ r ≤ 2)
    (hs : ∀ s a, ∃ t r, m.sin (F32.fin s a) = F32.fin t r ∧ 0 ≤ r ∧ r ≤ 2) :
    risingEdge m 4 4 8000000 7999999 = (0, 0) := by
  simp only [risingEdge]
  rw [angle_add_da m hpi, toothAngle_f32 m hpi, F32.four_eq, F32.four_mul_sub_self _ hc,
    F32.four_mul_sub_self _ hs]

theorem risingLen_f32 (m : Libm F32) (hpi : m.pi = F32.pi)
    (hc : ∀ s a, ∃ t r, m.cos (F32.fin s a) = F32.fin t r ∧ 0 ≤ r ∧ r ≤ 2)
    (hs : ∀ s a, ∃ t r, m.sin (F32.fin s a) = F32.fin t r ∧ 0 ≤ r ∧ r ≤ 2)
    (hq : m.sqrt 0 = 0) :
    risingLen m 4 4 8000000 7999999 = 0 := by
  have h0 : (0 : F32) * 0 + 0 * 0 = 0 := by
    rw [F32.zero_def, F32.zero_mul_fin, F32.zero_add_zero]
    rfl
  simp only [risingLen]
  rw [risingEdge_f32 m hpi hc hs]
  show m.sqrt ((0 : F32) * 0 + 0 * 0) = 0
  rw [h0, hq]

theorem risingUV_f32 (m : Libm F32) (hpi : m.pi = F32.pi)
    (hc : ∀ s a, ∃ t r, m.cos (F32.fin s a) = F32.fin t r ∧ 0 ≤ r ∧ r ≤ 2)
    (hs : ∀ s a, ∃ t r, m.sin (F32.fin s a) = F32.fin t r ∧ 0 ≤ r ∧ r ≤ 2)
    (hq : m.sqrt 0 = 0) :
    risingUV m 4 4 8000000 7999999 = (F32.nan, F32.nan) := by
  simp only [risingUV]
  rw [risingEdge_f32 m hpi hc hs, risingLen_f32 m hpi hc hs hq]
  show ((0 : F32) / 0, (0 : F32) / 0) = _
  rw [F32.zero_def, F32.zero_div_zero]

theorem fallingUV_f32 (m : Libm F32) (hpi : m.pi = F32.pi)
    (hc : ∀ s a, ∃ t r, m.cos (F32.fin s a) = F32.fin t r ∧ 0 ≤ r ∧ r ≤ 2)
    (hs : ∀ s a, ∃ t r, m.sin (F32.fin s a) = F32.fin t r ∧ 0 ≤ r ∧ r ≤ 2) :
    fallingUV m 4 4 8000000 7999999 = (0, 0) := by
  simp only [fallingUV]
  rw [angle_add_two_da m hpi, angle_add_three_da m hpi, F32.four_eq,
    F32.four_mul_sub_self _ hc, F32.four_mul_sub_self _ hs]

end Float32

/-! ## The claims -/

section Claims

theorem axisDist_polar (r a z : ℝ) (hr : 0 ≤ r) :
    axisDist ⟨Real.cos, Real.sin, Real.sqrt, Real.pi⟩
      (polar ⟨Real.cos, Real.sin, Real.sqrt, Real.pi⟩ r a z) = r := by
  simp only [axisDist, polar]
  have h : r * Real.cos a * (r * Real.cos a) + r * Real.sin a * (r * Real.sin a) = r ^ 2 := by
    have := Real.cos_sq_add_sin_sq a
    nlinarith [this]
  rw [h, Real.sqrt_sq hr]

theorem frontFace_alternates (ri ro w d : ℝ) (T : ℕ) (h0 : 0 ≤ ri)
    (h1 : 0 ≤ rootRadius ro d) :
    Alternates
      (fun p => axisDist ⟨Real.cos, Real.sin, Real.sqrt, Real.pi⟩ p = ri)
      (fun p => axisDist ⟨Real.cos, Real.sin, Real.sqrt, Real.pi⟩ p = ro - d / 2)
      (groupPositions (gear ⟨Real.cos, Real.sin, Real.sqrt, Real.pi⟩ ri ro w T d) 0) := by
  rw [groupPositions_gear_frontFace, positions_frontFace]
  refine Alternates.flatMap_four _ _ _ _ _ _ (fun i => ?_) ?_
  · exact ⟨axisDist_polar _ _ _ h0, axisDist_polar _ _ _ h1, axisDist_polar _ _ _ h0,
      axisDist_polar _ _ _ h1⟩
  · exact .pair _ _ _ (axisDist_polar _ _ _ h0) (axisDist_polar _ _ _ h1) .nil

theorem frontFace_length {α : Type} [Field α] (m : Libm α) (ri ro w d : α) (T : ℕ) :
    (groupPositions (gear m ri ro w T d) 0).length = 4 * T + 2 := by
  rw [groupPositions_gear_frontFace, positions_frontFace]
  simp [Function.comp_def]
  ring

/-- C6: for `teeth >= 1` and `r0, r1 >= 0`, the front-face quad strip drawn by
`gear` has exactly `4 * teeth + 2` vertices, all at `z = width / 2`; the
even-indexed ones lie at distance `r0 = inner_radius` from the axis and the
odd-indexed ones at distance `r1 = outer_radius - tooth_depth / 2`.  For
`gear(1, 4, 1, 20, 0.7)` the first two vertices lie at distances 1 and 3.65. -/
theorem C6_front_face_strip (ri ro w d : ℝ) (teeth : ℤ) (ht : 1 ≤ teeth)
    (h0 : 0 ≤ ri) (h1 : 0 ≤ rootRadius ro d) :
    ((groupPositions (gear ⟨Real.cos, Real.sin, Real.sqrt, Real.pi⟩ ri ro w teeth d) 0).length
        : ℤ) = 4 * teeth + 2 ∧
    (∀ p ∈ groupPositions (gear ⟨Real.cos, Real.sin, Real.sqrt, Real.pi⟩ ri ro w teeth d) 0,
      p.z = w / 2) ∧
    (∀ j p,
      (groupPositions (gear ⟨Real.cos, Real.sin, Real.sqrt, Real.pi⟩ ri ro w teeth d) 0)[2 * j]?
        = some p →
      axisDist ⟨Real.cos, Real.sin, Real.sqrt, Real.pi⟩ p = ri) ∧
    (∀ j p,
      (groupPositions (gear ⟨Real.cos, Real.sin, Real.sqrt, Real.pi⟩ ri ro w teeth d) 0)[2 * j + 1]?
        = some p →
      axisDist ⟨Real.cos, Real.sin, Real.sqrt, Real.pi⟩ p = ro - d / 2) ∧
    (∃ p q rest,
      groupPositions (gear ⟨Real.cos, Real.sin, Real.sqrt, Real.pi⟩ 1 4 1 20 0.7) 0
        = p :: q :: rest ∧
      axisDist ⟨Real.cos, Real.sin, Real.sqrt, Real.pi⟩ p = 1 ∧
      axisDist ⟨Real.cos, Real.sin, Real.sqrt, Real.pi⟩ q = 3.65) := by
  lift teeth to ℕ using (by omega) with T
  have halt := frontFace_alternates ri ro w d T h0 h1
  refine ⟨?_, ?_, halt.getElem_even, halt.getElem_odd, ?_⟩
  · rw [frontFace_length]
    push_cast
    ring
  · rw [groupPositions_gear_frontFace, positions_frontFace]
    intro p hp
    simp only [List.mem_append, List.mem_flatMap, List.mem_cons, List.mem_singleton,
      List.not_mem_nil, or_false] at hp
    have h05 : w * (0.5 : ℝ) = w / 2 := by norm_num; ring
    rcases hp with ⟨i, _, h | h | h | h⟩ | h | h <;> subst h <;> simpa [polar] using h05
  · have hg := frontFace_alternates 1 4 1 0.7 20 (by norm_num) (by norm_num [rootRadius])
    have hlen := frontFace_length ⟨Real.cos, Real.sin, Real.sqrt, Real.pi⟩ (1 : ℝ) 4 1 0.7 20
    simp only [Nat.cast_ofNat] at hg hlen
    generalize groupPositions (gear ⟨Real.cos, Real.sin, Real.sqrt, Real.pi⟩
      (1 : ℝ) 4 1 20 0.7) 0 = P at hg hlen
    cases hg with
    | nil => simp at hlen
    | single a ha => simp at hlen
    | pair p q rest hp hq _ =>
      refine ⟨p, q, rest, rfl, hp, ?_⟩
      rw [hq]
      norm_num

/-- Witness for C6 at the second gear of the program, `gear(0.5, 2, 2, 10, 0.7)`. -/
theorem C6_front_face_strip_witness :
    ((groupPositions (gear ⟨Real.cos, Real.sin, Real.sqrt, Real.pi⟩ 0.5 2 2 10 0.7) 0).length
        : ℤ) = 4 * 10 + 2 :=
  (C6_front_face_strip 0.5 2 2 0.7 10 (by norm_num) (by norm_num)
    (by norm_num [rootRadius])).1

theorem stepAngle_real (teeth : ℤ) :
    stepAngle ⟨Real.cos, Real.sin, Real.sqrt, Real.pi⟩ teeth = Real.pi / (2 * (teeth : ℝ)) := by
  simp only [stepAngle]
  rw [div_div, mul_comm (teeth : ℝ) 4, ← div_div, show (2 : ℝ) * Real.pi / 4 = Real.pi / 2 by ring,
    div_div]

theorem stepAngle_pos (teeth : ℤ) (ht : 1 ≤ teeth) :
    0 < stepAngle ⟨Real.cos, Real.sin, Real.sqrt, Real.pi⟩ teeth := by
  rw [stepAngle_real]
  have h : (1 : ℝ) ≤ (teeth : ℝ) := by exact_mod_cast ht
  have := Real.pi_pos
  positivity

theorem stepAngle_le (teeth : ℤ) (ht : 1 ≤ teeth) :
    stepAngle ⟨Real.cos, Real.sin, Real.sqrt, Real.pi⟩ teeth ≤ Real.pi / 2 := by
  rw [stepAngle_real]
  have h : (1 : ℝ) ≤ (teeth : ℝ) := by exact_mod_cast ht
  have hpi := Real.pi_pos
  apply div_le_div_of_nonneg_left hpi.le (by norm_num)
  linarith

theorem sin_stepAngle_pos (teeth : ℤ) (ht : 1 ≤ teeth) :
    0 < Real.sin (stepAngle ⟨Real.cos, Real.sin, Real.sqrt, Real.pi⟩ teeth) := by
  apply Real.sin_pos_of_pos_of_lt_pi (stepAngle_pos teeth ht)
  have := stepAngle_le teeth ht
  have := Real.pi_pos
  linarith

theorem cos_stepAngle_lt_one (teeth : ℤ) (ht : 1 ≤ teeth) :
    Real.cos (stepAngle ⟨Real.cos, Real.sin, Real.sqrt, Real.pi⟩ teeth) < 1 := by
  have h := Real.cos_lt_cos_of_nonneg_of_le_pi_div_two (le_refl (0 : ℝ))
    (stepAngle_le teeth ht) (stepAngle_pos teeth ht)
  simpa using h

/-- Squared length of the chord between radius `r` at angle `a` and radius `s`
at angle `b`. -/
theorem chord_sq (r s a b : ℝ) :
    (s * Real.cos b - r * Real.cos a) * (s * Real.cos b - r * Real.cos a) +
    (s * Real.sin b - r * Real.sin a) * (s * Real.sin b - r * Real.sin a) =
      r ^ 2 + s ^ 2 - 2 * r * s * Real.cos (b - a) := by
  rw [Real.cos_sub]
  have ha := Real.cos_sq_add_sin_sq a
  have hb := Real.cos_sq_add_sin_sq b
  linear_combination (r ^ 2) * ha + (s ^ 2) * hb

theorem chord_sq_pos (r s x : ℝ) (hr : 0 < r) (hrs : r ≤ s) (hx : Real.cos x < 1) :
    0 < r ^ 2 + s ^ 2 - 2 * r * s * Real.cos x := by
  have h1 : 0 < r * s := by nlinarith
  nlinarith [sq_nonneg (s - r), mul_pos h1 (sub_pos.2 hx)]

theorem risingLen_sq (r1 r2 : ℝ) (teeth : ℤ) (i : ℕ) :
    (risingEdge ⟨Real.cos, Real.sin, Real.sqrt, Real.pi⟩ r1 r2 teeth i).1 *
      (risingEdge ⟨Real.cos, Real.sin, Real.sqrt, Real.pi⟩ r1 r2 teeth i).1 +
    (risingEdge ⟨Real.cos, Real.sin, Real.sqrt, Real.pi⟩ r1 r2 teeth i).2 *
      (risingEdge ⟨Real.cos, Real.sin, Real.sqrt, Real.pi⟩ r1 r2 teeth i).2 =
    r1 ^ 2 + r2 ^ 2 - 2 * r1 * r2 *
      Real.cos (stepAngle ⟨Real.cos, Real.sin, Real.sqrt, Real.pi⟩ teeth) := by
  simp only [risingEdge]
  rw [chord_sq, add_sub_cancel_left]

/-- C10 (amended): over exact reals (`cos`, `sin`, `sqrt` and the arithmetic
all exact), for `teeth >= 1` and `0 < r1 <= r2` (so also for
`tooth_depth = 0`), the length `len = sqrt(u*u + v*v)` computed for the rising
flank of every tooth `i` satisfies `len^2 = r1^2 + r2^2 - 2*r1*r2*cos(da) > 0`
with `da = pi / (2 * teeth)`, hence `len` is not zero and `u /= len`,
`v /= len` do not divide by zero. -/
theorem C10_rising_len_pos (r1 r2 : ℝ) (teeth : ℤ) (i : ℕ) (ht : 1 ≤ teeth)
    (h1 : 0 < r1) (h12 : r1 ≤ r2) :
    stepAngle ⟨Real.cos, Real.sin, Real.sqrt, Real.pi⟩ teeth = Real.pi / (2 * (teeth : ℝ)) ∧
    risingLen ⟨Real.cos, Real.sin, Real.sqrt, Real.pi⟩ r1 r2 teeth i ^ 2 =
      r1 ^ 2 + r2 ^ 2 - 2 * r1 * r2 * Real.cos (Real.pi / (2 * (teeth : ℝ))) ∧
    0 < risingLen ⟨Real.cos, Real.sin, Real.sqrt, Real.pi⟩ r1 r2 teeth i ^ 2 ∧
    risingLen ⟨Real.cos, Real.sin, Real.sqrt, Real.pi⟩ r1 r2 teeth i ≠ 0 := by
  have hpos := chord_sq_pos r1 r2 _ h1 h12 (cos_stepAngle_lt_one teeth ht)
  have hsq : risingLen ⟨Real.cos, Real.sin, Real.sqrt, Real.pi⟩ r1 r2 teeth i ^ 2 =
      r1 ^ 2 + r2 ^ 2 - 2 * r1 * r2 *
        Real.cos (stepAngle ⟨Real.cos, Real.sin, Real.sqrt, Real.pi⟩ teeth) := by
    rw [risingLen]
    simp only []
    rw [risingLen_sq, Real.sq_sqrt hpos.le]
  refine ⟨stepAngle_real teeth, ?_, ?_, ?_⟩
  · rw [hsq, stepAngle_real]
  · rw [hsq]; exact hpos
  · intro h0
    rw [h0] at hsq
    rw [← hsq] at hpos
    norm_num at hpos

/-- Witness for C10 (amended) at the first gear of the program (`r1 = 3.65`,
`r2 = 4.35`, 20 teeth), tooth 0. -/
theorem C10_rising_len_pos_witness :
    risingLen ⟨Real.cos, Real.sin, Real.sqrt, Real.pi⟩ 3.65 4.35 20 0 ≠ 0 :=
  (C10_rising_len_pos 3.65 4.35 20 0 (by norm_num) (by norm_num) (by norm_num)).2.2.2

theorem sin_add_sub_cross (a b : ℝ) :
    Real.cos a * Real.sin b - Real.cos b * Real.sin a = Real.sin (b - a) := by
  rw [Real.sin_sub]; ring

/-- Twice the signed area of a front tooth quad. -/
theorem tooth_signedArea (r1 r2 t x z : ℝ) :
    (Quad.signedAreaXY
      (⟨polar ⟨Real.cos, Real.sin, Real.sqrt, Real.pi⟩ r1 t z,
        polar ⟨Real.cos, Real.sin, Real.sqrt, Real.pi⟩ r2 (t + x) z,
        polar ⟨Real.cos, Real.sin, Real.sqrt, Real.pi⟩ r2 (t + 2 * x) z,
        polar ⟨Real.cos, Real.sin, Real.sqrt, Real.pi⟩ r1 (t + 3 * x) z⟩ : Quad (Vec3 ℝ))) =
      Real.sin x * (2 * r1 * r2 + r2 ^ 2 - 3 * r1 ^ 2 + 4 * r1 ^ 2 * Real.sin x ^ 2) / 2 := by
  simp only [Quad.signedAreaXY, polar]
  have h1 := sin_add_sub_cross t (t + x)
  have h2 := sin_add_sub_cross (t + x) (t + 2 * x)
  have h3 := sin_add_sub_cross (t + 2 * x) (t + 3 * x)
  have h4 := sin_add_sub_cross (t + 3 * x) t
  rw [show t + x - t = x by ring] at h1
  rw [show t + 2 * x - (t + x) = x by ring] at h2
  rw [show t + 3 * x - (t + 2 * x) = x by ring] at h3
  rw [show t - (t + 3 * x) = -(3 * x) by ring, Real.sin_neg, Real.sin_three_mul] at h4
  linear_combination (r1 * r2 / 2) * h1 + (r2 ^ 2 / 2) * h2 + (r1 * r2 / 2) * h3 +
    (r1 ^ 2 / 2) * h4

theorem tooth_signedArea_pos (r1 r2 s : ℝ) (h1 : 0 < r1) (h12 : r1 ≤ r2) (hs : 0 < s) :
    0 < s * (2 * r1 * r2 + r2 ^ 2 - 3 * r1 ^ 2 + 4 * r1 ^ 2 * s ^ 2) / 2 := by
  have ha : 0 < 4 * r1 ^ 2 * s ^ 2 := by positivity
  have hb : 0 ≤ 2 * r1 * r2 + r2 ^ 2 - 3 * r1 ^ 2 := by nlinarith
  have hc : 0 < 2 * r1 * r2 + r2 ^ 2 - 3 * r1 ^ 2 + 4 * r1 ^ 2 * s ^ 2 := by linarith
  positivity

/-- C7 (amended): over exact reals (`cos`, `sin` and the arithmetic all exact),
for `teeth >= 1` and `0 < r1 <= r2`, the front tooth quad `i` drawn by `gear`
has the vertices `r1@theta, r2@theta+da, r2@theta+2da, r1@theta+3da` at
`z = width * 0.5` and strictly positive signed (shoelace) area in the
xy-plane; the back tooth quad `i` has the same four xy-positions in reversed
order at `z = -width * 0.5`, and its signed area is the negative of the front
one. -/
theorem C7_tooth_quads_winding (ri ro w d : ℝ) (teeth : ℤ) (i : ℕ) (ht : 1 ≤ teeth)
    (hi : (i : ℤ) < teeth) (h1 : 0 < rootRadius ro d)
    (h12 : rootRadius ro d ≤ tipRadius ro d) :
    ∃ q qb : Quad (Vec3 ℝ),
      (quadsOf (groupPositions
        (gear ⟨Real.cos, Real.sin, Real.sqrt, Real.pi⟩ ri ro w teeth d) 1))[i]? = some q ∧
      (quadsOf (groupPositions
        (gear ⟨Real.cos, Real.sin, Real.sqrt, Real.pi⟩ ri ro w teeth d) 3))[i]? = some qb ∧
      q = ⟨⟨(ro - d / 2) * Real.cos ((i : ℝ) * 2 * Real.pi / teeth),
            (ro - d / 2) * Real.sin ((i : ℝ) * 2 * Real.pi / teeth), w * 0.5⟩,
           ⟨(ro + d / 2) * Real.cos ((i : ℝ) * 2 * Real.pi / teeth + Real.pi / (2 * teeth)),
            (ro + d / 2) * Real.sin ((i : ℝ) * 2 * Real.pi / teeth + Real.pi / (2 * teeth)),
            w * 0.5⟩,
           ⟨(ro + d / 2) * Real.cos ((i : ℝ) * 2 * Real.pi / teeth + 2 * (Real.pi / (2 * teeth))),
            (ro + d / 2) * Real.sin ((i : ℝ) * 2 * Real.pi / teeth + 2 * (Real.pi / (2 * teeth))),
            w * 0.5⟩,
           ⟨(ro - d / 2) * Real.cos ((i : ℝ) * 2 * Real.pi / teeth + 3 * (Real.pi / (2 * teeth))),
            (ro - d / 2) * Real.sin ((i : ℝ) * 2 * Real.pi / teeth + 3 * (Real.pi / (2 * teeth))),
            w * 0.5⟩⟩ ∧
      0 < q.signedAreaXY ∧
      qb = ⟨⟨q.d.x, q.d.y, -w * 0.5⟩, ⟨q.c.x, q.c.y, -w * 0.5⟩,
            ⟨q.b.x, q.b.y, -w * 0.5⟩, ⟨q.a.x, q.a.y, -w * 0.5⟩⟩ ∧
      qb.signedAreaXY = -q.signedAreaXY := by
  lift teeth to ℕ using (by omega) with T
  have hiT : i < T := by exact_mod_cast hi
  refine ⟨⟨polar ⟨Real.cos, Real.sin, Real.sqrt, Real.pi⟩ (rootRadius ro d)
        (toothAngle ⟨Real.cos, Real.sin, Real.sqrt, Real.pi⟩ T i) (w * 0.5),
      polar ⟨Real.cos, Real.sin, Real.sqrt, Real.pi⟩ (tipRadius ro d)
        (toothAngle ⟨Real.cos, Real.sin, Real.sqrt, Real.pi⟩ T i +
          stepAngle ⟨Real.cos, Real.sin, Real.sqrt, Real.pi⟩ T) (w * 0.5),
      polar ⟨Real.cos, Real.sin, Real.sqrt, Real.pi⟩ (tipRadius ro d)
        (toothAngle ⟨Real.cos, Real.sin, Real.sqrt, Real.pi⟩ T i +
          2 * stepAngle ⟨Real.cos, Real.sin, Real.sqrt, Real.pi⟩ T) (w * 0.5),
      polar ⟨Real.cos, Real.sin, Real.sqrt, Real.pi⟩ (rootRadius ro d)
        (toothAngle ⟨Real.cos, Real.sin, Real.sqrt, Real.pi⟩ T i +
          3 * stepAngle ⟨Real.cos, Real.sin, Real.sqrt, Real.pi⟩ T) (w * 0.5)⟩,
    ⟨polar ⟨Real.cos, Real.sin, Real.sqrt, Real.pi⟩ (rootRadius ro d)
        (toothAngle ⟨Real.cos, Real.sin, Real.sqrt, Real.pi⟩ T i +
          3 * stepAngle ⟨Real.cos, Real.sin, Real.sqrt, Real.pi⟩ T) (-w * 0.5),
      polar ⟨Real.cos, Real.sin, Real.sqrt, Real.pi⟩ (tipRadius ro d)
        (toothAngle ⟨Real.cos, Real.sin, Real.sqrt, Real.pi⟩ T i +
          2 * stepAngle ⟨Real.cos, Real.sin, Real.sqrt, Real.pi⟩ T) (-w * 0.5),
      polar ⟨Real.cos, Real.sin, Real.sqrt, Real.pi⟩ (tipRadius ro d)
        (toothAngle ⟨Real.cos, Real.sin, Real.sqrt, Real.pi⟩ T i +
          stepAngle ⟨Real.cos, Real.sin, Real.sqrt, Real.pi⟩ T) (-w * 0.5),
      polar ⟨Real.cos, Real.sin, Real.sqrt, Real.pi⟩ (rootRadius ro d)
        (toothAngle ⟨Real.cos, Real.sin, Real.sqrt, Real.pi⟩ T i) (-w * 0.5)⟩,
    ?_, ?_, ?_, ?_, ?_, ?_⟩
  · rw [groupPositions_gear_frontTeeth, positions_frontTeeth, quadsOf_flatMap, loopLt_natCast,
      List.getElem?_map, List.getElem?_range hiT]
    rfl
  · rw [groupPositions_gear_backTeeth, positions_backTeeth, quadsOf_flatMap, loopLt_natCast,
      List.getElem?_map, List.getElem?_range hiT]
    rfl
  · simp only [polar, rootRadius, tipRadius, toothAngle, ← stepAngle_real]
    simp
  · rw [tooth_signedArea]
    exact tooth_signedArea_pos _ _ _ h1 h12 (sin_stepAngle_pos _ ht)
  · simp [polar]
  · simp only [Quad.signedAreaXY, polar]
    ring

/-- Witness for C7 (amended) at the first gear of the program,
`gear(1, 4, 1, 20, 0.7)`, tooth 0. -/
theorem C7_tooth_quads_winding_witness :
    ∃ q : Quad (Vec3 ℝ),
      (quadsOf (groupPositions
        (gear ⟨Real.cos, Real.sin, Real.sqrt, Real.pi⟩ 1 4 1 20 0.7) 1))[0]? = some q ∧
      0 < q.signedAreaXY := by
  obtain ⟨q, _, hq, _, _, hpos, _⟩ := C7_tooth_quads_winding 1 4 1 0.7 20 0
    (by norm_num) (by norm_num) (by norm_num [rootRadius]) (by norm_num [rootRadius, tipRadius])
  exact ⟨q, hq, hpos⟩

theorem toothAngle_zero (teeth : ℤ) :
    toothAngle ⟨Real.cos, Real.sin, Real.sqrt, Real.pi⟩ teeth 0 = 0 := by
  simp [toothAngle]

theorem toothAngle_teeth (T : ℕ) (hT : 1 ≤ T) :
    toothAngle ⟨Real.cos, Real.sin, Real.sqrt, Real.pi⟩ T T = 2 * Real.pi := by
  have h : (T : ℝ) ≠ 0 := by positivity
  simp only [toothAngle, Int.cast_natCast]
  field_simp
  ring

theorem polar_zero (r z : ℝ) :
    polar ⟨Real.cos, Real.sin, Real.sqrt, Real.pi⟩ r 0 z = ⟨r, 0, z⟩ := by
  simp [polar]

theorem polar_two_pi (r z : ℝ) :
    polar ⟨Real.cos, Real.sin, Real.sqrt, Real.pi⟩ r (2 * Real.pi) z = ⟨r, 0, z⟩ := by
  simp [polar]

theorem risingLen_pos (r1 r2 : ℝ) (teeth : ℤ) (i : ℕ) (ht : 1 ≤ teeth)
    (h1 : 0 < r1) (h12 : r1 ≤ r2) :
    0 < risingLen ⟨Real.cos, Real.sin, Real.sqrt, Real.pi⟩ r1 r2 teeth i := by
  rw [risingLen]
  simp only []
  rw [risingLen_sq]
  exact Real.sqrt_pos.2 (chord_sq_pos r1 r2 _ h1 h12 (cos_stepAngle_lt_one teeth ht))

/-- C8 (amended): over exact reals (`cos`, `sin`, `sqrt` and the arithmetic all
exact), for `teeth >= 1`, `0 < r1 <= r2` and every tooth `i`, the normal carried
by the vertex pair ending the rising flank (`A = r1@theta` to
`B = r2@theta+da`) is `(v, -u, 0)` with `(u, v) = (B - A) / len`, and the
normal carried by the pair ending the falling flank (`C = r2@theta+2da` to
`D = r1@theta+3da`) is `(v, -u, 0)` with `(u, v) = D - C`.  Each has zero
z-component, is orthogonal to its flank's edge vector, and has strictly
positive dot product with both endpoints of the flank. -/
theorem C8_flank_normals_outward (ri ro w d : ℝ) (teeth : ℤ) (i : ℕ) (ht : 1 ≤ teeth)
    (hi : (i : ℤ) < teeth) (h1 : 0 < rootRadius ro d)
    (h12 : rootRadius ro d ≤ tipRadius ro d) :
    ∃ vA vB vC vD : Vertex ℝ,
      (groupVerts (gear ⟨Real.cos, Real.sin, Real.sqrt, Real.pi⟩ ri ro w teeth d) 4)[8 * i]?
        = some vA ∧
      (groupVerts (gear ⟨Real.cos, Real.sin, Real.sqrt, Real.pi⟩ ri ro w teeth d) 4)[8 * i + 2]?
        = some vB ∧
      (groupVerts (gear ⟨Real.cos, Real.sin, Real.sqrt, Real.pi⟩ ri ro w teeth d) 4)[8 * i + 4]?
        = some vC ∧
      (groupVerts (gear ⟨Real.cos, Real.sin, Real.sqrt, Real.pi⟩ ri ro w teeth d) 4)[8 * i + 6]?
        = some vD ∧
      vA.pos = polar ⟨Real.cos, Real.sin, Real.sqrt, Real.pi⟩ (ro - d / 2)
        ((i : ℝ) * 2 * Real.pi / teeth) (w * 0.5) ∧
      vB.pos = polar ⟨Real.cos, Real.sin, Real.sqrt, Real.pi⟩ (ro + d / 2)
        ((i : ℝ) * 2 * Real.pi / teeth + Real.pi / (2 * teeth)) (w * 0.5) ∧
      vC.pos = polar ⟨Real.cos, Real.sin, Real.sqrt, Real.pi⟩ (ro + d / 2)
        ((i : ℝ) * 2 * Real.pi / teeth + 2 * (Real.pi / (2 * teeth))) (w * 0.5) ∧
      vD.pos = polar ⟨Real.cos, Real.sin, Real.sqrt, Real.pi⟩ (ro - d / 2)
        ((i : ℝ) * 2 * Real.pi / teeth + 3 * (Real.pi / (2 * teeth))) (w * 0.5) ∧
      vB.normal =
        ⟨(vB.pos.y - vA.pos.y) /
            risingLen ⟨Real.cos, Real.sin, Real.sqrt, Real.pi⟩ (rootRadius ro d)
              (tipRadius ro d) teeth i,
          -((vB.pos.x - vA.pos.x) /
            risingLen ⟨Real.cos, Real.sin, Real.sqrt, Real.pi⟩ (rootRadius ro d)
              (tipRadius ro d) teeth i), 0⟩ ∧
      vB.normal.z = 0 ∧
      vB.normal.dot (vB.pos.sub vA.pos) = 0 ∧
      0 < vB.normal.dot vA.pos ∧
      0 < vB.normal.dot vB.pos ∧
      vD.normal = ⟨vD.pos.y - vC.pos.y, -(vD.pos.x - vC.pos.x), 0⟩ ∧
      vD.normal.z = 0 ∧
      vD.normal.dot (vD.pos.sub vC.pos) = 0 ∧
      0 < vD.normal.dot vC.pos ∧
      0 < vD.normal.dot vD.pos := by
  lift teeth to ℕ using (by omega) with T
  have hiT : i < T := by exact_mod_cast hi
  have hlen := risingLen_pos (rootRadius ro d) (tipRadius ro d) T i ht h1 h12
  have hs := sin_stepAngle_pos T ht
  have hr2 : 0 < tipRadius ro d := lt_of_lt_of_le h1 h12
  have hget : ∀ k, k < 8 →
      (groupVerts (gear ⟨Real.cos, Real.sin, Real.sqrt, Real.pi⟩ ri ro w T d) 4)[8 * i + k]? =
      (outwardVerts ⟨Real.cos, Real.sin, Real.sqrt, Real.pi⟩ (rootRadius ro d) (tipRadius ro d)
        w T (outwardEntryNormal ⟨Real.cos, Real.sin, Real.sqrt, Real.pi⟩ T i)
        (decide (i ≠ 0)) i)[k]? := by
    intro k hk
    rw [groupVerts_gear_outward, Int.toNat_ofNat]
    exact getElem?_flatMap_range 8
      (fun j => outwardVerts ⟨Real.cos, Real.sin, Real.sqrt, Real.pi⟩ (rootRadius ro d)
        (tipRadius ro d) w T (outwardEntryNormal ⟨Real.cos, Real.sin, Real.sqrt, Real.pi⟩ T j)
        (decide (j ≠ 0)) j) (by intro; rfl) T _ i k hiT hk
  have hP := mul_pos (mul_pos h1 hr2) hs
  have hc1 := sin_add_sub_cross
    (toothAngle ⟨Real.cos, Real.sin, Real.sqrt, Real.pi⟩ T i)
    (toothAngle ⟨Real.cos, Real.sin, Real.sqrt, Real.pi⟩ T i +
      stepAngle ⟨Real.cos, Real.sin, Real.sqrt, Real.pi⟩ T)
  rw [add_sub_cancel_left] at hc1
  have hc2 := sin_add_sub_cross
    (toothAngle ⟨Real.cos, Real.sin, Real.sqrt, Real.pi⟩ T i +
      2 * stepAngle ⟨Real.cos, Real.sin, Real.sqrt, Real.pi⟩ T)
    (toothAngle ⟨Real.cos, Real.sin, Real.sqrt, Real.pi⟩ T i +
      3 * stepAngle ⟨Real.cos, Real.sin, Real.sqrt, Real.pi⟩ T)
  rw [show toothAngle ⟨Real.cos, Real.sin, Real.sqrt, Real.pi⟩ T i +
      3 * stepAngle ⟨Real.cos, Real.sin, Real.sqrt, Real.pi⟩ T -
      (toothAngle ⟨Real.cos, Real.sin, Real.sqrt, Real.pi⟩ T i +
      2 * stepAngle ⟨Real.cos, Real.sin, Real.sqrt, Real.pi⟩ T) =
      stepAngle ⟨Real.cos, Real.sin, Real.sqrt, Real.pi⟩ T by ring] at hc2
  refine ⟨_, _, _, _, hget 0 (by norm_num), hget 2 (by norm_num), hget 4 (by norm_num),
    hget 6 (by norm_num), ?_, ?_, ?_, ?_, ?_, ?_, ?_, ?_, ?_, ?_, ?_, ?_, ?_, ?_⟩
  · simp [outwardVerts, rootRadius, toothAngle]
  · simp [outwardVerts, tipRadius, toothAngle, stepAngle_real]
  · simp [outwardVerts, tipRadius, toothAngle, stepAngle_real]
  · simp [outwardVerts, rootRadius, toothAngle, stepAngle_real]
  · simp [outwardVerts, risingNormal, risingUV, risingEdge, polar]
  · simp [outwardVerts, risingNormal]
  · simp only [outwardVerts, List.getElem_cons_succ, List.getElem_cons_zero, risingNormal,
      risingUV, risingEdge, polar, Vec3.dot, Vec3.sub]
    ring
  · simp only [outwardVerts, List.getElem_cons_succ, List.getElem_cons_zero, risingNormal,
      risingUV, risingEdge, polar, Vec3.dot]
    have : 0 < rootRadius ro d * tipRadius ro d *
        Real.sin (stepAngle ⟨Real.cos, Real.sin, Real.sqrt, Real.pi⟩ T) /
        risingLen ⟨Real.cos, Real.sin, Real.sqrt, Real.pi⟩ (rootRadius ro d)
          (tipRadius ro d) T i := div_pos hP hlen
    refine lt_of_lt_of_eq this ?_
    field_simp
    linear_combination (-(rootRadius ro d * tipRadius ro d)) * hc1
  · simp only [outwardVerts, List.getElem_cons_succ, List.getElem_cons_zero, risingNormal,
      risingUV, risingEdge, polar, Vec3.dot]
    have : 0 < rootRadius ro d * tipRadius ro d *
        Real.sin (stepAngle ⟨Real.cos, Real.sin, Real.sqrt, Real.pi⟩ T) /
        risingLen ⟨Real.cos, Real.sin, Real.sqrt, Real.pi⟩ (rootRadius ro d)
          (tipRadius ro d) T i := div_pos hP hlen
    refine lt_of_lt_of_eq this ?_
    field_simp
    linear_combination (-(rootRadius ro d * tipRadius ro d)) * hc1
  · simp [outwardVerts, fallingNormal, fallingUV, polar]
  · simp [outwardVerts, fallingNormal]
  · simp only [outwardVerts, List.getElem_cons_succ, List.getElem_cons_zero, fallingNormal,
      fallingUV, polar, Vec3.dot, Vec3.sub]
    ring
  · simp only [outwardVerts, List.getElem_cons_succ, List.getElem_cons_zero, fallingNormal,
      fallingUV, polar, Vec3.dot]
    refine lt_of_lt_of_eq hP ?_
    linear_combination (-(rootRadius ro d * tipRadius ro d)) * hc2
  · simp only [outwardVerts, List.getElem_cons_succ, List.getElem_cons_zero, fallingNormal,
      fallingUV, polar, Vec3.dot]
    refine lt_of_lt_of_eq hP ?_
    linear_combination (-(rootRadius ro d * tipRadius ro d)) * hc2

/-- Witness for C8 (amended) at the first gear of the program,
`gear(1, 4, 1, 20, 0.7)`, tooth 0. -/
theorem C8_flank_normals_outward_witness :
    ∃ vA vB : Vertex ℝ,
      (groupVerts (gear ⟨Real.cos, Real.sin, Real.sqrt, Real.pi⟩ 1 4 1 20 0.7) 4)[8 * 0]?
        = some vA ∧
      (groupVerts (gear ⟨Real.cos, Real.sin, Real.sqrt, Real.pi⟩ 1 4 1 20 0.7) 4)[8 * 0 + 2]?
        = some vB ∧
      vB.normal.dot (vB.pos.sub vA.pos) = 0 ∧ 0 < vB.normal.dot vA.pos := by
  obtain ⟨vA, vB, _, _, hA, hB, _, _, _, _, _, _, _, _, ho, hp, _⟩ :=
    C8_flank_normals_outward 1 4 1 0.7 20 0 (by norm_num) (by norm_num)
      (by norm_num [rootRadius]) (by norm_num [rootRadius, tipRadius])
  exact ⟨vA, vB, hA, hB, ho, hp⟩

section Generic

variable {α : Type} [Add α] [Sub α] [Mul α] [Div α] [Neg α] [Zero α] [One α]
  [NatCast α] [IntCast α] [OfScientific α]

theorem length_positions_frontFace (m : Libm α) (r0 r1 w : α) (teeth : ℤ) :
    (positions ((loopLe teeth).flatMap (frontFaceStep m r0 r1 w teeth))).length =
      if 0 ≤ teeth then 4 * teeth.toNat + 2 else 0 := by
  by_cases h : 0 ≤ teeth
  · lift teeth to ℕ using h with T
    rw [positions_frontFace, List.length_append, length_flatMap_range 4 _ (by intro; rfl)]
    simp
  · have : loopLe teeth = [] := by
      simp only [loopLe]
      rw [show (teeth + 1).toNat = 0 by omega]
      rfl
    simp [this, h, positions]

theorem length_positions_backFace (m : Libm α) (r0 r1 w : α) (teeth : ℤ) :
    (positions ((loopLe teeth).flatMap (backFaceStep m r0 r1 w teeth))).length =
      if 0 ≤ teeth then 4 * teeth.toNat + 2 else 0 := by
  by_cases h : 0 ≤ teeth
  · lift teeth to ℕ using h with T
    have hl : loopLe (T : Int) = List.range T ++ [T] := by
      simp only [loopLe]
      rw [show ((T : Int) + 1).toNat = T + 1 by omega, List.range_succ]
    have h4 : ∀ i ∈ List.range T, positions (backFaceStep m r0 r1 w T i) =
        [ polar m r1 (toothAngle m T i) (-w * 0.5), polar m r0 (toothAngle m T i) (-w * 0.5),
          polar m r1 (toothAngle m T i + 3 * stepAngle m T) (-w * 0.5),
          polar m r0 (toothAngle m T i) (-w * 0.5) ] := by
      intro i hi
      have hi' : (i : ℤ) < T := by simpa using hi
      simp [backFaceStep, hi', positions, polar]
    rw [hl, positions_flatMap, List.flatMap_append, flatMap_congr_mem _ _ _ h4,
      List.length_append, length_flatMap_range 4 _ (by intro; rfl)]
    simp [backFaceStep, positions]
  · have : loopLe teeth = [] := by
      simp only [loopLe]
      rw [show (teeth + 1).toNat = 0 by omega]
      rfl
    simp [this, h, positions]

theorem length_positions_bore (m : Libm α) (r0 w : α) (teeth : ℤ) :
    (positions ((loopLe teeth).flatMap (boreStep m r0 w teeth))).length =
      2 * (teeth + 1).toNat := by
  rw [positions_flatMap, loopLe]
  exact length_flatMap_range 2 _ (by intro; rfl) _

theorem length_positions_outwardBody (m : Libm α) (r1 r2 w : α) (teeth : ℤ) :
    (positions (outwardBody m r1 r2 w teeth)).length = 8 * teeth.toNat + 2 := by
  rw [outwardBody, positions_append, positions_flatMap, loopLt, List.length_append,
    length_flatMap_range 8 _ (by intro; rfl)]
  rfl

theorem length_positions_teeth (m : Libm α) (r1 r2 w : α) (teeth : ℤ) :
    (positions ((loopLt teeth).flatMap (frontTeethStep m r1 r2 w teeth))).length =
      4 * teeth.toNat ∧
    (positions ((loopLt teeth).flatMap (backTeethStep m r1 r2 w teeth))).length =
      4 * teeth.toNat := by
  rw [positions_flatMap, positions_flatMap, loopLt]
  exact ⟨length_flatMap_range 4 _ (by intro; rfl) _, length_flatMap_range 4 _ (by intro; rfl) _⟩

/-- Number of `glVertex3f` calls made by `gear`. -/
theorem length_positions_gear (m : Libm α) (ri ro w : α) (teeth : ℤ) (d : α) :
    (positions (gear m ri ro w teeth d)).length =
      if 0 ≤ teeth then 26 * teeth.toNat + 8 else 2 := by
  rw [gear_eq]
  simp only [List.cons_append, List.nil_append, positions_shadeModel, positions_normal,
    positions_begin, positions_end, positions_nil, positions_append, List.length_append,
    List.length_nil, length_positions_frontFace, length_positions_backFace,
    length_positions_bore, length_positions_outwardBody,
    (length_positions_teeth m _ _ w teeth).1, (length_positions_teeth m _ _ w teeth).2]
  split_ifs with h <;> omega

/-- C3 (amended): `gear` checks nothing and has no failure path.  For every
input with `teeth < INT_MAX = 2147483647` (`teeth` and the loop counter `i` are
32-bit `GLint`), also with `teeth < 3`, `inner_radius >= outer_radius` or
`width <= 0`, the counter of the loops `for (i = 0; i <= teeth; i++)` never
exceeds `INT_MAX`, not even by its last increment, and `gear` draws its six
`glBegin`/`glEnd` groups; it makes `26 * teeth + 8` calls of `glVertex3f` when
`teeth >= 0` and 2 when `teeth < 0`. -/
theorem C3_gear_draws_for_every_input (m : Libm α) (ri ro w : α) (teeth : ℤ) (d : α)
    (hmax : teeth < 2147483647) :
    (∀ i ∈ loopLe teeth, (i : ℤ) + 1 ≤ 2147483647) ∧
    (primitives (gear m ri ro w teeth d)).length = 6 ∧
    (positions (gear m ri ro w teeth d)).length =
      if 0 ≤ teeth then 26 * teeth.toNat + 8 else 2 := by
  refine ⟨?_, ?_, length_positions_gear m ri ro w teeth d⟩
  · intro i hi
    rw [loopLe, List.mem_range] at hi
    omega
  · rw [primitives_gear]
    rfl

/-- Witness for C3 (amended) at `gear(4, 1, 0, 2, 0.7)` in binary32 arithmetic:
`teeth = 2 < 3`, `inner_radius >= outer_radius` and `width <= 0` at once. -/
theorem C3_gear_draws_for_every_input_witness :
    (2 : ℤ) < 2147483647 ∧
    (primitives (gear ⟨F32.lift Real.cos, F32.lift Real.sin, F32.liftSqrt Real.sqrt, F32.pi⟩
      4 1 0 2 0.7)).length = 6 ∧
    (positions (gear ⟨F32.lift Real.cos, F32.lift Real.sin, F32.liftSqrt Real.sqrt, F32.pi⟩
      4 1 0 2 0.7)).length = 60 :=
  ⟨by norm_num,
    (C3_gear_draws_for_every_input
      ⟨F32.lift Real.cos, F32.lift Real.sin, F32.liftSqrt Real.sqrt, F32.pi⟩
      4 1 0 2 0.7 (by norm_num)).2.1,
    (C3_gear_draws_for_every_input
      ⟨F32.lift Real.cos, F32.lift Real.sin, F32.liftSqrt Real.sqrt, F32.pi⟩
      4 1 0 2 0.7 (by norm_num)).2.2⟩

theorem outwardVerts_tail_alternates (m : Libm α) (r1 r2 w : α) (teeth : ℤ) (n : Vec3 α)
    (f : Bool) (i : ℕ) :
    Alternates (fun v : Vertex α => v.fresh = true) (fun v => v.fresh = false)
      ((outwardVerts m r1 r2 w teeth n f i).drop 2) :=
  .pair _ _ _ rfl rfl (.pair _ _ _ rfl rfl (.pair _ _ _ rfl rfl .nil))

theorem outwardVerts_alternates (m : Libm α) (r1 r2 w : α) (teeth : ℤ) (n : Vec3 α) (i : ℕ) :
    Alternates (fun v : Vertex α => v.fresh = true) (fun v => v.fresh = false)
      (outwardVerts m r1 r2 w teeth n true i) :=
  .pair _ _ _ rfl rfl (outwardVerts_tail_alternates m r1 r2 w teeth n true i)

/-- Shape of the outward-faces strip: a first pair under the back normal with
no `glNormal3f` of its own, then pairs that each follow a `glNormal3f`. -/
theorem outward_fresh_pattern (m : Libm α) (ri ro w : α) (teeth : ℤ) (d : α) :
    ∃ a b rest, groupVerts (gear m ri ro w teeth d) 4 = a :: b :: rest ∧
      a.normal = ⟨0, 0, -1⟩ ∧ a.fresh = false ∧ b.normal = ⟨0, 0, -1⟩ ∧ b.fresh = false ∧
      Alternates (fun v : Vertex α => v.fresh = true) (fun v => v.fresh = false) rest := by
  rw [groupVerts_gear_outward]
  rcases Nat.eq_zero_or_pos teeth.toNat with h0 | hpos
  · rw [h0]
    exact ⟨_, _, [], rfl, rfl, rfl, rfl, rfl, .nil⟩
  · obtain ⟨T, hT⟩ := Nat.exists_eq_succ_of_ne_zero (Nat.pos_iff_ne_zero.1 hpos)
    rw [hT, List.range_succ_eq_map, List.flatMap_cons, List.flatMap_map, List.append_assoc]
    have h := @Alternates.flatMap_range _
      (fun v : Vertex α => v.fresh = true) (fun v => v.fresh = false)
      (fun i => outwardVerts m (rootRadius ro d) (tipRadius ro d) w teeth
        (outwardEntryNormal m teeth (i + 1)) true (i + 1)) T
      (fun i => outwardVerts_alternates m _ _ w teeth _ (i + 1))
      (by intro; simp [outwardVerts])
    have hc : (List.range T).flatMap (fun i =>
          outwardVerts m (rootRadius ro d) (tipRadius ro d) w teeth
            (outwardEntryNormal m teeth i.succ) (decide (i.succ ≠ 0)) i.succ) =
        (List.range T).flatMap (fun i =>
          outwardVerts m (rootRadius ro d) (tipRadius ro d) w teeth
            (outwardEntryNormal m teeth (i + 1)) true (i + 1)) := by
      apply flatMap_congr_mem
      intro i _
      simp
    rw [hc]
    refine ⟨_, _, (outwardVerts m (rootRadius ro d) (tipRadius ro d) w teeth
        (outwardEntryNormal m teeth 0) (decide (0 ≠ 0)) 0).drop 2 ++ _, rfl, rfl, rfl, rfl, rfl,
      ?_⟩
    refine (outwardVerts_tail_alternates m _ _ w teeth _ _ 0).append
      (by simp [outwardVerts]) ?_
    refine h.1.append h.2 ?_
    exact .pair _ _ _ (by simp) rfl .nil

theorem bore_alternates (m : Libm α) (ri ro w : α) (teeth : ℤ) (d : α) :
    Alternates (fun v : Vertex α => v.fresh = true) (fun v => v.fresh = false)
      (groupVerts (gear m ri ro w teeth d) 5) := by
  rw [groupVerts_gear_bore, loopLe]
  exact (@Alternates.flatMap_range _ (fun v : Vertex α => v.fresh = true)
    (fun v => v.fresh = false) (boreVerts m ri w teeth) _
    (fun i => .pair _ _ _ rfl rfl .nil) (by intro; simp [boreVerts])).1

theorem mem_map_flat {β : Type} (l : List β) (n : Vec3 α) (v : Vertex α)
    (g : β → Vec3 α) (h : v ∈ l.map (fun p => (⟨g p, n, false⟩ : Vertex α))) :
    v.normal = n ∧ v.fresh = false := by
  obtain ⟨p, _, rfl⟩ := List.mem_map.1 h
  exact ⟨rfl, rfl⟩

/-- C4 (amended): for every input `gear` draws six groups.  The front face, the
front tooth quads, the back face and the back tooth quads are drawn while the
shade model is flat, under one normal, `(0,0,1)` resp. `(0,0,-1)`, set before
the group and not changed inside it.  The outward tooth-wall strip is also
drawn while the shade model is flat: its first vertex pair is drawn under the
back normal `(0,0,-1)` and every later pair follows a `glNormal3f` call of its
own.  Only the bore-cylinder strip is drawn while the shade model is smooth;
each of its vertex pairs follows a `glNormal3f` call of its own. -/
theorem C4_shading_of_groups (m : Libm α) (ri ro w : α) (teeth : ℤ) (d : α) :
    ∃ p0 p1 p2 p3 p4 p5 : Primitive α,
      primitives (gear m ri ro w teeth d) = [p0, p1, p2, p3, p4, p5] ∧
      (p0.mode = .quadStrip ∧ p0.shade = .flat ∧
        ∀ v ∈ p0.verts, v.normal = ⟨0, 0, 1⟩ ∧ v.fresh = false) ∧
      (p1.mode = .quads ∧ p1.shade = .flat ∧
        ∀ v ∈ p1.verts, v.normal = ⟨0, 0, 1⟩ ∧ v.fresh = false) ∧
      (p2.mode = .quadStrip ∧ p2.shade = .flat ∧
        ∀ v ∈ p2.verts, v.normal = ⟨0, 0, -1⟩ ∧ v.fresh = false) ∧
      (p3.mode = .quads ∧ p3.shade = .flat ∧
        ∀ v ∈ p3.verts, v.normal = ⟨0, 0, -1⟩ ∧ v.fresh = false) ∧
      (p4.mode = .quadStrip ∧ p4.shade = .flat ∧
        p4.verts.length = 8 * teeth.toNat + 2 ∧
        (∀ v, p4.verts[0]? = some v → v.normal = ⟨0, 0, -1⟩ ∧ v.fresh = false) ∧
        (∀ v, p4.verts[1]? = some v → v.normal = ⟨0, 0, -1⟩ ∧ v.fresh = false) ∧
        (∀ j v, p4.verts[2 * j + 2]? = some v → v.fresh = true) ∧
        (∀ j v, p4.verts[2 * j + 3]? = some v → v.fresh = false)) ∧
      (p5.mode = .quadStrip ∧ p5.shade = .smooth ∧
        p5.verts.length = 2 * (teeth + 1).toNat ∧
        (∀ j v, p5.verts[2 * j]? = some v → v.fresh = true) ∧
        (∀ j v, p5.verts[2 * j + 1]? = some v → v.fresh = false)) := by
  have h4 : groupVerts (gear m ri ro w teeth d) 4 =
      annotate ⟨0, 0, -1⟩ false
        (outwardBody m (rootRadius ro d) (tipRadius ro d) w teeth) := by
    simp [groupVerts, primitives_gear]
  have h5 : groupVerts (gear m ri ro w teeth d) 5 =
      annotate (finalNormal ⟨0, 0, -1⟩
          (outwardBody m (rootRadius ro d) (tipRadius ro d) w teeth)) false
        ((loopLe teeth).flatMap (boreStep m ri w teeth)) := by
    simp [groupVerts, primitives_gear]
  obtain ⟨a, b, rest, hab, han, haf, hbn, hbf, hrest⟩ := outward_fresh_pattern m ri ro w teeth d
  have hb := bore_alternates m ri ro w teeth d
  rw [h4] at hab
  rw [h5] at hb
  refine ⟨_, _, _, _, _, _, primitives_gear m ri ro w teeth d,
    ⟨rfl, rfl, fun v hv => mem_map_flat _ _ v _ hv⟩,
    ⟨rfl, rfl, fun v hv => mem_map_flat _ _ v _ hv⟩,
    ⟨rfl, rfl, fun v hv => mem_map_flat _ _ v _ hv⟩,
    ⟨rfl, rfl, fun v hv => mem_map_flat _ _ v _ hv⟩,
    ⟨rfl, rfl, ?_, ?_, ?_, ?_, ?_⟩, ⟨rfl, rfl, ?_, hb.getElem_even, hb.getElem_odd⟩⟩
  · have := congrArg List.length (map_pos_annotate
      (outwardBody m (rootRadius ro d) (tipRadius ro d) w teeth) ⟨0, 0, -1⟩ false)
    rw [List.length_map, length_positions_outwardBody] at this
    exact this
  · intro v hv
    simp only [hab, List.getElem?_cons_zero, Option.some.injEq] at hv
    subst hv
    exact ⟨han, haf⟩
  · intro v hv
    simp only [hab, List.getElem?_cons_succ, List.getElem?_cons_zero, Option.some.injEq] at hv
    subst hv
    exact ⟨hbn, hbf⟩
  · intro j v hv
    simp only [hab, List.getElem?_cons_succ] at hv
    exact hrest.getElem_even j v hv
  · intro j v hv
    simp only [hab, List.getElem?_cons_succ] at hv
    exact hrest.getElem_odd j v hv
  · have := congrArg List.length (map_pos_annotate
      ((loopLe teeth).flatMap (boreStep m ri w teeth))
      (finalNormal ⟨0, 0, -1⟩ (outwardBody m (rootRadius ro d) (tipRadius ro d) w teeth)) false)
    rw [List.length_map, length_positions_bore] at this
    exact this

end Generic

/-- C4 (counterexample): in `gear(1, 4, 1, 20, 0.7)` the fifth group, the
outward tooth-wall quad strip with its 162 vertices, is drawn while the shade
model is flat, not smooth. -/
theorem C4_counterexample :
    ∃ p : Primitive ℝ,
      (primitives (gear ⟨Real.cos, Real.sin, Real.sqrt, Real.pi⟩ 1 4 1 20 0.7))[4]? = some p ∧
      p.verts.map Vertex.pos =
        positions (outwardBody ⟨Real.cos, Real.sin, Real.sqrt, Real.pi⟩
          (rootRadius 4 0.7) (tipRadius 4 0.7) 1 20) ∧
      p.verts.length = 162 ∧
      p.shade = .flat ∧ p.shade ≠ .smooth := by
  refine ⟨_, by rw [primitives_gear]; rfl, map_pos_annotate _ _ _, ?_, rfl, by decide⟩
  have := congrArg List.length (map_pos_annotate
      (outwardBody ⟨Real.cos, Real.sin, Real.sqrt, Real.pi⟩ (rootRadius 4 0.7)
        (tipRadius 4 0.7) 1 20) ⟨0, 0, -1⟩ false)
  rw [List.length_map, length_positions_outwardBody] at this
  exact this

/-- C3 (counterexample): for `teeth = 2 < 3`, for `inner_radius = 4 >= 1 =
outer_radius`, and for `width = 0`, `gear` does not fail: it draws six groups
with 60, 528 and 528 vertices. -/
theorem C3_counterexample :
    ((2 : ℤ) < 3 ∧
      (primitives (gear ⟨Real.cos, Real.sin, Real.sqrt, Real.pi⟩ 1 4 1 2 0.7)).length = 6 ∧
      (positions (gear ⟨Real.cos, Real.sin, Real.sqrt, Real.pi⟩ 1 4 1 2 0.7)).length = 60) ∧
    ((4 : ℝ) ≥ 1 ∧
      (primitives (gear ⟨Real.cos, Real.sin, Real.sqrt, Real.pi⟩ 4 1 1 20 0.7)).length = 6 ∧
      (positions (gear ⟨Real.cos, Real.sin, Real.sqrt, Real.pi⟩ 4 1 1 20 0.7)).length = 528) ∧
    ((0 : ℝ) ≤ 0 ∧
      (primitives (gear ⟨Real.cos, Real.sin, Real.sqrt, Real.pi⟩ 1 4 0 20 0.7)).length = 6 ∧
      (positions (gear ⟨Real.cos, Real.sin, Real.sqrt, Real.pi⟩ 1 4 0 20 0.7)).length = 528) := by
  refine ⟨⟨by norm_num, ?_, ?_⟩, ⟨by norm_num, ?_, ?_⟩, ⟨le_refl _, ?_, ?_⟩⟩
  · rw [primitives_gear]; rfl
  · rw [length_positions_gear]; rfl
  · rw [primitives_gear]; rfl
  · rw [length_positions_gear]; rfl
  · rw [primitives_gear]; rfl
  · rw [length_positions_gear]; rfl

theorem risingNormal_normSq (r1 r2 : ℝ) (teeth : ℤ) (i : ℕ) (ht : 1 ≤ teeth)
    (h1 : 0 < r1) (h12 : r1 ≤ r2) :
    (risingNormal ⟨Real.cos, Real.sin, Real.sqrt, Real.pi⟩ r1 r2 teeth i).normSq = 1 := by
  have hlen := risingLen_pos r1 r2 teeth i ht h1 h12
  have hsq : risingLen ⟨Real.cos, Real.sin, Real.sqrt, Real.pi⟩ r1 r2 teeth i *
      risingLen ⟨Real.cos, Real.sin, Real.sqrt, Real.pi⟩ r1 r2 teeth i =
      (risingEdge ⟨Real.cos, Real.sin, Real.sqrt, Real.pi⟩ r1 r2 teeth i).1 *
        (risingEdge ⟨Real.cos, Real.sin, Real.sqrt, Real.pi⟩ r1 r2 teeth i).1 +
      (risingEdge ⟨Real.cos, Real.sin, Real.sqrt, Real.pi⟩ r1 r2 teeth i).2 *
        (risingEdge ⟨Real.cos, Real.sin, Real.sqrt, Real.pi⟩ r1 r2 teeth i).2 := by
    rw [risingLen]
    simp only []
    rw [Real.mul_self_sqrt]
    rw [risingLen_sq]
    exact (chord_sq_pos r1 r2 _ h1 h12 (cos_stepAngle_lt_one teeth ht)).le
  simp only [risingNormal, risingUV, Vec3.normSq]
  field_simp
  linear_combination -hsq

theorem cos_pi_div_forty_gt : (0.99 : ℝ) < Real.cos (Real.pi / 40) := by
  have h := @Real.one_sub_sq_div_two_le_cos (Real.pi / 40)
  have hpi := Real.pi_lt_d2
  have hpos := Real.pi_pos
  have h2 : (Real.pi / 40) ^ 2 < 0.01 := by nlinarith
  linarith

/-- C2 (failing input): in `gear(1, 4, 1, 20, 0.7)`, tooth 0, the vertex pair
ending the rising flank (index 2 of the outward strip) carries a normal of
squared length 1, but the pair ending the falling flank (index 6) carries the
normal `(v, -u, 0)` of lines 144-146, which is not divided by its length: its
squared length is `r1^2 + r2^2 - 2*r1*r2*cos(pi/40) < 1`. -/
theorem C2_falling_normal_not_unit :
    ∃ vr vf : Vertex ℝ,
      (groupVerts (gear ⟨Real.cos, Real.sin, Real.sqrt, Real.pi⟩ 1 4 1 20 0.7) 4)[2]?
        = some vr ∧
      (groupVerts (gear ⟨Real.cos, Real.sin, Real.sqrt, Real.pi⟩ 1 4 1 20 0.7) 4)[6]?
        = some vf ∧
      vr.normal = risingNormal ⟨Real.cos, Real.sin, Real.sqrt, Real.pi⟩ 3.65 4.35 20 0 ∧
      vr.normal.normSq = 1 ∧
      vf.fresh = true ∧
      vf.normal = fallingNormal ⟨Real.cos, Real.sin, Real.sqrt, Real.pi⟩ 3.65 4.35 20 0 ∧
      vf.normal.normSq = 3.65 ^ 2 + 4.35 ^ 2 - 2 * 3.65 * 4.35 * Real.cos (Real.pi / 40) ∧
      vf.normal.normSq < 1 ∧ vf.normal.normSq ≠ 1 := by
  have hr1 : rootRadius (4 : ℝ) 0.7 = 3.65 := by norm_num [rootRadius]
  have hr2 : tipRadius (4 : ℝ) 0.7 = 4.35 := by norm_num [tipRadius]
  have hget : ∀ k, k < 8 →
      (groupVerts (gear ⟨Real.cos, Real.sin, Real.sqrt, Real.pi⟩ 1 4 1 20 0.7) 4)[8 * 0 + k]? =
      (outwardVerts ⟨Real.cos, Real.sin, Real.sqrt, Real.pi⟩ 3.65 4.35
        1 20 (outwardEntryNormal ⟨Real.cos, Real.sin, Real.sqrt, Real.pi⟩ 20 0)
        (decide (0 ≠ 0)) 0)[k]? := by
    intro k hk
    rw [groupVerts_gear_outward, hr1, hr2]
    exact getElem?_flatMap_range 8
      (fun j => outwardVerts ⟨Real.cos, Real.sin, Real.sqrt, Real.pi⟩ 3.65 4.35 1 20
        (outwardEntryNormal ⟨Real.cos, Real.sin, Real.sqrt, Real.pi⟩ 20 j)
        (decide (j ≠ 0)) j) (by intro; rfl) 20 _ 0 k (by norm_num) hk
  have hda : stepAngle ⟨Real.cos, Real.sin, Real.sqrt, Real.pi⟩ 20 = Real.pi / 40 := by
    rw [stepAngle_real]; norm_num
  have hfall : (fallingNormal ⟨Real.cos, Real.sin, Real.sqrt, Real.pi⟩ 3.65 4.35 20 0).normSq =
      3.65 ^ 2 + 4.35 ^ 2 - 2 * 3.65 * 4.35 * Real.cos (Real.pi / 40) := by
    simp only [fallingNormal, fallingUV, Vec3.normSq, toothAngle_zero, hda]
    have h := chord_sq 4.35 3.65 (0 + 2 * (Real.pi / 40)) (0 + 3 * (Real.pi / 40))
    rw [show (0 : ℝ) + 3 * (Real.pi / 40) - (0 + 2 * (Real.pi / 40)) = Real.pi / 40 by ring] at h
    linear_combination h
  have hcos := cos_pi_div_forty_gt
  refine ⟨_, _, hget 2 (by norm_num), hget 6 (by norm_num), rfl, ?_, rfl, rfl, hfall, ?_, ?_⟩
  · exact risingNormal_normSq 3.65 4.35 20 0 (by norm_num) (by norm_num) (by norm_num)
  · refine lt_of_eq_of_lt hfall ?_
    nlinarith
  · refine ne_of_lt (lt_of_eq_of_lt hfall ?_)
    nlinarith

theorem toothAngle_succ (T : ℕ) (hT : 1 ≤ T) (i : ℕ) :
    toothAngle ⟨Real.cos, Real.sin, Real.sqrt, Real.pi⟩ T (i + 1) =
      toothAngle ⟨Real.cos, Real.sin, Real.sqrt, Real.pi⟩ T i +
        4 * stepAngle ⟨Real.cos, Real.sin, Real.sqrt, Real.pi⟩ T := by
  have h : (T : ℝ) ≠ 0 := by positivity
  simp only [toothAngle, stepAngle, Int.cast_natCast, Nat.cast_add, Nat.cast_one]
  field_simp
  ring

/-- Squared area of a wall quad: `width^2` times the squared chord. -/
theorem wallQuad_areaSq (w r a r' a' : ℝ) :
    (wallQuad ⟨Real.cos, Real.sin, Real.sqrt, Real.pi⟩ w r a r' a').areaSq =
      w ^ 2 * (r ^ 2 + r' ^ 2 - 2 * r * r' * Real.cos (a' - a)) := by
  rw [← chord_sq]
  simp only [wallQuad, Quad.areaSq, Vec3.cross, Vec3.normSq, polar]
  norm_num
  ring

/-- The quads of the outward-faces strip of `gear` over the reals. -/
theorem stripQuads_outward_real (ri ro w d : ℝ) (T : ℕ) (hT : 1 ≤ T) :
    stripQuads (groupPositions (gear ⟨Real.cos, Real.sin, Real.sqrt, Real.pi⟩ ri ro w T d) 4) =
      (List.range T).flatMap (fun i =>
        [ wallQuad ⟨Real.cos, Real.sin, Real.sqrt, Real.pi⟩ w (rootRadius ro d)
            (toothAngle ⟨Real.cos, Real.sin, Real.sqrt, Real.pi⟩ T i) (tipRadius ro d)
            (toothAngle ⟨Real.cos, Real.sin, Real.sqrt, Real.pi⟩ T i +
              stepAngle ⟨Real.cos, Real.sin, Real.sqrt, Real.pi⟩ T),
          wallQuad ⟨Real.cos, Real.sin, Real.sqrt, Real.pi⟩ w (tipRadius ro d)
            (toothAngle ⟨Real.cos, Real.sin, Real.sqrt, Real.pi⟩ T i +
              stepAngle ⟨Real.cos, Real.sin, Real.sqrt, Real.pi⟩ T) (tipRadius ro d)
            (toothAngle ⟨Real.cos, Real.sin, Real.sqrt, Real.pi⟩ T i +
              2 * stepAngle ⟨Real.cos, Real.sin, Real.sqrt, Real.pi⟩ T),
          wallQuad ⟨Real.cos, Real.sin, Real.sqrt, Real.pi⟩ w (tipRadius ro d)
            (toothAngle ⟨Real.cos, Real.sin, Real.sqrt, Real.pi⟩ T i +
              2 * stepAngle ⟨Real.cos, Real.sin, Real.sqrt, Real.pi⟩ T) (rootRadius ro d)
            (toothAngle ⟨Real.cos, Real.sin, Real.sqrt, Real.pi⟩ T i +
              3 * stepAngle ⟨Real.cos, Real.sin, Real.sqrt, Real.pi⟩ T),
          wallQuad ⟨Real.cos, Real.sin, Real.sqrt, Real.pi⟩ w (rootRadius ro d)
            (toothAngle ⟨Real.cos, Real.sin, Real.sqrt, Real.pi⟩ T i +
              3 * stepAngle ⟨Real.cos, Real.sin, Real.sqrt, Real.pi⟩ T) (rootRadius ro d)
            (toothAngle ⟨Real.cos, Real.sin, Real.sqrt, Real.pi⟩ T (i + 1)) ]) := by
  rw [groupPositions_gear_outward]
  apply stripQuads_outward
  · simp [toothAngle_teeth T hT]
  · simp [toothAngle_teeth T hT]

/-- With `tooth_depth = 0` every quad of the outward strip has squared area
`width^2 * 2 * outer_radius^2 * (1 - cos da)`. -/
theorem wall_areaSq_zero_depth (ri ro w : ℝ) (T : ℕ) (hT : 1 ≤ T) :
    ∀ q ∈ stripQuads
        (groupPositions (gear ⟨Real.cos, Real.sin, Real.sqrt, Real.pi⟩ ri ro w T 0) 4),
      q.areaSq = w ^ 2 * (2 * ro ^ 2 * (1 - Real.cos (Real.pi / (2 * (T : ℝ))))) := by
  intro q hq
  rw [stripQuads_outward_real ri ro w 0 T hT] at hq
  have hr1 : rootRadius ro (0 : ℝ) = ro := by simp [rootRadius]
  have hr2 : tipRadius ro (0 : ℝ) = ro := by simp [tipRadius]
  have hda := stepAngle_real (T : ℤ)
  rw [Int.cast_natCast] at hda
  simp only [List.mem_flatMap, List.mem_range, List.mem_cons, List.mem_singleton,
    List.not_mem_nil, or_false, hr1, hr2] at hq
  obtain ⟨i, _, h | h | h | h⟩ := hq <;> subst h <;> rw [wallQuad_areaSq]
  · rw [add_sub_cancel_left, hda]; ring
  · rw [show ∀ a x : ℝ, a + 2 * x - (a + x) = x by intros; ring, hda]; ring
  · rw [show ∀ a x : ℝ, a + 3 * x - (a + 2 * x) = x by intros; ring, hda]; ring
  · rw [toothAngle_succ T hT, show ∀ a x : ℝ, a + 4 * x - (a + 3 * x) = x by intros; ring, hda]
    ring

theorem length_stripQuads_outward_real (ri ro w d : ℝ) (T : ℕ) (hT : 1 ≤ T) :
    (stripQuads (groupPositions
      (gear ⟨Real.cos, Real.sin, Real.sqrt, Real.pi⟩ ri ro w T d) 4)).length = 4 * T := by
  rw [stripQuads_outward_real ri ro w d T hT]
  exact length_flatMap_range 4 _ (by intro; rfl) T

/-- C9: for `teeth >= 1`, the outward tooth-wall quad strip drawn by `gear` has
exactly `8 * teeth + 2` vertices, forming `4 * teeth` quads (four per tooth);
its last front/back pair has the same
positions as its first pair, `(r1, 0, width * 0.5)` and `(r1, 0, -width * 0.5)`;
and this closing pair equals the pair the loop body emits first at `i = teeth`
(angle `2 * pi`). -/
theorem C9_outward_strip_closes (ri ro w d : ℝ) (teeth : ℤ) (ht : 1 ≤ teeth) :
    ((groupPositions (gear ⟨Real.cos, Real.sin, Real.sqrt, Real.pi⟩ ri ro w teeth d) 4).length
        : ℤ) = 8 * teeth + 2 ∧
    ((stripQuads (groupPositions
      (gear ⟨Real.cos, Real.sin, Real.sqrt, Real.pi⟩ ri ro w teeth d) 4)).length : ℤ)
        = 4 * teeth ∧
    (groupPositions (gear ⟨Real.cos, Real.sin, Real.sqrt, Real.pi⟩ ri ro w teeth d) 4)[0]? =
      some ⟨ro - d / 2, 0, w * 0.5⟩ ∧
    (groupPositions (gear ⟨Real.cos, Real.sin, Real.sqrt, Real.pi⟩ ri ro w teeth d) 4)[1]? =
      some ⟨ro - d / 2, 0, -w * 0.5⟩ ∧
    (groupPositions (gear ⟨Real.cos, Real.sin, Real.sqrt, Real.pi⟩ ri ro w teeth d)
        4)[8 * teeth.toNat]? = some ⟨ro - d / 2, 0, w * 0.5⟩ ∧
    (groupPositions (gear ⟨Real.cos, Real.sin, Real.sqrt, Real.pi⟩ ri ro w teeth d)
        4)[8 * teeth.toNat + 1]? = some ⟨ro - d / 2, 0, -w * 0.5⟩ ∧
    (positions (outwardStep ⟨Real.cos, Real.sin, Real.sqrt, Real.pi⟩ (rootRadius ro d)
        (tipRadius ro d) w teeth teeth.toNat)).take 2 =
      [⟨ro - d / 2, 0, w * 0.5⟩, ⟨ro - d / 2, 0, -w * 0.5⟩] := by
  lift teeth to ℕ using (by omega) with T
  have hT : 1 ≤ T := by exact_mod_cast ht
  have h8 : ∀ i : ℕ,
      [ polar ⟨Real.cos, Real.sin, Real.sqrt, Real.pi⟩ (rootRadius ro d)
          (toothAngle ⟨Real.cos, Real.sin, Real.sqrt, Real.pi⟩ T i) (w * 0.5),
        polar ⟨Real.cos, Real.sin, Real.sqrt, Real.pi⟩ (rootRadius ro d)
          (toothAngle ⟨Real.cos, Real.sin, Real.sqrt, Real.pi⟩ T i) (-w * 0.5),
        polar ⟨Real.cos, Real.sin, Real.sqrt, Real.pi⟩ (tipRadius ro d)
          (toothAngle ⟨Real.cos, Real.sin, Real.sqrt, Real.pi⟩ T i +
            stepAngle ⟨Real.cos, Real.sin, Real.sqrt, Real.pi⟩ T) (w * 0.5),
        polar ⟨Real.cos, Real.sin, Real.sqrt, Real.pi⟩ (tipRadius ro d)
          (toothAngle ⟨Real.cos, Real.sin, Real.sqrt, Real.pi⟩ T i +
            stepAngle ⟨Real.cos, Real.sin, Real.sqrt, Real.pi⟩ T) (-w * 0.5),
        polar ⟨Real.cos, Real.sin, Real.sqrt, Real.pi⟩ (tipRadius ro d)
          (toothAngle ⟨Real.cos, Real.sin, Real.sqrt, Real.pi⟩ T i +
            2 * stepAngle ⟨Real.cos, Real.sin, Real.sqrt, Real.pi⟩ T) (w * 0.5),
        polar ⟨Real.cos, Real.sin, Real.sqrt, Real.pi⟩ (tipRadius ro d)
          (toothAngle ⟨Real.cos, Real.sin, Real.sqrt, Real.pi⟩ T i +
            2 * stepAngle ⟨Real.cos, Real.sin, Real.sqrt, Real.pi⟩ T) (-w * 0.5),
        polar ⟨Real.cos, Real.sin, Real.sqrt, Real.pi⟩ (rootRadius ro d)
          (toothAngle ⟨Real.cos, Real.sin, Real.sqrt, Real.pi⟩ T i +
            3 * stepAngle ⟨Real.cos, Real.sin, Real.sqrt, Real.pi⟩ T) (w * 0.5),
        polar ⟨Real.cos, Real.sin, Real.sqrt, Real.pi⟩ (rootRadius ro d)
          (toothAngle ⟨Real.cos, Real.sin, Real.sqrt, Real.pi⟩ T i +
            3 * stepAngle ⟨Real.cos, Real.sin, Real.sqrt, Real.pi⟩ T) (-w * 0.5) ].length
        = 8 := fun _ => rfl
  have hq := length_stripQuads_outward_real ri ro w d T hT
  rw [groupPositions_gear_outward, positions_outwardBody] at hq ⊢
  refine ⟨?_, by rw [hq]; push_cast; ring, ?_, ?_, ?_, ?_, ?_⟩
  · rw [List.length_append, length_flatMap_range 8 _ h8]
    simp
  · have := getElem?_flatMap_range 8 _ h8 T
      [ polar ⟨Real.cos, Real.sin, Real.sqrt, Real.pi⟩ (rootRadius ro d) 0 (w * 0.5),
        polar ⟨Real.cos, Real.sin, Real.sqrt, Real.pi⟩ (rootRadius ro d) 0 (-w * 0.5) ]
      0 0 hT (by norm_num)
    simp only [Nat.mul_zero, Nat.add_zero] at this
    rw [this]
    simp [toothAngle_zero, polar_zero, rootRadius]
  · have := getElem?_flatMap_range 8 _ h8 T
      [ polar ⟨Real.cos, Real.sin, Real.sqrt, Real.pi⟩ (rootRadius ro d) 0 (w * 0.5),
        polar ⟨Real.cos, Real.sin, Real.sqrt, Real.pi⟩ (rootRadius ro d) 0 (-w * 0.5) ]
      0 1 hT (by norm_num)
    simp only [Nat.mul_zero, Nat.zero_add] at this
    rw [this]
    simp [toothAngle_zero, polar_zero, rootRadius]
  · have := getElem?_flatMap_range_tail 8 _ h8 T
      [ polar ⟨Real.cos, Real.sin, Real.sqrt, Real.pi⟩ (rootRadius ro d) 0 (w * 0.5),
        polar ⟨Real.cos, Real.sin, Real.sqrt, Real.pi⟩ (rootRadius ro d) 0 (-w * 0.5) ] 0
    simp only [Nat.add_zero] at this
    rw [Int.toNat_ofNat, this]
    simp [polar_zero, rootRadius]
  · have := getElem?_flatMap_range_tail 8 _ h8 T
      [ polar ⟨Real.cos, Real.sin, Real.sqrt, Real.pi⟩ (rootRadius ro d) 0 (w * 0.5),
        polar ⟨Real.cos, Real.sin, Real.sqrt, Real.pi⟩ (rootRadius ro d) 0 (-w * 0.5) ] 1
    rw [Int.toNat_ofNat, this]
    simp [polar_zero, rootRadius]
  · have hp := polar_two_pi (rootRadius ro d)
    simp only [polar] at hp
    simp [outwardStep, positions, toothAngle_teeth T hT, hp, rootRadius]

/-- Witness for C9 at the third gear of the program, `gear(1.3, 2, 0.5, 10, 0.7)`. -/
theorem C9_outward_strip_closes_witness :
    ((groupPositions (gear ⟨Real.cos, Real.sin, Real.sqrt, Real.pi⟩ 1.3 2 0.5 10 0.7) 4).length
        : ℤ) = 8 * 10 + 2 :=
  (C9_outward_strip_closes 1.3 2 0.5 0.7 10 (by norm_num)).1

theorem zero_depth_area_pos (ro w : ℝ) (teeth : ℤ) (ht : 1 ≤ teeth) (hro : 0 < ro)
    (hw : 0 < w) :
    0 < w ^ 2 * (2 * ro ^ 2 * (1 - Real.cos (Real.pi / (2 * (teeth : ℝ))))) := by
  have hc := cos_stepAngle_lt_one teeth ht
  rw [stepAngle_real] at hc
  have : 0 < 1 - Real.cos (Real.pi / (2 * (teeth : ℝ))) := by linarith
  positivity

/-- C5 (amended): over exact reals (`cos`, `sin` and the arithmetic all exact),
with `tooth_depth = 0` (and `teeth >= 1`, `outer_radius > 0`, `width > 0`) the
derived radii satisfy `r1 = r2 = outer_radius`, and the outward tooth-wall
strip consists of `4 * teeth` quads, each of squared area
`width^2 * 2 * r1^2 * (1 - cos(pi / (2 * teeth)))`, which is strictly positive:
the wall quads are not zero-area quads. -/
theorem C5_zero_depth_wall_quads (ri ro w : ℝ) (teeth : ℤ) (ht : 1 ≤ teeth)
    (hro : 0 < ro) (hw : 0 < w) :
    rootRadius ro 0 = tipRadius ro 0 ∧ rootRadius ro 0 = ro ∧
    ((stripQuads (groupPositions
      (gear ⟨Real.cos, Real.sin, Real.sqrt, Real.pi⟩ ri ro w teeth 0) 4)).length : ℤ)
        = 4 * teeth ∧
    ∀ q ∈ stripQuads
        (groupPositions (gear ⟨Real.cos, Real.sin, Real.sqrt, Real.pi⟩ ri ro w teeth 0) 4),
      q.areaSq = w ^ 2 * (2 * ro ^ 2 * (1 - Real.cos (Real.pi / (2 * (teeth : ℝ))))) ∧
      0 < q.areaSq := by
  have hpos := zero_depth_area_pos ro w teeth ht hro hw
  lift teeth to ℕ using (by omega) with T
  have hT : 1 ≤ T := by exact_mod_cast ht
  refine ⟨by simp [rootRadius, tipRadius], by simp [rootRadius], ?_, ?_⟩
  · rw [length_stripQuads_outward_real ri ro w 0 T hT]
    push_cast
    ring
  · intro q hq
    have h := wall_areaSq_zero_depth ri ro w T hT q hq
    rw [Int.cast_natCast] at hpos ⊢
    exact ⟨h, h ▸ hpos⟩

/-- Witness for C5 (amended) at `gear(1, 4, 1, 20, 0)`. -/
theorem C5_zero_depth_wall_quads_witness :
    ((stripQuads (groupPositions
      (gear ⟨Real.cos, Real.sin, Real.sqrt, Real.pi⟩ 1 4 1 20 0) 4)).length : ℤ) = 4 * 20 :=
  (C5_zero_depth_wall_quads 1 4 1 20 (by norm_num) (by norm_num) (by norm_num)).2.2.1

/-- C5 (counterexample): in `gear(1, 4, 1, 20, 0)`, where `tooth_depth = 0`, the
outward strip has 80 quads and it is false that they all have zero area: none
of them has. -/
theorem C5_counterexample :
    (stripQuads (groupPositions
      (gear ⟨Real.cos, Real.sin, Real.sqrt, Real.pi⟩ 1 4 1 20 0) 4)).length = 80 ∧
    (∀ q ∈ stripQuads
        (groupPositions (gear ⟨Real.cos, Real.sin, Real.sqrt, Real.pi⟩ 1 4 1 20 0) 4),
      q.areaSq ≠ 0) ∧
    ¬ (∀ q ∈ stripQuads
        (groupPositions (gear ⟨Real.cos, Real.sin, Real.sqrt, Real.pi⟩ 1 4 1 20 0) 4),
      q.areaSq = 0) := by
  have hlen := length_stripQuads_outward_real 1 4 1 0 20 (by norm_num)
  have harea := wall_areaSq_zero_depth 1 4 1 20 (by norm_num)
  have hpos := zero_depth_area_pos 4 1 20 (by norm_num) (by norm_num) (by norm_num)
  simp only [Nat.cast_ofNat, Int.cast_ofNat] at hlen harea hpos
  have hne : ∀ q ∈ stripQuads
      (groupPositions (gear ⟨Real.cos, Real.sin, Real.sqrt, Real.pi⟩ 1 4 1 20 0) 4),
      q.areaSq ≠ 0 := by
    intro q hq
    rw [harea q hq]
    exact ne_of_gt hpos
  refine ⟨hlen, hne, fun hall => ?_⟩
  obtain ⟨q, hq⟩ := List.exists_mem_of_length_pos (by rw [hlen]; norm_num :
    0 < (stripQuads (groupPositions
      (gear ⟨Real.cos, Real.sin, Real.sqrt, Real.pi⟩ 1 4 1 20 0) 4)).length)
  exact hne q hq (hall q hq)

/-- Two points given in polar form with positive radii coincide only if the
radii agree and the angles differ by a multiple of `2 * pi`. -/
theorem polar_eq_imp (r r' a a' z z' : ℝ) (hr : 0 < r) (hr' : 0 < r')
    (h : polar ⟨Real.cos, Real.sin, Real.sqrt, Real.pi⟩ r a z =
      polar ⟨Real.cos, Real.sin, Real.sqrt, Real.pi⟩ r' a' z') :
    r = r' ∧ z = z' ∧ ∃ n : ℤ, (n : ℝ) * (2 * Real.pi) = a - a' := by
  simp only [polar, Vec3.mk.injEq] at h
  obtain ⟨hx, hy, hz⟩ := h
  have ha := Real.cos_sq_add_sin_sq a
  have ha' := Real.cos_sq_add_sin_sq a'
  have hsq : r ^ 2 = r' ^ 2 := by
    have : (r * Real.cos a) ^ 2 + (r * Real.sin a) ^ 2 =
        (r' * Real.cos a') ^ 2 + (r' * Real.sin a') ^ 2 := by rw [hx, hy]
    nlinarith
  have hrr : r = r' := by
    have h1 : (r - r') * (r + r') = 0 := by ring_nf; linarith
    rcases mul_eq_zero.1 h1 with h2 | h2
    · linarith
    · linarith
  subst hrr
  have hc : Real.cos a = Real.cos a' := mul_left_cancel₀ hr.ne' hx
  have hs : Real.sin a = Real.sin a' := mul_left_cancel₀ hr.ne' hy
  refine ⟨rfl, hz, ?_⟩
  apply (Real.cos_eq_one_iff _).1
  rw [Real.cos_sub, hc, hs]
  nlinarith

/-- Radius of a vertex kind. -/
theorem patternPos_polar (r0 r1 r2 w : ℝ) (T : ℕ) (hT : 1 ≤ T) (i : ℕ) (ring : Ring)
    (f : Bool) :
    ∃ (r : ℝ) (o : ℕ), o < 4 ∧
      (r = r0 ∧ ring = .bore ∨ r = r1 ∧ ring = .p0 ∨ r = r2 ∧ ring = .p1 ∨
        r = r2 ∧ ring = .p2 ∨ r = r1 ∧ ring = .p3) ∧
      (o = 0 ∧ (ring = .bore ∨ ring = .p0) ∨ o = 1 ∧ ring = .p1 ∨ o = 2 ∧ ring = .p2 ∨
        o = 3 ∧ ring = .p3) ∧
      patternPos ⟨Real.cos, Real.sin, Real.sqrt, Real.pi⟩ r0 r1 r2 w T i ring f =
        polar ⟨Real.cos, Real.sin, Real.sqrt, Real.pi⟩ r
          (((4 * i + o : ℕ) : ℝ) * (Real.pi / (2 * T))) (if f then w * 0.5 else -w * 0.5) := by
  have hTr : (T : ℝ) ≠ 0 := by positivity
  have hda := stepAngle_real (T : ℤ)
  rw [Int.cast_natCast] at hda
  have hang : toothAngle ⟨Real.cos, Real.sin, Real.sqrt, Real.pi⟩ T i =
      ((4 * i : ℕ) : ℝ) * (Real.pi / (2 * T)) := by
    simp only [toothAngle, Int.cast_natCast, Nat.cast_mul, Nat.cast_ofNat]
    field_simp
    ring
  cases ring
  · exact ⟨r0, 0, by norm_num, by simp, by simp, by simp [patternPos, hang]⟩
  · exact ⟨r1, 0, by norm_num, by simp, by simp, by simp [patternPos, hang]⟩
  · refine ⟨r2, 1, by norm_num, by simp, by simp, ?_⟩
    simp only [patternPos, hang, hda]
    congr 1
    push_cast
    ring
  · refine ⟨r2, 2, by norm_num, by simp, by simp, ?_⟩
    simp only [patternPos, hang, hda]
    congr 1
    push_cast
    ring
  · refine ⟨r1, 3, by norm_num, by simp, by simp, ?_⟩
    simp only [patternPos, hang, hda]
    congr 1
    push_cast
    ring

/-- Distinct labelled vertices of a valid gear lie at distinct points. -/
theorem vertexPos_injective (r0 r1 r2 w : ℝ) (T : ℕ) (hT : 1 ≤ T) (h0 : 0 < r0)
    (h01 : r0 < r1) (h12 : r1 ≤ r2) (hw : w ≠ 0) :
    Function.Injective (vertexPos ⟨Real.cos, Real.sin, Real.sqrt, Real.pi⟩ r0 r1 r2 w T) := by
  intro u v huv
  obtain ⟨ui, ur, uf⟩ := u
  obtain ⟨vi, vr, vf⟩ := v
  simp only [vertexPos] at huv
  obtain ⟨r, o, ho, hr, hor, hp⟩ := patternPos_polar r0 r1 r2 w T hT ui.val ur uf
  obtain ⟨r', o', ho', hr', hor', hp'⟩ := patternPos_polar r0 r1 r2 w T hT vi.val vr vf
  rw [hp, hp'] at huv
  have hrpos : 0 < r := by rcases hr with h | h | h | h | h <;> linarith [h.1]
  have hrpos' : 0 < r' := by rcases hr' with h | h | h | h | h <;> linarith [h.1]
  obtain ⟨hrr, hz, n, hn⟩ := polar_eq_imp _ _ _ _ _ _ hrpos hrpos' huv
  have hTr : (0 : ℝ) < T := by positivity
  have hpi := Real.pi_pos
  have hk : ((4 * ui.val + o : ℕ) : ℝ) - ((4 * vi.val + o' : ℕ) : ℝ) = 4 * T * n := by
    have h2 : (((4 * ui.val + o : ℕ) : ℝ) - ((4 * vi.val + o' : ℕ) : ℝ)) *
        (Real.pi / (2 * T)) = (n : ℝ) * (2 * Real.pi) := by rw [hn]; ring
    field_simp at h2
    have h3 : (((4 * ui.val + o : ℕ) : ℝ) - ((4 * vi.val + o' : ℕ) : ℝ)) * Real.pi =
        (4 * T * n) * Real.pi := by
      push_cast
      linarith
    exact mul_right_cancel₀ hpi.ne' h3
  have hkz : ((4 * ui.val + o : ℕ) : ℤ) - ((4 * vi.val + o' : ℕ) : ℤ) = 4 * T * n := by
    exact_mod_cast hk
  have hui := ui.isLt
  have hvi := vi.isLt
  have hn0 : n = 0 := by
    by_contra hne
    rcases lt_or_gt_of_ne hne with hlt | hgt
    · have : n ≤ -1 := by omega
      have : (4 : ℤ) * T * n ≤ 4 * T * (-1) := by
        apply mul_le_mul_of_nonneg_left this; positivity
      push_cast at hkz
      omega
    · have : 1 ≤ n := by omega
      have : (4 : ℤ) * T * 1 ≤ 4 * T * n := by
        apply mul_le_mul_of_nonneg_left this; positivity
      push_cast at hkz
      omega
  rw [hn0] at hkz
  push_cast at hkz
  have hi : ui.val = vi.val := by omega
  have hoo : o = o' := by omega
  have hfront : uf = vf := by
    cases uf <;> cases vf <;> simp at hz ⊢
    · apply hw; linarith
    · apply hw; linarith
  have hring : ur = vr := by
    subst hoo hrr
    rcases hor with ⟨h, h1 | h1⟩ | ⟨h, h1⟩ | ⟨h, h1⟩ | ⟨h, h1⟩ <;>
    rcases hor' with ⟨h', h1' | h1'⟩ | ⟨h', h1'⟩ | ⟨h', h1'⟩ | ⟨h', h1'⟩ <;>
    subst h1 h1' <;> first | rfl | omega | (simp at hr hr'; linarith)
  have hfin : ui = vi := Fin.ext hi
  subst hfin hring hfront
  rfl

/-- C1: for every valid gear specification (`0 < inner_radius < r1 < r2`,
`width > 0`, `teeth >= 3`) the quads drawn by `gear`, every quad strip cut
into its quads and angles taken over the exact reals, form a closed surface:
there are `11 * teeth` quads, and every edge (a side of some quad, with two
distinct end points) is a side of exactly two of them. -/
theorem C1_closed_manifold (ri ro w d : ℝ) (teeth : ℤ) (h0 : 0 < ri)
    (h01 : ri < rootRadius ro d) (h12 : rootRadius ro d < tipRadius ro d) (hw : 0 < w)
    (ht : 3 ≤ teeth) :
    (meshQuads (gear ⟨Real.cos, Real.sin, Real.sqrt, Real.pi⟩ ri ro w teeth d)).length
      = 11 * teeth.toNat ∧
    ∀ e ∈ (meshQuads (gear ⟨Real.cos, Real.sin, Real.sqrt, Real.pi⟩ ri ro w teeth d)).flatMap
        Quad.edges,
      ((meshQuads (gear ⟨Real.cos, Real.sin, Real.sqrt, Real.pi⟩ ri ro w teeth d)).filter
        (fun q => e ∈ q.edges)).length = 2 := by
  lift teeth to ℕ using (by omega) with T
  have hT : 3 ≤ T := by exact_mod_cast ht
  have hc : Real.cos (toothAngle ⟨Real.cos, Real.sin, Real.sqrt, Real.pi⟩ T T) = Real.cos 0 := by
    rw [toothAngle_teeth T (by omega)]; simp
  have hs : Real.sin (toothAngle ⟨Real.cos, Real.sin, Real.sqrt, Real.pi⟩ T T) = Real.sin 0 := by
    rw [toothAngle_teeth T (by omega)]; simp
  have hmesh := meshQuads_gear_eq_pattern ⟨Real.cos, Real.sin, Real.sqrt, Real.pi⟩
    ri ro w d T hc hs
  have hinj := vertexPos_injective ri (rootRadius ro d) (tipRadius ro d) w T (by omega) h0 h01
    h12.le hw.ne'
  rw [hmesh]
  refine ⟨by rw [List.length_map, length_patternQuads, Int.toNat_ofNat], ?_⟩
  exact two_quads_per_edge_map _ hinj _ 2 (patternQuads_two_quads_per_edge hT)

/-- Witness for C1 at the first gear of the program, `gear(1, 4, 1, 20, 0.7)`. -/
theorem C1_closed_manifold_witness :
    (meshQuads (gear ⟨Real.cos, Real.sin, Real.sqrt, Real.pi⟩ 1 4 1 20 0.7)).length = 220 ∧
    ∀ e ∈ (meshQuads (gear ⟨Real.cos, Real.sin, Real.sqrt, Real.pi⟩ 1 4 1 20 0.7)).flatMap
        Quad.edges,
      ((meshQuads (gear ⟨Real.cos, Real.sin, Real.sqrt, Real.pi⟩ 1 4 1 20 0.7)).filter
        (fun q => e ∈ q.edges)).length = 2 :=
  C1_closed_manifold 1 4 1 0.7 20 (by norm_num) (by norm_num [rootRadius])
    (by norm_num [rootRadius, tipRadius]) (by norm_num) (by norm_num)

/-! ### Counterexamples in binary32 arithmetic

The math library used below computes `cos`, `sin` and `sqrt` from the real
functions and rounds the result to binary32.  The lemmas the counterexamples
rest on (`angle_add_da`, `risingEdge_f32`, `risingLen_f32`, ...) hold for any
math library whose `cos` and `sin` return finite values. -/

theorem libm32_cos (s : Bool) (a : ℚ) :
    ∃ t r, F32.lift Real.cos (F32.fin s a) = F32.fin t r ∧ 0 ≤ r ∧ r ≤ 2 :=
  F32.lift_bounded Real.cos Real.abs_cos_le_one s a

theorem libm32_sin (s : Bool) (a : ℚ) :
    ∃ t r, F32.lift Real.sin (F32.fin s a) = F32.fin t r ∧ 0 ≤ r ∧ r ≤ 2 :=
  F32.lift_bounded Real.sin Real.abs_sin_le_one s a

theorem libm32_sqrt_zero : F32.liftSqrt Real.sqrt 0 = 0 := by
  show F32.liftSqrt Real.sqrt (F32.fin false 0) = F32.fin false 0
  simp [F32.liftSqrt]

theorem zero_lt_four : (0 : F32) < 4 := by
  rw [F32.four_eq]
  show F32.lt (F32.fin false 0) (F32.fin false 4) = true
  simp [F32.lt, F32.signed]

/-- C10 (counterexample): in binary32, for `gear(1, 4, 1, 8000000, 0)` the radii
are `r1 = r2 = 4 > 0`, and at the last tooth, `i = 7999999`, the sum
`angle + da` rounds to `angle`.  So `u` and `v` are both `+0`,
`len = sqrt(u*u + v*v)` is `0`, and `u /= len`, `v /= len` divide zero by zero,
which gives NaN. -/
theorem C10_counterexample :
    (1 : ℤ) ≤ 8000000 ∧ ((7999999 : ℕ) : ℤ) < 8000000 ∧
    rootRadius (4 : F32) 0 = 4 ∧ tipRadius (4 : F32) 0 = 4 ∧ (0 : F32) < 4 ∧
    toothAngle ⟨F32.lift Real.cos, F32.lift Real.sin, F32.liftSqrt Real.sqrt, F32.pi⟩
        8000000 7999999 +
      stepAngle ⟨F32.lift Real.cos, F32.lift Real.sin, F32.liftSqrt Real.sqrt, F32.pi⟩ 8000000
      = toothAngle ⟨F32.lift Real.cos, F32.lift Real.sin, F32.liftSqrt Real.sqrt, F32.pi⟩
        8000000 7999999 ∧
    risingEdge ⟨F32.lift Real.cos, F32.lift Real.sin, F32.liftSqrt Real.sqrt, F32.pi⟩
      (rootRadius 4 0) (tipRadius 4 0) 8000000 7999999 = (0, 0) ∧
    risingLen ⟨F32.lift Real.cos, F32.lift Real.sin, F32.liftSqrt Real.sqrt, F32.pi⟩
      (rootRadius 4 0) (tipRadius 4 0) 8000000 7999999 = 0 ∧
    risingUV ⟨F32.lift Real.cos, F32.lift Real.sin, F32.liftSqrt Real.sqrt, F32.pi⟩
      (rootRadius 4 0) (tipRadius 4 0) 8000000 7999999 = (F32.nan, F32.nan) := by
  rw [rootRadius_f32, tipRadius_f32]
  exact ⟨by norm_num, by norm_num, rfl, rfl, zero_lt_four, angle_add_da _ rfl,
    risingEdge_f32 _ rfl libm32_cos libm32_sin,
    risingLen_f32 _ rfl libm32_cos libm32_sin libm32_sqrt_zero,
    risingUV_f32 _ rfl libm32_cos libm32_sin libm32_sqrt_zero⟩

theorem polar_f32_finite (s : Bool) (a : ℚ) (z : F32) :
    (polar ⟨F32.lift Real.cos, F32.lift Real.sin, F32.liftSqrt Real.sqrt, F32.pi⟩ 4
      (F32.fin s a) z).x.isFinite = true ∧
    (polar ⟨F32.lift Real.cos, F32.lift Real.sin, F32.liftSqrt Real.sqrt, F32.pi⟩ 4
      (F32.fin s a) z).y.isFinite = true := by
  obtain ⟨t, r, h, h0, h2⟩ := libm32_cos s a
  obtain ⟨r', h'⟩ := F32.four_mul_fin t r h0 h2
  obtain ⟨t2, r2, k, k0, k2⟩ := libm32_sin s a
  obtain ⟨r2', k'⟩ := F32.four_mul_fin t2 r2 k0 k2
  simp only [polar]
  rw [F32.four_eq, h, h', k, k']
  exact ⟨rfl, rfl⟩

/-- A quad with corners `p, p, q, q` has signed area zero. -/
theorem signedAreaXY_doubled (p q : Vec3 F32) :
    (Quad.map (Vec3.map F32.toRat) ⟨p, p, q, q⟩).signedAreaXY = 0 := by
  simp only [Quad.signedAreaXY, Quad.map, Vec3.map]
  ring

/-- C7 (counterexample): in binary32, for `gear(1, 4, 1, 8000000, 0)`
(`r1 = r2 = 4`), the front tooth quad of the last tooth, `i = 7999999`, has the
corners `p, p, q, q`: `angle + da` rounds to `angle = 13176793 * 2^-21`, and
`angle + 2*da` and `angle + 3*da` both round to `13176794 * 2^-21`.  The
coordinates are finite numbers, and the signed area of the quad they describe
is zero, not positive. -/
theorem C7_counterexample :
    ∃ p q : Vec3 F32,
      (quadsOf (groupPositions
        (gear ⟨F32.lift Real.cos, F32.lift Real.sin, F32.liftSqrt Real.sqrt, F32.pi⟩
          1 4 1 8000000 0) 1))[7999999]? = some ⟨p, p, q, q⟩ ∧
      p = polar ⟨F32.lift Real.cos, F32.lift Real.sin, F32.liftSqrt Real.sqrt, F32.pi⟩ 4
        (F32.fin false (13176793 / 2097152)) (1 * 0.5) ∧
      q = polar ⟨F32.lift Real.cos, F32.lift Real.sin, F32.liftSqrt Real.sqrt, F32.pi⟩ 4
        (F32.fin false (13176794 / 2097152)) (1 * 0.5) ∧
      p.x.isFinite = true ∧ p.y.isFinite = true ∧
      q.x.isFinite = true ∧ q.y.isFinite = true ∧
      (Quad.map (Vec3.map F32.toRat) ⟨p, p, q, q⟩).signedAreaXY = 0 ∧
      ¬ (0 < (Quad.map (Vec3.map F32.toRat) ⟨p, p, q, q⟩).signedAreaXY) := by
  refine ⟨polar ⟨F32.lift Real.cos, F32.lift Real.sin, F32.liftSqrt Real.sqrt, F32.pi⟩ 4
      (F32.fin false (13176793 / 2097152)) (1 * 0.5),
    polar ⟨F32.lift Real.cos, F32.lift Real.sin, F32.liftSqrt Real.sqrt, F32.pi⟩ 4
      (F32.fin false (13176794 / 2097152)) (1 * 0.5),
    ?_, rfl, rfl, (polar_f32_finite false _ _).1, (polar_f32_finite false _ _).2,
    (polar_f32_finite false _ _).1, (polar_f32_finite false _ _).2,
    signedAreaXY_doubled _ _, ?_⟩
  · have hT : loopLt (8000000 : ℤ) = List.range 8000000 := loopLt_natCast 8000000
    have h3 : (F32.fin false (6588397 / 1048576) : F32) =
        F32.fin false (13176794 / 2097152) := by
      norm_num
    rw [groupPositions_gear_frontTeeth, positions_frontTeeth, quadsOf_flatMap, hT,
      List.getElem?_map, List.getElem?_range (by norm_num), rootRadius_f32, tipRadius_f32]
    simp only [Option.map_some']
    rw [angle_add_da _ rfl, angle_add_two_da _ rfl, angle_add_three_da _ rfl,
      toothAngle_f32 _ rfl, h3]
  · rw [signedAreaXY_doubled]
    exact lt_irrefl 0

/-- The dot product of a NaN normal with any position is NaN. -/
theorem dot_nan (z : F32) (p : Vec3 F32) : Vec3.dot ⟨F32.nan, F32.nan, z⟩ p = F32.nan := rfl

/-- The dot product of a zero normal with a finite position is a zero. -/
theorem dot_zero (s1 s2 s3 t1 t2 t3 : Bool) (a1 a2 a3 : ℚ) :
    ∃ s, Vec3.dot ⟨F32.fin s1 0, F32.fin s2 0, F32.fin s3 0⟩
      ⟨F32.fin t1 a1, F32.fin t2 a2, F32.fin t3 a3⟩ = F32.fin s 0 := by
  simp only [Vec3.dot]
  rw [F32.zero_mul_fin, F32.zero_mul_fin, F32.zero_mul_fin, F32.zero_add_zero,
    F32.zero_add_zero]
  exact ⟨_, rfl⟩

theorem not_pos_dot_zero (s : Bool) (a : ℚ) :
    ¬ ((0 : F32) < Vec3.dot ⟨0, -0, 0⟩
      (polar ⟨F32.lift Real.cos, F32.lift Real.sin, F32.liftSqrt Real.sqrt, F32.pi⟩ 4
        (F32.fin s a) (1 * 0.5))) := by
  obtain ⟨t, r, h, h0, h2⟩ := libm32_cos s a
  obtain ⟨r', h'⟩ := F32.four_mul_fin t r h0 h2
  obtain ⟨t2, r2, k, k0, k2⟩ := libm32_sin s a
  obtain ⟨r2', k'⟩ := F32.four_mul_fin t2 r2 k0 k2
  simp only [polar]
  rw [F32.four_eq, h, h', k, k', F32.one_mul_half, F32.neg_zero, F32.zero_def]
  obtain ⟨s', hs'⟩ := dot_zero false true false t t2 false r' r2' (1 / 2)
  rw [hs']
  exact F32.not_pos_zero s'

theorem outward_last_tooth_f32 (k : ℕ) (hk : k < 8) :
    (groupVerts (gear ⟨F32.lift Real.cos, F32.lift Real.sin, F32.liftSqrt Real.sqrt, F32.pi⟩
      1 4 1 8000000 0) 4)[8 * 7999999 + k]? =
    (outwardVerts ⟨F32.lift Real.cos, F32.lift Real.sin, F32.liftSqrt Real.sqrt, F32.pi⟩ 4 4 1
      8000000
      (outwardEntryNormal ⟨F32.lift Real.cos, F32.lift Real.sin, F32.liftSqrt Real.sqrt, F32.pi⟩
        8000000 7999999)
      (decide (7999999 ≠ 0)) 7999999)[k]? := by
  rw [groupVerts_gear_outward, rootRadius_f32, tipRadius_f32]
  exact getElem?_flatMap_range 8
    (fun j => outwardVerts
      ⟨F32.lift Real.cos, F32.lift Real.sin, F32.liftSqrt Real.sqrt, F32.pi⟩
      4 4 1 8000000
      (outwardEntryNormal ⟨F32.lift Real.cos, F32.lift Real.sin, F32.liftSqrt Real.sqrt, F32.pi⟩
        8000000 j)
      (decide (j ≠ 0)) j) (by intro; rfl) 8000000 _ 7999999 k (by norm_num) hk

theorem risingNormal_f32 :
    risingNormal ⟨F32.lift Real.cos, F32.lift Real.sin, F32.liftSqrt Real.sqrt, F32.pi⟩
      4 4 8000000 7999999 = ⟨F32.nan, F32.nan, 0⟩ := by
  simp only [risingNormal]
  rw [risingUV_f32 _ rfl libm32_cos libm32_sin libm32_sqrt_zero]
  rfl

theorem fallingNormal_f32 :
    fallingNormal ⟨F32.lift Real.cos, F32.lift Real.sin, F32.liftSqrt Real.sqrt, F32.pi⟩
      4 4 8000000 7999999 = ⟨0, -0, 0⟩ := by
  simp only [fallingNormal]
  rw [fallingUV_f32 _ rfl libm32_cos libm32_sin]

/-- C8 (counterexample): in binary32, for `gear(1, 4, 1, 8000000, 0)`
(`r1 = r2 = 4`), at the last tooth, `i = 7999999`, the normal emitted for the
rising flank is `(NaN, NaN, 0)`, because `u`, `v` and `len` are zero, and the
normal emitted for the falling flank is `(0, -0, 0)`, because both end points
of the flank are computed at the same angle.  Neither has a strictly positive
dot product with an end point of its flank. -/
theorem C8_counterexample :
    ∃ vA vB vC vD : Vertex F32,
      (groupVerts (gear ⟨F32.lift Real.cos, F32.lift Real.sin, F32.liftSqrt Real.sqrt, F32.pi⟩
        1 4 1 8000000 0) 4)[8 * 7999999]? = some vA ∧
      (groupVerts (gear ⟨F32.lift Real.cos, F32.lift Real.sin, F32.liftSqrt Real.sqrt, F32.pi⟩
        1 4 1 8000000 0) 4)[8 * 7999999 + 2]? = some vB ∧
      (groupVerts (gear ⟨F32.lift Real.cos, F32.lift Real.sin, F32.liftSqrt Real.sqrt, F32.pi⟩
        1 4 1 8000000 0) 4)[8 * 7999999 + 4]? = some vC ∧
      (groupVerts (gear ⟨F32.lift Real.cos, F32.lift Real.sin, F32.liftSqrt Real.sqrt, F32.pi⟩
        1 4 1 8000000 0) 4)[8 * 7999999 + 6]? = some vD ∧
      vB.normal = ⟨F32.nan, F32.nan, 0⟩ ∧
      ¬ (0 < vB.normal.dot vA.pos) ∧
      ¬ (0 < vB.normal.dot vB.pos) ∧
      vD.normal = ⟨0, -0, 0⟩ ∧
      ¬ (0 < vD.normal.dot vC.pos) ∧
      ¬ (0 < vD.normal.dot vD.pos) := by
  refine ⟨_, _, _, _, outward_last_tooth_f32 0 (by norm_num),
    outward_last_tooth_f32 2 (by norm_num), outward_last_tooth_f32 4 (by norm_num),
    outward_last_tooth_f32 6 (by norm_num), risingNormal_f32, ?_, ?_, fallingNormal_f32,
    ?_, ?_⟩
  · show ¬ (0 < (risingNormal
      ⟨F32.lift Real.cos, F32.lift Real.sin, F32.liftSqrt Real.sqrt, F32.pi⟩
      4 4 8000000 7999999).dot _)
    rw [risingNormal_f32, dot_nan]
    exact F32.not_pos_nan
  · show ¬ (0 < (risingNormal
      ⟨F32.lift Real.cos, F32.lift Real.sin, F32.liftSqrt Real.sqrt, F32.pi⟩
      4 4 8000000 7999999).dot _)
    rw [risingNormal_f32, dot_nan]
    exact F32.not_pos_nan
  · show ¬ (0 < (fallingNormal
      ⟨F32.lift Real.cos, F32.lift Real.sin, F32.liftSqrt Real.sqrt, F32.pi⟩
      4 4 8000000 7999999).dot
      (polar ⟨F32.lift Real.cos, F32.lift Real.sin, F32.liftSqrt Real.sqrt, F32.pi⟩ 4
        (toothAngle ⟨F32.lift Real.cos, F32.lift Real.sin, F32.liftSqrt Real.sqrt, F32.pi⟩
            8000000 7999999 +
          2 * stepAngle ⟨F32.lift Real.cos, F32.lift Real.sin, F32.liftSqrt Real.sqrt, F32.pi⟩
            8000000)
        (1 * 0.5)))
    rw [fallingNormal_f32, angle_add_two_da _ rfl]
    exact not_pos_dot_zero _ _
  · show ¬ (0 < (fallingNormal
      ⟨F32.lift Real.cos, F32.lift Real.sin, F32.liftSqrt Real.sqrt, F32.pi⟩
      4 4 8000000 7999999).dot
      (polar ⟨F32.lift Real.cos, F32.lift Real.sin, F32.liftSqrt Real.sqrt, F32.pi⟩ 4
        (toothAngle ⟨F32.lift Real.cos, F32.lift Real.sin, F32.liftSqrt Real.sqrt, F32.pi⟩
            8000000 7999999 +
          3 * stepAngle ⟨F32.lift Real.cos, F32.lift Real.sin, F32.liftSqrt Real.sqrt, F32.pi⟩
            8000000)
        (1 * 0.5)))
    rw [fallingNormal_f32, angle_add_three_da _ rfl]
    exact not_pos_dot_zero _ _

end Claims

end Gears
